import Mathlib

/-!
pd-webserver: option handling and the start and stop methods

A shallow embedding of `src/src/main.c` (the option pipeline of the CivetWeb
stand-alone server) and of `src/pd-webserver.c` (the Pd object `webserver`).
`main.c` is taken as built for a system that is not Windows (`DIRSEP` is `/`,
`abs_path` is `realpath`), without `DAEMONIZE` and without `USE_LUA`.

Conventions of the embedding.

* A C string is a `String`: the bytes before the terminating NUL, one `Char`
  per byte.  `strcmp(a, b) == 0` is `a = b`.
* The option array `char *options[2 * MAX_OPTIONS + 1]` holds name/value
  pairs, `options[2*i]` the name and `options[2*i+1]` the value of pair `i`,
  and a NULL name ends it.  It is a `List (String × String)`: the pairs before
  the first NULL name, in array order.
* `malloc`/`realloc` succeed (so `sdup` returns a copy and never calls `die`).
* A call of `die` or `show_usage_and_exit` ends the process; it is the
  `Except.error` result of the function that reaches it.  So is a read or a
  write outside a fixed-size array, which C leaves undefined.
* The tables and constants of headers that are not among the sources
  (`mg_get_valid_options()`, `PATH_MAX`, `MAXPDSTRING`) are parameters.
-/

namespace PdWebserver

/-! ## Constants and types of `main.c` -/

/-- The macro `#define MAX_OPTIONS (50)`. -/
def MAX_OPTIONS : Nat := 50

/-- The macro `#define MAX_CONF_FILE_LINE_SIZE (8 * 1024)`. -/
def MAX_CONF_FILE_LINE_SIZE : Nat := 8 * 1024

/-- Modelled from the spec: the option kinds of `civetweb.h`, which is not
among the sources.  The spec lists the kinds STRING, NUMBER, BOOLEAN,
STRING_LIST, MULTILINE, FILE, DIRECTORY, EXT_PATTERN, TRISTATE and UNKNOWN;
the constructors carry the names `main.c` uses for them.  The field
`mg_option.type` is a C `int`, so a table entry can also hold a number that
is none of the enumerators: that is `MG_CONFIG_TYPE_other`. -/
inductive MgConfigType where
  | MG_CONFIG_TYPE_UNKNOWN
  | MG_CONFIG_TYPE_NUMBER
  | MG_CONFIG_TYPE_STRING
  | MG_CONFIG_TYPE_FILE
  | MG_CONFIG_TYPE_DIRECTORY
  | MG_CONFIG_TYPE_BOOLEAN
  | MG_CONFIG_TYPE_EXT_PATTERN
  | MG_CONFIG_TYPE_STRING_LIST
  | MG_CONFIG_TYPE_STRING_MULTILINE
  | MG_CONFIG_TYPE_YES_NO_OPTIONAL
  | MG_CONFIG_TYPE_other (code : Nat)
  deriving DecidableEq, Repr

open MgConfigType

/-- The `struct mg_option` of `civetweb.h`: `{name, type, default_value}`.  A table
of options is a list of entries; the entry with the NULL name that ends the C
array is the end of the list. -/
structure mg_option where
  name : String
  type : MgConfigType
  default_value : Option String
  deriving DecidableEq, Repr

/-- The table `main_config_options[]` (built without `DAEMONIZE`). -/
def main_config_options : List mg_option :=
  [ ⟨"title", MG_CONFIG_TYPE_STRING, none⟩,
    ⟨"icon", MG_CONFIG_TYPE_STRING, none⟩,
    ⟨"website", MG_CONFIG_TYPE_STRING, none⟩,
    ⟨"add_domain", MG_CONFIG_TYPE_STRING_LIST, none⟩,
    ⟨"hide_tray", MG_CONFIG_TYPE_BOOLEAN, none⟩ ]

/-- The anonymous `enum` that indexes `main_config_options`. -/
def OPTION_TITLE : Nat := 0
/-- Index of `icon`. -/
def OPTION_ICON : Nat := 1
/-- Index of `website`. -/
def OPTION_WEBPAGE : Nat := 2
/-- Index of `add_domain`. -/
def OPTION_ADD_DOMAIN : Nat := 3
/-- Index of `hide_tray`. -/
def OPTION_HIDE_TRAY : Nat := 4

/-- The name `main_config_options[i].name`. -/
def main_option_name (i : Nat) : String :=
  match main_config_options.get? i with
  | some o => o.name
  | none => ""

/-- Ways in which a function of `main.c` does not return to its caller. -/
inductive Abort where
  /-- The call `die(fmt, ...)`: the message is printed and the process exits with
  `EXIT_FAILURE`. -/
  | die (msg : String)
  /-- The call `show_usage_and_exit(exeName)`. -/
  | show_usage_and_exit
  /-- An access outside the bounds of a fixed-size array (behaviour undefined
  in C). -/
  | out_of_bounds
  deriving DecidableEq, Repr

/-- The file-scope variables of `main.c` that option handling writes.  A
pointer that may be NULL is an `Option`. -/
structure Globals where
  g_server_name : Option String
  g_icon_name : Option String
  g_website : Option String
  g_num_add_domains : Int
  g_add_domain : List String
  g_hide_tray : Int
  g_config_file_name : String
  deriving DecidableEq, Repr

/-- The option array, see the conventions at the head of the file. -/
abbrev Options := List (String × String)

/-! ## `<ctype.h>` and `strtoul` in the "C" locale -/

/-- The function `isspace` of the "C" locale: space, `\t`, `\n`, `\v`, `\f`, `\r`. -/
def isspace (c : Char) : Bool :=
  c.toNat = 32 || (9 ≤ c.toNat && c.toNat ≤ 13)

/-- The function `iscntrl` of the "C" locale: the codes 0 to 31 and 127. -/
def iscntrl (c : Char) : Bool :=
  c.toNat < 32 || c.toNat = 127

/-- The function `isdigit`. -/
def isdigit (c : Char) : Bool :=
  48 ≤ c.toNat && c.toNat ≤ 57

/-- After the white space, `strtoul` takes one optional sign, `+` or `-`. -/
def strtoul_sign : List Char → Nat × List Char
  | c :: t => if c = '+' ∨ c = '-' then (1, t) else (0, c :: t)
  | [] => (0, [])

/-- The offset `chk - value` that `strtoul(value, &chk, 10)` leaves (ISO C
7.22.1.4): leading white space, an optional sign and a non-empty run of decimal
digits are consumed; when there is no digit at that place nothing is converted
and `chk == value`.  The number itself is discarded by the caller
(`(void)num`). -/
def strtoul_end (value : List Char) : Nat :=
  let ws := value.takeWhile isspace
  let r := strtoul_sign (value.dropWhile isspace)
  let digits := r.2.takeWhile isdigit
  if digits.length = 0 then 0 else ws.length + r.1 + digits.length

/-- The char `s[i]` of a C string: the char at index `i`, the terminating NUL
at the length of the string. -/
def char_at (s : String) (i : Nat) : Char :=
  s.toList.getD i (Char.ofNat 0)

/-- The first `n` chars of a string. -/
def str_take (n : Nat) (s : String) : String :=
  String.mk (s.toList.take n)

/-- The string `s + n`: the string without its first `n` chars. -/
def str_drop (n : Nat) (s : String) : String :=
  String.mk (s.toList.drop n)

/-- What `snprintf(buf, n, "%s", s)` and its like store: the formatted text
cut to `n - 1` chars. -/
def snprintf (n : Nat) (s : String) : String :=
  str_take (n - 1) s

/-- The call `strncat(dst, src, n)`: at most `n` chars of `src` are appended. -/
def strncat (dst src : String) (n : Nat) : String :=
  dst ++ str_take n src

/-- The chars before the last `/` of a path; `none` when
`strrchr(path, DIRSEP)` is NULL. -/
def dir_before_last_sep : List Char → Option (List Char)
  | [] => none
  | c :: t =>
    match dir_before_last_sep t with
    | some d => some (c :: d)
    | none => if c = '/' then some [] else none

/-! ## `get_option` and `set_option` -/

/-- The function `get_option(options, option_name)`: the value of the first pair whose
name is `option_name`, NULL (`none`) when there is none. -/
def get_option : Options → String → Option String
  | [], _ => none
  | (k, v) :: rest, option_name =>
    if k = option_name then some v else get_option rest option_name

/-- The body of the first loop of `set_option`.  `some g` is `return 1` with
the globals `g`; `none` is falling through to the end of the body. -/
def main_option_body (g : Globals) (name value : String) : Option Globals :=
  if name = main_option_name OPTION_TITLE then
    some { g with g_server_name := some value }
  else if name = main_option_name OPTION_ICON then
    some { g with g_icon_name := some value }
  else if name = main_option_name OPTION_WEBPAGE then
    some { g with g_website := some value }
  else if name = main_option_name OPTION_HIDE_TRAY then
    if value = "yes" then some { g with g_hide_tray := 1 }
    else if value = "no" then some { g with g_hide_tray := 0 }
    else some g
  else if name = main_option_name OPTION_ADD_DOMAIN then
    if g.g_num_add_domains > 0 then
      some { g with g_add_domain := g.g_add_domain ++ [value],
                    g_num_add_domains := g.g_num_add_domains + 1 }
    else
      some { g with g_add_domain := [value], g_num_add_domains := 1 }
  else none

/-- The loop `for (i = 0; main_config_options[i].name != NULL; i++)` of
`set_option`; the body does not read `i`. -/
def main_option_loop (g : Globals) (name value : String) :
    List mg_option → Option Globals
  | [] => none
  | _ :: rest =>
    match main_option_body g name value with
    | some g1 => some g1
    | none => main_option_loop g name value rest

/-- The second loop of `set_option`: the type of the first entry of
`default_options` named `name`, `MG_CONFIG_TYPE_UNKNOWN` when there is none. -/
def find_type (name : String) : List mg_option → MgConfigType
  | [] => MG_CONFIG_TYPE_UNKNOWN
  | o :: rest => if o.name = name then o.type else find_type name rest

/-- The `switch (type)` of `set_option`.  `ok none` is `return 0`,
`ok (some multi_sep)` leaves the switch with that `multi_sep` (NULL is `none`),
and the default label calls `die`. -/
def check_type (type : MgConfigType) (name value : String) :
    Except Abort (Option (Option String)) :=
  match type with
  | MG_CONFIG_TYPE_UNKNOWN => .ok none
  | MG_CONFIG_TYPE_NUMBER =>
    let chk := strtoul_end value.toList
    if chk < value.toList.length ∨ chk = 0 then .ok none else .ok (some none)
  | MG_CONFIG_TYPE_STRING => .ok (some none)
  | MG_CONFIG_TYPE_STRING_LIST => .ok (some (some ","))
  | MG_CONFIG_TYPE_STRING_MULTILINE => .ok (some (some "\r\n"))
  | MG_CONFIG_TYPE_BOOLEAN =>
    if value ≠ "yes" ∧ value ≠ "no" then .ok none else .ok (some none)
  | MG_CONFIG_TYPE_YES_NO_OPTIONAL =>
    if value ≠ "yes" ∧ value ≠ "no" ∧ value ≠ "optional" then .ok none
    else .ok (some none)
  | MG_CONFIG_TYPE_FILE => .ok (some none)
  | MG_CONFIG_TYPE_DIRECTORY => .ok (some none)
  | MG_CONFIG_TYPE_EXT_PATTERN => .ok (some (some "|"))
  | MG_CONFIG_TYPE_other _ =>
    .error (.die ("Unknown option type - option " ++ name))

/-- The loop `for (i = 0; i < MAX_OPTIONS; i++)` of `set_option`, with
`left = MAX_OPTIONS - i` and the pairs from index `i` on.  `none` is leaving
the loop with `i == MAX_OPTIONS`. -/
def store_option (name value : String) (multi_sep : Option String) :
    Nat → Options → Option Options
  | 0, _ => none
  | _ + 1, [] => some [(name, value)]
  | left + 1, (k, v) :: rest =>
    if k = name then
      match multi_sep with
      | some sep => some ((k, v ++ sep ++ value) :: rest)
      | none => some ((k, value) :: rest)
    else
      match store_option name value multi_sep left rest with
      | some rest1 => some ((k, v) :: rest1)
      | none => none

/-- The function `set_option(options, name, value)`.  The table `mg_get_valid_options()`
of the server engine is not among the sources and is the parameter
`default_options`.  The result is the returned `int` with the globals and the
option array after the call.  (`set_option` is a reserved word of Lean, hence
the name.) -/
def setOption (default_options : List mg_option) (g : Globals)
    (options : Options) (name value : String) :
    Except Abort (Int × Globals × Options) :=
  match main_option_loop g name value main_config_options with
  | some g1 => .ok (1, g1, options)
  | none =>
    match check_type (find_type name default_options) name value with
    | .error e => .error e
    | .ok none => .ok (0, g, options)
    | .ok (some multi_sep) =>
      match store_option name value multi_sep MAX_OPTIONS options with
      | none => .error (.die "Too many options specified")
      | some options1 => .ok (1, g, options1)

/-! ## The environment of the process -/

/-- What the process sees of the file system, as fixed oracles.
* `fopen path` is the contents of the file when `fopen(path, "r")` succeeds.
* `realpath path` is the canonical absolute path when `realpath` succeeds.
* `realpath_failed path` is what the output array holds after a `realpath`
  that returned NULL (POSIX leaves it unspecified).
* `getcwd` is what `path` holds after `getcwd(path, sizeof(path))`.
* `stat path` is `some isdir` when `stat(path, &st)` is 0, `isdir` being
  `S_ISDIR(st.st_mode)`. -/
structure Env where
  fopen : String → Option (List Char)
  realpath : String → Option String
  realpath_failed : String → String
  getcwd : String
  stat : String → Option Bool

/-- A line written to `stderr` about an option that `set_option` refused. -/
inductive Diagnostic where
  /-- The format `"%s: line %d is invalid, ignoring it:\n %s"` with the file, the line
  number and the string at `p`. -/
  | config_line (config_file : String) (line_no : Nat) (p : String)
  /-- The format `"command line option is invalid, ignoring it:\n %s %s\n"`. -/
  | command_line (arg value : String)
  /-- The warning `"Invalid path for %s: [%s]: (%s). ..."` of `verify_existence`
  with the name of the option and the path. -/
  | invalid_path (option_name path : String)
  deriving DecidableEq, Repr

/-- The state the configuration functions thread: the globals, the option
array and the lines written to `stderr`. -/
structure Config where
  g : Globals
  options : Options
  stderr : List Diagnostic
  deriving DecidableEq, Repr

/-! ## `read_config_file` -/

/-- The array `char line[MAX_CONF_FILE_LINE_SIZE]`: the char at each index.
Only indexes below the size of the array are read or written. -/
abbrev Buffer := Nat → Char

/-- The NUL char. -/
def NUL : Char := Char.ofNat 0

/-- Store the chars `cs` from index 0 on. -/
def buf_write (b : Buffer) (cs : List Char) : Buffer :=
  fun k => if k < cs.length then cs.getD k NUL else b k

/-- The assignment `line[i] = c`. -/
def buf_set (b : Buffer) (i : Nat) (c : Char) : Buffer :=
  fun k => if k = i then c else b k

/-- The chars one call of `fgets` takes from the stream when there is room for
`n` of them: up to and with the first newline, at most `n`.  The result is the
chars taken and the rest of the stream. -/
def fgets_read : Nat → List Char → List Char × List Char
  | 0, s => ([], s)
  | _ + 1, [] => ([], [])
  | n + 1, c :: s =>
    if c = '\n' then ([c], s)
    else ((c :: (fgets_read n s).1), (fgets_read n s).2)

/-- The call `fgets(line, size, fp)`: `none` is the NULL at end of file; otherwise the
chars taken and a NUL are stored at the start of `line`. -/
def fgets (line : Buffer) (size : Nat) (stream : List Char) :
    Option (Buffer × List Char) :=
  match stream with
  | [] => none
  | _ :: _ =>
    some (buf_write line ((fgets_read (size - 1) stream).1 ++ [NUL]),
          (fgets_read (size - 1) stream).2)

/-- A loop `while (!stop(line[j])) j++` from index `j` on, in an array of
`size` chars; `fuel` is at least `size - j`.  The result is the first index at
which `stop` holds; reading at `size` or beyond is `out_of_bounds`. -/
def scan (size : Nat) (b : Buffer) (stop : Char → Bool) :
    Nat → Nat → Except Abort Nat
  | 0, _ => .error .out_of_bounds
  | fuel + 1, j =>
    if size ≤ j then .error .out_of_bounds
    else if stop (b j) then .ok j
    else scan size b stop fuel (j + 1)

/-- The loop `for (j = strlen(p); (j > 0) && (isspace(p[j - 1]) ||
iscntrl(p[j - 1]));) p[--j] = 0;` where `p = line + off`, started at `j`. -/
def strip_trailing (off : Nat) : Nat → Buffer → Buffer
  | 0, b => b
  | j + 1, b =>
    if isspace (b (off + j)) || iscntrl (b (off + j)) then
      strip_trailing off j (buf_set b (off + j) NUL)
    else b

/-- The C string that starts at index `j` of the array: the chars before the
next NUL. -/
def cstr (size : Nat) (b : Buffer) : Nat → Nat → Except Abort (List Char)
  | 0, _ => .error .out_of_bounds
  | fuel + 1, j =>
    if size ≤ j then .error .out_of_bounds
    else if b j = NUL then .ok []
    else
      match cstr size b fuel (j + 1) with
      | .ok cs => .ok (b j :: cs)
      | .error e => .error e

/-- What the body of the loop of `read_config_file` finds in one line. -/
structure ParsedLine where
  /-- The array after the body has written its NULs. -/
  line : Buffer
  /-- The indexes `i` and `j` (relative to `p`) at the call of `set_option`. -/
  i : Nat
  j : Nat
  /-- The strings at `p + i` and `p + j`. -/
  name : String
  value : String
  /-- The string at `p`, printed when the option is refused. -/
  text : String

/-- The body of the loop of `read_config_file` from `/* Ignore empty lines and
comments */` to the arguments of `set_option`, with `p = line + off`.
`ok none` is the `continue`. -/
def parse_line (size : Nat) (line : Buffer) (off : Nat) :
    Except Abort (Option ParsedLine) :=
  match scan size line (fun c => !isspace c) size off with
  | .error e => .error e
  | .ok ai =>
    if line ai = '#' ∨ line ai = NUL then .ok none
    else
      match scan size line (fun c => c == NUL) size off with
      | .error e => .error e
      | .ok aend =>
        let line1 := strip_trailing off (aend - off) line
        match scan size line1 (fun c => isspace c || c == NUL) size ai with
        | .error e => .error e
        | .ok aj =>
          let line2 := buf_set line1 aj NUL
          match scan size line2 (fun c => !isspace c) size (aj + 1) with
          | .error e => .error e
          | .ok av =>
            match cstr size line2 size ai, cstr size line2 size av,
                  cstr size line2 size off with
            | .ok name, .ok value, .ok text =>
              .ok (some ⟨line2, ai - off, av - off, String.mk name,
                         String.mk value, String.mk text⟩)
            | .error e, _, _ => .error e
            | _, .error e, _ => .error e
            | _, _, .error e => .error e

/-- The test `!line_no && !memcmp(line, "\xEF\xBB\xBF", 3)` gives `p = line +
3`, otherwise `p = line`. -/
def bom_offset (line : Buffer) (line_no : Nat) : Nat :=
  if line_no = 0 ∧ line 0 = Char.ofNat 0xEF ∧ line 1 = Char.ofNat 0xBB
      ∧ line 2 = Char.ofNat 0xBF then 3 else 0

/-- The loop `while (fgets(line, sizeof(line), fp) != NULL)` of
`read_config_file`.  Each turn takes at least one char from the stream, so a
`fuel` above the length of the stream is never used up. -/
def read_config_loop (default_options : List mg_option) (config_file : String)
    (size : Nat) : Nat → Buffer → Nat → List Char → Config →
    Except Abort Config
  | 0, _, _, _, st => .ok st
  | fuel + 1, line, line_no, stream, st =>
    match fgets line size stream with
    | none => .ok st
    | some (line1, rest) =>
      match parse_line size line1 (bom_offset line1 line_no) with
      | .error e => .error e
      | .ok none =>
        read_config_loop default_options config_file size fuel line1
          (line_no + 1) rest st
      | .ok (some pl) =>
        match setOption default_options st.g st.options pl.name pl.value with
        | .error e => .error e
        | .ok (r, g1, options1) =>
          read_config_loop default_options config_file size fuel pl.line
            (line_no + 1) rest
            { g := g1, options := options1,
              stderr :=
                if r = 0 then
                  st.stderr ++ [.config_line config_file (line_no + 1) pl.text]
                else st.stderr }

/-- The function `read_config_file(config_file, options)`: the returned `int` and the state
after the call.  `line0` is what the array `line` holds when the function is
entered (it is not initialised). -/
def read_config_file (default_options : List mg_option) (env : Env)
    (line0 : Buffer) (config_file : String) (st : Config) :
    Except Abort (Int × Config) :=
  match env.fopen config_file with
  | none => .ok (0, st)
  | some content =>
    match read_config_loop default_options config_file MAX_CONF_FILE_LINE_SIZE
            (content.length + 1) line0 0 content st with
    | .error e => .error e
    | .ok st1 => .ok (1, st1)

/-! ## `process_command_line_arguments` -/

/-- The macro `#define CONFIG_FILE "civetweb.conf"`. -/
def CONFIG_FILE : String := "civetweb.conf"

/-- What the build fixes outside `main.c`: `PATH_MAX` of `<limits.h>` (1024
when the header has none) and `CONFIG_FILE2`, which is
`"/usr/local/etc/civetweb.conf"` on Linux and not defined elsewhere. -/
structure Build where
  PATH_MAX : Nat
  CONFIG_FILE2 : Option String

/-- The first `if` of `process_command_line_arguments`: the name stored in
`g_config_file_name` and `cmd_line_opts_start`.  `argv0` is `argv[0]` and
`args` are `argv[1]` to `argv[argc - 1]`. -/
def choose_config_file (b : Build) (argv0 : String) (args : List String) :
    String × Nat :=
  match args with
  | a :: _ =>
    if char_at a 0 ≠ '-' ∧ char_at a 0 ≠ NUL then
      (snprintf (b.PATH_MAX - 1) a, 2)
    else
      match dir_before_last_sep argv0.toList with
      | none => (snprintf (b.PATH_MAX - 1) CONFIG_FILE, 1)
      | some d =>
        (snprintf (b.PATH_MAX - 1) (String.mk d ++ "/" ++ CONFIG_FILE), 1)
  | [] =>
    match dir_before_last_sep argv0.toList with
    | none => (snprintf (b.PATH_MAX - 1) CONFIG_FILE, 1)
    | some d =>
      (snprintf (b.PATH_MAX - 1) (String.mk d ++ "/" ++ CONFIG_FILE), 1)

/-- The block under `#if defined(CONFIG_FILE2)`: when the chosen file does not
open and `CONFIG_FILE2` does, its name is copied to `g_config_file_name`. -/
def alternate_config_file (b : Build) (env : Env) (name : String) :
    Except Abort String :=
  match b.CONFIG_FILE2 with
  | none => .ok name
  | some file2 =>
    match env.fopen name with
    | some _ => .ok name
    | none =>
      match env.fopen file2 with
      | some _ => if file2.length + 1 ≤ b.PATH_MAX then .ok file2
                  else .error .out_of_bounds
      | none => .ok name

/-- The loop `for (i = cmd_line_opts_start; argv[i] != NULL; i += 2)`, on the
arguments from `argv[i]` on. -/
def command_line_loop (default_options : List mg_option) :
    List String → Config → Except Abort Config
  | [], st => .ok st
  | [_], _ => .error .show_usage_and_exit
  | a :: v :: rest, st =>
    if char_at a 0 ≠ '-' then .error .show_usage_and_exit
    else
      match setOption default_options st.g st.options (str_drop 1 a) v with
      | .error e => .error e
      | .ok (r, g1, options1) =>
        command_line_loop default_options rest
          { g := g1, options := options1,
            stderr :=
              if r = 0 then st.stderr ++ [.command_line a v] else st.stderr }

/-- The first half of `process_command_line_arguments`, up to and with the
call of `read_config_file` and the `die` that may follow it.  The result is
`cmd_line_opts_start` and the state.  (The text of `strerror(errno)` at the end
of the message of `die` is left out.) -/
def load_config_file (b : Build) (default_options : List mg_option) (env : Env)
    (line0 : Buffer) (argv0 : String) (args : List String) (st : Config) :
    Except Abort (Nat × Config) :=
  match alternate_config_file b env (choose_config_file b argv0 args).1 with
  | .error e => .error e
  | .ok name =>
    match read_config_file default_options env line0 name
            { st with g := { st.g with g_config_file_name := name } } with
    | .error e => .error e
    | .ok (r, st1) =>
      if r = 0 ∧ (choose_config_file b argv0 args).2 = 2 then
        .error (.die ("Cannot open config file " ++ name))
      else .ok ((choose_config_file b argv0 args).2, st1)

/-- The second half of `process_command_line_arguments`: the command line
flags, skipped when `argv[1]` begins with `-psn_`. -/
def apply_command_line (default_options : List mg_option)
    (args : List String) (start : Nat) (st : Config) : Except Abort Config :=
  match args with
  | [] => command_line_loop default_options [] st
  | a :: _ =>
    if a.toList.take 5 = "-psn_".toList then .ok st
    else command_line_loop default_options (args.drop (start - 1)) st

/-- The function `process_command_line_arguments(argc, argv, options)`. -/
def process_command_line_arguments (b : Build)
    (default_options : List mg_option) (env : Env) (line0 : Buffer)
    (argv0 : String) (args : List String) (st : Config) :
    Except Abort Config :=
  match load_config_file b default_options env line0 argv0 args st with
  | .error e => .error e
  | .ok (start, st1) => apply_command_line default_options args start st1

/-! ## Absolute paths and their verification -/

/-- The function `is_path_absolute(path)` of the build that is not for Windows. -/
def is_path_absolute (path : Option String) : Bool :=
  match path with
  | none => false
  | some s => char_at s 0 == '/'

/-- The string in `path` at the call of `abs_path` in `set_absolute_path`:
the directory of the executable (or the output of `getcwd`), then `/`, then the
value of the option, each cut to the room left in `char path[PATH_MAX]`. -/
def exe_relative_path (b : Build) (env : Env) (option_value : String)
    (path_to_civetweb_exe : String) : String :=
  let dir :=
    match dir_before_last_sep path_to_civetweb_exe.toList with
    | none => env.getcwd
    | some d => snprintf (b.PATH_MAX - 1) (String.mk d)
  let path1 := strncat dir "/" (b.PATH_MAX - dir.length - 1)
  strncat path1 option_value (b.PATH_MAX - path1.length - 1)

/-- What `absolute` holds after `abs_path(path, absolute, sizeof(absolute))`,
which is `realpath(path, absolute)`; the returned pointer is not looked at. -/
def abs_path (env : Env) (path : String) : String :=
  match env.realpath path with
  | some c => c
  | none => env.realpath_failed path

/-- The function `set_absolute_path(options, option_name, path_to_civetweb_exe)`; the value
`set_option` returns is dropped. -/
def set_absolute_path (b : Build) (default_options : List mg_option)
    (env : Env) (st : Config) (option_name path_to_civetweb_exe : String) :
    Except Abort Config :=
  match get_option st.options option_name with
  | none => .ok st
  | some option_value =>
    if is_path_absolute (some option_value) then .ok st
    else
      match setOption default_options st.g st.options option_name
              (abs_path env
                (exe_relative_path b env option_value path_to_civetweb_exe)) with
      | .error e => .error e
      | .ok (_, g1, options1) => .ok { st with g := g1, options := options1 }

/-! ## `pd-webserver.c` -/

/-- The struct `t_webserver` of `inter.h`, the fields the methods use.  `x_canvas` stands
for the directory name `canvas_getdir(x->x_canvas)->s_name`, and `options` for
the pairs of the array `x->options` (the same layout as in `main.c`). -/
structure t_webserver where
  x_canvas : String
  exitNow : Int
  options : Options
  started : Int
  deriving DecidableEq, Repr

/-- What a method of the object can change: the object, the lines written
with `logpost`, and the number of threads made by `pthread_create` with the
start routine `lmain` and the argument `x`. -/
structure PdState where
  x : t_webserver
  log : List String
  threads : Nat
  deriving DecidableEq, Repr

/-- The call `strcpy(dst, src)` into an empty array of `size` chars: the string and its
NUL must fit. -/
def strcpy (size : Nat) (src : String) : Except Abort String :=
  if src.length + 1 ≤ size then .ok src else .error .out_of_bounds

/-- The call `strcat(dst, src)` where `dst` is an array of `size` chars holding the
string `dst`. -/
def strcat (size : Nat) (dst src : String) : Except Abort String :=
  if dst.length + src.length + 1 ≤ size then .ok (dst ++ src)
  else .error .out_of_bounds

/-- The test of the second branch of `webserver_main`: a letter `A`-`Z` or
`a`-`z`, then `:`, then `/`. -/
def is_drive_path (s : String) : Bool :=
  ((decide ('A' ≤ char_at s 0) && decide (char_at s 0 ≤ 'Z'))
    || (decide ('a' ≤ char_at s 0) && decide (char_at s 0 ≤ 'z')))
  && char_at s 1 == ':' && char_at s 2 == '/'

/-- The contents of `completefolder` that `webserver_main` computes from
`folder->s_name` and the canvas directory.  `MAXPDSTRING`, the size of the
array, comes from Pd's `m_pd.h` and is a parameter. -/
def completefolder (MAXPDSTRING : Nat) (canvas_dir folder : String) :
    Except Abort String :=
  if char_at folder 0 = '/' then
    strcpy MAXPDSTRING folder
  else if is_drive_path folder then
    strcpy MAXPDSTRING folder
  else
    match strcpy MAXPDSTRING canvas_dir with
    | .error e => .error e
    | .ok c1 =>
      match strcat MAXPDSTRING c1 "/" with
      | .error e => .error e
      | .ok c2 => strcat MAXPDSTRING c2 folder

/-- The output of `sprintf(nnum, "%d", num)`. -/
def sprintf_d (num : Int) : String :=
  match num with
  | Int.ofNat n => Nat.repr n
  | Int.negSucc n => "-" ++ Nat.repr (n + 1)

/-- The function `webserver_main(x, folder, port)`, the method `start`.  `port` is the
value of `(int)port`; `nnum` is an array of 10 chars.  The array `x->options`
first gets `"."` and `"8080"` at the indexes 1 and 3, which are overwritten
with `completefolder` and `nnum` before the thread is made. -/
def webserver_main (MAXPDSTRING : Nat) (s : PdState) (folder : String)
    (port : Int) : Except Abort PdState :=
  if s.x.started ≠ 0 then
    .ok { s with log := s.log ++ ["Server already running."] }
  else
    match completefolder MAXPDSTRING s.x.x_canvas folder with
    | .error e => .error e
    | .ok root =>
      match strcpy 10 (sprintf_d port) with
      | .error e => .error e
      | .ok nnum =>
        .ok { s with
              x := { s.x with
                     options :=
                       [ ("document_root", root),
                         ("listening_ports", nnum),
                         ("request_timeout_ms", "10000"),
                         ("error_log_file", "error.log"),
                         ("enable_auth_domain_check", "no") ],
                     exitNow := 0 },
              threads := s.threads + 1 }

/-- The function `webserver_free(x)`, also the method `stop`. -/
def webserver_free (s : PdState) : PdState :=
  { s with x := { s.x with exitNow := 1 } }

/-- The function `webserver_new()`: `fresh` is the object `pd_new` returns and `canvas` the
directory of `canvas_getcurrent()`. -/
def webserver_new (fresh : t_webserver) (canvas : String) : t_webserver :=
  { fresh with x_canvas := canvas, started := 0 }

/-- The option list that `fmain(x)` of `main.c` passes to `mg_start`: the
local array `options`, which does not depend on `x`. -/
def fmain_options (_x : t_webserver) : Options :=
  [ ("document_root", "D:/00server"), ("listening_ports", "8080") ]

/-! ## Words of the specification -/

/-- The controller-private names: the names of `main_config_options`. -/
def main_option_names : List String :=
  main_config_options.map (fun o => o.name)

/-- The separator the specification gives each list-like kind: `,` for
STRING_LIST, CRLF for MULTILINE, `|` for EXT_PATTERN; the other kinds have
none. -/
def kind_separator : MgConfigType → Option String
  | MG_CONFIG_TYPE_STRING_LIST => some ","
  | MG_CONFIG_TYPE_STRING_MULTILINE => some "\r\n"
  | MG_CONFIG_TYPE_EXT_PATTERN => some "|"
  | _ => none

/-- The scalar kinds of the specification: STRING, NUMBER, BOOLEAN, TRISTATE,
FILE and DIRECTORY. -/
def is_scalar_kind : MgConfigType → Bool
  | MG_CONFIG_TYPE_STRING => true
  | MG_CONFIG_TYPE_NUMBER => true
  | MG_CONFIG_TYPE_BOOLEAN => true
  | MG_CONFIG_TYPE_YES_NO_OPTIONAL => true
  | MG_CONFIG_TYPE_FILE => true
  | MG_CONFIG_TYPE_DIRECTORY => true
  | _ => false

/-- The two facts that hold of every option array `main.c` builds: it has room
for `MAX_OPTIONS` pairs only, and `set_option` never stores a
controller-private name in it (`options_inv_nil`, `options_inv_setOption`). -/
def options_inv (options : Options) : Prop :=
  options.length ≤ MAX_OPTIONS ∧ ∀ p ∈ options, p.1 ∉ main_option_names

/-- The value `set_option` stores for a name that is present with `v1`. -/
def merged_value (multi_sep : Option String) (v1 value : String) : String :=
  match multi_sep with
  | some sep => v1 ++ sep ++ value
  | none => value

/-- The words of the specification for a NUMBER: a base-10 non-negative
integer with no trailing garbage, that is a non-empty string of decimal
digits. -/
def is_decimal_number (value : String) : Bool :=
  !value.toList.isEmpty && value.toList.all isdigit

/-- The words of the specification: the folder begins with `/`. -/
def begins_with_slash (folder : String) : Bool :=
  match folder.toList with
  | c :: _ => c == '/'
  | [] => false

/-- The words of the specification: the drive-letter form, an ASCII letter,
then `:`, then `/`. -/
def drive_letter_form (folder : String) : Bool :=
  match folder.toList with
  | c0 :: c1 :: c2 :: _ =>
    ((decide ('A' ≤ c0) && decide (c0 ≤ 'Z')) || (decide ('a' ≤ c0) && decide (c0 ≤ 'z')))
      && c1 == ':' && c2 == '/'
  | _ => false

/-- The words of the specification: the effective root is the folder as it is
when it is absolute, and the canvas directory, a separator and the folder
otherwise. -/
def effective_root (canvas_dir folder : String) : String :=
  if begins_with_slash folder || drive_letter_form folder then folder
  else canvas_dir ++ "/" ++ folder

/-- A file system that holds only `civetweb.conf`, with the given text. -/
def conf_env (text : String) : Env :=
  { fopen := fun path => if path = "civetweb.conf" then some text.toList else none,
    realpath := fun _ => none,
    realpath_failed := fun _ => "",
    getcwd := "/",
    stat := fun _ => none }

/-- Two entries of an engine table: `document_root` is a directory and
`listening_ports` a list, as in the table of CivetWeb. -/
def ports_list_table : List mg_option :=
  [ ⟨"document_root", MG_CONFIG_TYPE_DIRECTORY, none⟩,
    ⟨"listening_ports", MG_CONFIG_TYPE_STRING_LIST, some "8080"⟩ ]

/-- Two entries of an engine table in which `listening_ports` is a scalar
string. -/
def ports_scalar_table : List mg_option :=
  [ ⟨"document_root", MG_CONFIG_TYPE_DIRECTORY, none⟩,
    ⟨"listening_ports", MG_CONFIG_TYPE_STRING, some "8080"⟩ ]

/-- The state `start_civetweb` hands to `process_command_line_arguments`: the
array after `set_option(options, "document_root", ".")`. -/
def seeded : Config :=
  { g := ⟨none, none, none, 0, [], 0, ""⟩,
    options := [("document_root", ".")],
    stderr := [] }

/-- A file system without symbolic links in which `/opt/app/bin/data` exists:
`realpath` gives that path back. -/
def app_env : Env :=
  { fopen := fun _ => none,
    realpath := fun path =>
      if path = "/opt/app/bin/data" then some "/opt/app/bin/data" else none,
    realpath_failed := fun _ => "",
    getcwd := "/",
    stat := fun path => if path = "/opt/app/bin/data" then some true else none }

/-! ## `verify_existence`, `sanitize_options` and `start_civetweb` -/

/-- The function `verify_existence(options, option_name, must_be_dir)`: the
returned `int` and the state, which gets the warning when the check fails. -/
def verify_existence (env : Env) (st : Config) (option_name : String)
    (must_be_dir : Int) : Int × Config :=
  match get_option st.options option_name with
  | none => (1, st)
  | some path =>
    match env.stat path with
    | none =>
      (0, { st with stderr := st.stderr ++ [.invalid_path option_name path] })
    | some isdir =>
      if (if isdir then (1 : Int) else 0) ≠ must_be_dir then
        (0, { st with stderr := st.stderr ++ [.invalid_path option_name path] })
      else (1, st)

/-- The options `sanitize_options` passes to `set_absolute_path`, in the order
of the calls (built without `USE_LUA`). -/
def absolute_path_options : List String :=
  [ "document_root", "put_delete_auth_file", "cgi_interpreter",
    "access_log_file", "error_log_file", "global_auth_file", "ssl_certificate" ]

/-- The options `sanitize_options` passes to `verify_existence`, each with its
`must_be_dir`, in the order of the calls (built without `USE_LUA`). -/
def verified_options : List (String × Int) :=
  [ ("document_root", 1), ("cgi_interpreter", 0), ("ssl_certificate", 0),
    ("ssl_ca_path", 1), ("ssl_ca_file", 0) ]

/-- The calls of `set_absolute_path` in `sanitize_options`, one after the
other. -/
def set_absolute_paths (b : Build) (default_options : List mg_option)
    (env : Env) (arg0 : String) : List String → Config → Except Abort Config
  | [], st => .ok st
  | name :: rest, st =>
    match set_absolute_path b default_options env st name arg0 with
    | .error e => .error e
    | .ok st1 => set_absolute_paths b default_options env arg0 rest st1

/-- The statements `if (!verify_existence(options, name, dir)) ok = 0;` of
`sanitize_options`, one after the other, from the value `ok` on. -/
def verify_all (env : Env) : List (String × Int) → Int → Config → Int × Config
  | [], ok, st => (ok, st)
  | (name, dir) :: rest, ok, st =>
    verify_all env rest
      (if (verify_existence env st name dir).1 = 0 then 0 else ok)
      (verify_existence env st name dir).2

/-- The function `sanitize_options(options, arg0)`: the returned `ok` and the
state. -/
def sanitize_options (b : Build) (default_options : List mg_option) (env : Env)
    (st : Config) (arg0 : String) : Except Abort (Int × Config) :=
  match set_absolute_paths b default_options env arg0 absolute_path_options st with
  | .error e => .error e
  | .ok st1 => .ok (verify_all env verified_options 1 st1)

/-- What `mg_start` of the server engine returns: a context, or NULL with the
first message the log callback got. -/
inductive MgStart where
  | context
  | null (first_message : Option String)
  deriving DecidableEq, Repr

/-- The ways `start_civetweb` ends. -/
inductive StartResult where
  /-- One of the branches for `-I`, `-A`, `-R`, `-C`, `-L`, `-E` called
  `exit`; the engine was not started. -/
  | exit (branch : String)
  /-- The process ended in `die` or `show_usage_and_exit` before the call of
  `mg_start`. -/
  | abort (a : Abort)
  /-- The function `mg_start` was called with the options of the state and
  returned NULL: `die("Failed to start ...")`. -/
  | mg_start_failed (st : Config) (first_message : Option String)
  /-- The function `mg_start` was called with the options of the state and
  returned a context. -/
  | running (st : Config)

/-- The part of `start_civetweb` from `/* Initialize options structure */` on:
the seeded default, the command line, `sanitize_options` and `mg_start`.
`mg_start` is the entry point of the engine, an oracle on the option array. -/
def start_server (b : Build) (default_options : List mg_option) (env : Env)
    (line0 : Buffer) (mg_start : Options → MgStart) (g : Globals)
    (argv0 : String) (args : List String) : StartResult :=
  match setOption default_options g [] "document_root" "." with
  | .error e => .abort e
  | .ok (_, g1, options1) =>
    match process_command_line_arguments b default_options env line0 argv0 args
            { g := g1, options := options1, stderr := [] } with
    | .error e => .abort e
    | .ok st1 =>
      match sanitize_options b default_options env st1 argv0 with
      | .error e => .abort e
      | .ok (i, st2) =>
        if i = 0 then .abort (.die "Invalid options")
        else
          match mg_start st2.options with
          | .context => .running st2
          | .null first_message => .mg_start_failed st2 first_message

/-- The function `start_civetweb(argc, argv)`, built without `USE_LUA`,
`USE_DUKTAPE`, `DAEMONIZE` and `MG_EXPERIMENTAL_INTERFACES`; `args` are
`argv[1]` to `argv[argc - 1]`. -/
def start_civetweb (b : Build) (default_options : List mg_option) (env : Env)
    (line0 : Buffer) (mg_start : Options → MgStart) (g : Globals)
    (argv0 : String) (args : List String) : StartResult :=
  match args with
  | [] => start_server b default_options env line0 mg_start g argv0 args
  | a1 :: _ =>
    if a1 = "-I" then .exit "-I"
    else if a1 = "-A" then
      if args.length + 1 ≠ 6 then .abort .show_usage_and_exit else .exit "-A"
    else if a1 = "-R" then
      if args.length + 1 ≠ 5 then .abort .show_usage_and_exit else .exit "-R"
    else if a1 = "-C" then
      if args.length + 1 ≠ 3 then .abort .show_usage_and_exit else .exit "-C"
    else if a1 = "-L" then .exit "-L"
    else if a1 = "-E" then .exit "-E"
    else if args.length + 1 = 2 ∧ (a1 = "-h" ∨ a1 = "-H" ∨ a1 = "--help") then
      .abort .show_usage_and_exit
    else start_server b default_options env line0 mg_start g argv0 args

/-! ## Words of the specification, continued -/

/-- The words of the specification for `verify`: the option is not set, or it
names a path that exists and is a directory exactly when a directory is
expected. -/
def path_verified (env : Env) (options : Options) (p : String × Int) : Bool :=
  match get_option options p.1 with
  | none => true
  | some path =>
    match env.stat path with
    | none => false
    | some isdir => decide ((if isdir then (1 : Int) else 0) = p.2)

/-- The warning `verify_existence` writes for an option that fails. -/
def invalid_path_warning (options : Options) (p : String × Int) : Diagnostic :=
  .invalid_path p.1 ((get_option options p.1).getD "")

/-- The words of the specification: the first argument is taken as the
explicit config-file path when it is non-empty and does not start with `-`. -/
def explicit_config_file (args : List String) : Bool :=
  match args with
  | a :: _ =>
    match a.toList with
    | c :: _ => c != '-' && c != NUL
    | [] => false
  | [] => false

/-- The test of `process_command_line_arguments` for a start by `launchd`:
`argv[1]` begins with `-psn_`. -/
def psn_launch (args : List String) : Bool :=
  match args with
  | a :: _ => a.toList.take 5 == "-psn_".toList
  | [] => false

/-- The words of the specification: pair scanning starts at index 2 after an
explicit config-file path and at index 1 otherwise. -/
def pair_scanning_start (args : List String) : Nat :=
  if explicit_config_file args then 2 else 1

/-- The fatal error of an explicit config file that cannot be opened. -/
def is_open_failure (e : Abort) : Prop :=
  ∃ name, e = .die ("Cannot open config file " ++ name)

/-- The backup config file `CONFIG_FILE2` is defined and can be opened. -/
def backup_opens (b : Build) (env : Env) : Prop :=
  ∃ file2 content, b.CONFIG_FILE2 = some file2 ∧ env.fopen file2 = some content

/-- A Linux build: `CONFIG_FILE2` is `/usr/local/etc/civetweb.conf`. -/
def linux_build : Build :=
  { PATH_MAX := 4096, CONFIG_FILE2 := some "/usr/local/etc/civetweb.conf" }

/-- A file system that holds only `/usr/local/etc/civetweb.conf`, with the
line `listening_ports 8000`. -/
def backup_env : Env :=
  { fopen := fun path =>
      if path = "/usr/local/etc/civetweb.conf" then
        some "listening_ports 8000\n".toList
      else none,
    realpath := fun _ => none,
    realpath_failed := fun _ => "",
    getcwd := "/",
    stat := fun _ => none }

/-- The words of the specification: the arguments are consumed as alternating
`-name value` pairs.  The result is the pairs `(argument, value)` before the
first malformed pair (an argument that does not start with `-`, or one with no
value after it), and whether there is a malformed pair. -/
def scan_pairs : List String → List (String × String) × Bool
  | [] => ([], false)
  | [_] => ([], true)
  | a :: v :: rest =>
    if a.toList.head? = some '-' then ((a, v) :: (scan_pairs rest).1, (scan_pairs rest).2)
    else ([], true)

/-- The words of the specification: each pair is applied in order through
`set_option`, with the name without its leading `-`. -/
def apply_pairs (default_options : List mg_option) :
    List (String × String) → Config → Except Abort Config
  | [], st => .ok st
  | (a, v) :: rest, st =>
    match setOption default_options st.g st.options (str_drop 1 a) v with
    | .error e => .error e
    | .ok (r, g1, options1) =>
      apply_pairs default_options rest
        { g := g1, options := options1,
          stderr :=
            if r = 0 then st.stderr ++ [.command_line a v] else st.stderr }

/-- A file system in which `/srv/www` is a directory and `/etc/cert.pem` does
not exist. -/
def www_env : Env :=
  { fopen := fun _ => none,
    realpath := fun _ => none,
    realpath_failed := fun _ => "",
    getcwd := "/",
    stat := fun path => if path = "/srv/www" then some true else none }

/-- Three entries of an engine table: a directory and two files. -/
def paths_table : List mg_option :=
  [ ⟨"document_root", MG_CONFIG_TYPE_DIRECTORY, none⟩,
    ⟨"cgi_interpreter", MG_CONFIG_TYPE_FILE, none⟩,
    ⟨"ssl_certificate", MG_CONFIG_TYPE_FILE, none⟩ ]

/-- An engine that starts with every option array. -/
def mg_start_ok : Options → MgStart :=
  fun _ => .context

/-- The ways of ending other than the failure to open the config file: an
access outside an array, the usage, and the two messages of `die` in
`set_option`. -/
def other_abort (e : Abort) : Prop :=
  e = .out_of_bounds ∨ e = .show_usage_and_exit ∨
    e = .die "Too many options specified" ∨
    ∃ name, e = .die ("Unknown option type - option " ++ name)

/-! ## Words of the specification on the lines of the config file -/

/-- The buffer holds the chars of the list from index `j` on. -/
def agrees (b : Buffer) : Nat → List Char → Prop
  | _, [] => True
  | j, a :: t => b j = a ∧ agrees b (j + 1) t

/-- A trailing char that `read_config_file` removes from the end of the line:
white space or a control char. -/
def strippable (c : Char) : Bool :=
  isspace c || iscntrl c

/-- The line without its trailing white space and control chars. -/
def line_stripped (c : List Char) : List Char :=
  c.rdropWhile strippable

/-- The number of white space chars at the start of the line as read: the
index `i` of its first char that is not white space. -/
def line_indent (c : List Char) : Nat :=
  (c.takeWhile isspace).length

/-- The stripped line from the index `i` on, where `i` is the index of the
first char of the line as read that is not white space.  It is empty when the
loop over the end of the line has removed that char (a line whose chars from
`i` on are all control chars). -/
def line_rest (c : List Char) : List Char :=
  (line_stripped c).drop (line_indent c)

/-- The name token: the maximal run of chars of the stripped line that are not
white space, from the index of the first such char of the line as read on. -/
def line_name (c : List Char) : List Char :=
  (line_rest c).takeWhile (fun ch => !isspace ch)

/-- The stripped line after the name token. -/
def line_after (c : List Char) : List Char :=
  (line_rest c).dropWhile (fun ch => !isspace ch)

/-- The value token: the remainder of the stripped line after the name, with
the leading white space removed. -/
def line_value (c : List Char) : List Char :=
  ((line_after c).drop 1).dropWhile isspace

/-- The string at `p` after the name has been terminated: the line up to the
end of the name. -/
def line_text (c : List Char) : List Char :=
  (line_stripped c).take (line_indent c + (line_name c).length)

/-- The index `j` at the call of `set_option`: behind the name, one more, and
behind the white space that follows. -/
def line_value_index (c : List Char) : Nat :=
  line_indent c + (line_name c).length + 1
    + (((line_after c).drop 1).takeWhile isspace).length

/-- The line is skipped by the `continue`: it is blank, or its first char that
is not white space is `#` (or the NUL that ends a C string). -/
def line_skipped (c : List Char) : Bool :=
  match c.dropWhile isspace with
  | [] => true
  | ch :: _ => ch == '#' || ch == NUL

/-- The words of the specification: a line that is blank (only white space) or
has `#` as its first char that is not white space. -/
def blank_or_comment (l : List Char) : Bool :=
  match l.dropWhile isspace with
  | [] => true
  | ch :: _ => ch == '#'

/-- The line as `p` sees it: on the first line (`line_no` is 0) without the
three bytes of the marker when it begins with them. -/
def strip_bom (line_no : Nat) (chunk : List Char) : List Char :=
  match line_no, chunk with
  | 0, a :: b :: c :: r =>
    if a = Char.ofNat 0xEF ∧ b = Char.ofNat 0xBB ∧ c = Char.ofNat 0xBF then r
    else chunk
  | _, _ => chunk

/-- The text of a file made of the given lines, each followed by a newline. -/
def text_of_lines : List (List Char) → List Char
  | [] => []
  | l :: ls => l ++ '\n' :: text_of_lines ls

/-- The loop of `read_config_file` with the calls of `set_option` written
down: the pairs `(name, value)` of the calls in order, and the result of
`read_config_loop`. -/
def read_config_trace (default_options : List mg_option) (config_file : String)
    (size : Nat) : Nat → Buffer → Nat → List Char → Config →
    List (String × String) × Except Abort Config
  | 0, _, _, _, st => ([], .ok st)
  | fuel + 1, line, line_no, stream, st =>
    match fgets line size stream with
    | none => ([], .ok st)
    | some (line1, rest) =>
      match parse_line size line1 (bom_offset line1 line_no) with
      | .error e => ([], .error e)
      | .ok none =>
        read_config_trace default_options config_file size fuel line1
          (line_no + 1) rest st
      | .ok (some pl) =>
        match setOption default_options st.g st.options pl.name pl.value with
        | .error e => ([(pl.name, pl.value)], .error e)
        | .ok (r, g1, options1) =>
          ((pl.name, pl.value) ::
            (read_config_trace default_options config_file size fuel pl.line
              (line_no + 1) rest
              { g := g1, options := options1,
                stderr :=
                  if r = 0 then
                    st.stderr ++ [.config_line config_file (line_no + 1) pl.text]
                  else st.stderr }).1,
            (read_config_trace default_options config_file size fuel pl.line
              (line_no + 1) rest
              { g := g1, options := options1,
                stderr :=
                  if r = 0 then
                    st.stderr ++ [.config_line config_file (line_no + 1) pl.text]
                  else st.stderr }).2)

/-- The words of the specification for a file of lines: a line that, as read,
is blank or has `#` as its first char that is not white space is skipped; every
other line is stripped of its trailing white space and control chars and split
into the name token and the value token, and the pair is applied through
`set_option`; a refused pair is reported with the number of the line.  The
result is the pairs of the calls in order and the state. -/
def apply_lines (default_options : List mg_option) (config_file : String) :
    Nat → List (List Char) → Config →
    List (String × String) × Except Abort Config
  | _, [], st => ([], .ok st)
  | line_no, l :: ls, st =>
    if line_skipped (strip_bom line_no (l ++ ['\n'])) then
      apply_lines default_options config_file (line_no + 1) ls st
    else
      match setOption default_options st.g st.options
              (String.mk (line_name (strip_bom line_no (l ++ ['\n']))))
              (String.mk (line_value (strip_bom line_no (l ++ ['\n'])))) with
      | .error e =>
        ([(String.mk (line_name (strip_bom line_no (l ++ ['\n']))),
           String.mk (line_value (strip_bom line_no (l ++ ['\n']))))], .error e)
      | .ok (r, g1, options1) =>
        ((String.mk (line_name (strip_bom line_no (l ++ ['\n']))),
          String.mk (line_value (strip_bom line_no (l ++ ['\n'])))) ::
          (apply_lines default_options config_file (line_no + 1) ls
            { g := g1, options := options1,
              stderr :=
                if r = 0 then
                  st.stderr ++ [.config_line config_file (line_no + 1)
                    (String.mk (line_text (strip_bom line_no (l ++ ['\n']))))]
                else st.stderr }).1,
          (apply_lines default_options config_file (line_no + 1) ls
            { g := g1, options := options1,
              stderr :=
                if r = 0 then
                  st.stderr ++ [.config_line config_file (line_no + 1)
                    (String.mk (line_text (strip_bom line_no (l ++ ['\n']))))]
                else st.stderr }).2)

/-- The state before any option is set. -/
def no_options : Config :=
  { g := ⟨none, none, none, 0, [], 0, ""⟩, options := [], stderr := [] }

/-- The array `line` with a NUL at every index. -/
def zero_line : Buffer := fun _ => NUL

/-- A comment line that is longer than the array `line`: a `#`, 8190 spaces
and then text that looks like an option. -/
def long_comment : List Char :=
  '#' :: List.replicate 8190 ' ' ++ "document_root /tmp".toList

/-- A file system in which `civetweb.conf` has the given content. -/
def file_env (content : List Char) : Env :=
  { fopen := fun path => if path = "civetweb.conf" then some content else none,
    realpath := fun _ => none,
    realpath_failed := fun _ => "",
    getcwd := "/",
    stat := fun _ => none }

/-- The names of the option array in the order of the array: `options[0]`,
`options[2]`, ... -/
def option_names (options : Options) : List String :=
  options.map Prod.fst


/-! ## Lemmas on `set_option` -/

theorem main_option_loop_none (g : Globals) (name value : String)
    (h : name ∉ main_option_names) :
    main_option_loop g name value main_config_options = none := by
  simp [main_option_names, main_config_options] at h
  obtain ⟨h1, h2, h3, h4, h5⟩ := h
  have hb : main_option_body g name value = none := by
    simp [main_option_body, main_option_name, main_config_options, OPTION_TITLE,
      OPTION_ICON, OPTION_WEBPAGE, OPTION_HIDE_TRAY, OPTION_ADD_DOMAIN, h1, h2,
      h3, h4, h5]
  simp [main_option_loop, main_config_options, hb]

theorem main_option_loop_some (g : Globals) (name value : String)
    (h : name ∈ main_option_names) :
    ∃ g1, main_option_loop g name value main_config_options = some g1 := by
  have hb : ∃ g1, main_option_body g name value = some g1 := by
    simp [main_option_names, main_config_options] at h
    rcases h with h | h | h | h | h <;> subst h <;>
      simp [main_option_body, main_option_name, main_config_options,
        OPTION_TITLE, OPTION_ICON, OPTION_WEBPAGE, OPTION_HIDE_TRAY,
        OPTION_ADD_DOMAIN] <;> split_ifs <;> simp
  obtain ⟨g1, hg1⟩ := hb
  exact ⟨g1, by simp [main_option_loop, main_config_options, hg1]⟩

theorem get_option_mem (options : Options) (name v : String)
    (h : get_option options name = some v) : (name, v) ∈ options := by
  induction options with
  | nil => simp [get_option] at h
  | cons p rest ih =>
    obtain ⟨k, w⟩ := p
    simp only [get_option] at h
    split_ifs at h with hk
    · simp at h; subst hk; subst h; simp
    · exact List.mem_cons_of_mem _ (ih h)

/-- A name present in an array that satisfies the invariant is not
controller-private. -/
theorem present_not_main (options : Options) (name v : String)
    (hinv : options_inv options) (h : get_option options name = some v) :
    name ∉ main_option_names :=
  hinv.2 (name, v) (get_option_mem options name v h)

theorem store_option_present (name value : String) (ms : Option String) :
    ∀ (options : Options) (left : Nat) (v1 : String),
      options.length ≤ left → get_option options name = some v1 →
      ∃ options1, store_option name value ms left options = some options1 ∧
        get_option options1 name = some (merged_value ms v1 value) := by
  intro options
  induction options with
  | nil => intro left v1 _ h; simp [get_option] at h
  | cons p rest ih =>
    intro left v1 hlen h
    obtain ⟨k, w⟩ := p
    cases left with
    | zero => simp at hlen
    | succ l =>
      simp only [get_option] at h
      by_cases hk : k = name
      · simp only [hk, if_true] at h
        simp at h
        subst h
        cases ms with
        | none =>
          exact ⟨(name, value) :: rest, by simp [store_option, hk],
            by simp [get_option, merged_value]⟩
        | some sep =>
          exact ⟨(name, w ++ sep ++ value) :: rest, by simp [store_option, hk],
            by simp [get_option, merged_value]⟩
      · simp only [hk, if_false] at h
        have hl : rest.length ≤ l := by simpa using hlen
        obtain ⟨o1, ho1, hg⟩ := ih l v1 hl h
        exact ⟨(k, w) :: o1, by simp [store_option, hk, ho1],
          by simp [get_option, hk, hg]⟩

theorem store_option_absent (name value : String) (ms : Option String) :
    ∀ (options : Options) (left : Nat),
      options.length < left → get_option options name = none →
      store_option name value ms left options = some (options ++ [(name, value)]) := by
  intro options
  induction options with
  | nil =>
    intro left hlen _
    cases left with
    | zero => simp at hlen
    | succ l => simp [store_option]
  | cons p rest ih =>
    intro left hlen h
    obtain ⟨k, w⟩ := p
    cases left with
    | zero => simp at hlen
    | succ l =>
      simp only [get_option] at h
      by_cases hk : k = name
      · simp [hk] at h
      · simp only [hk, if_false] at h
        have hl : rest.length < l := by simpa using hlen
        simp [store_option, hk, ih l hl h]

theorem get_option_append_absent (options : Options) (name value : String)
    (h : get_option options name = none) :
    get_option (options ++ [(name, value)]) name = some value := by
  induction options with
  | nil => simp [get_option]
  | cons p rest ih =>
    obtain ⟨k, w⟩ := p
    simp only [get_option] at h
    by_cases hk : k = name
    · simp [hk] at h
    · simp only [hk, if_false] at h
      simp [get_option, hk, ih h]

/-- The names and the length after the third loop of `set_option`. -/
theorem store_option_shape (name value : String) (ms : Option String) :
    ∀ (options : Options) (left : Nat) (options1 : Options),
      options.length ≤ left →
      store_option name value ms left options = some options1 →
      options1.length ≤ left ∧
        ∀ p ∈ options1, p.1 = name ∨ p.1 ∈ options.map Prod.fst := by
  intro options
  induction options with
  | nil =>
    intro left o1 _ h
    cases left with
    | zero => simp [store_option] at h
    | succ l =>
      simp [store_option] at h
      subst h
      simp
  | cons p rest ih =>
    intro left o1 hlen h
    obtain ⟨k, w⟩ := p
    cases left with
    | zero => simp at hlen
    | succ l =>
      have hl : rest.length ≤ l := by simpa using hlen
      by_cases hk : k = name
      · cases ms with
        | none =>
          simp [store_option, hk] at h
          subst h
          refine ⟨by simpa using hl, ?_⟩
          intro p hp
          simp at hp
          rcases hp with hp | hp
          · left; rw [hp]
          · right; simp; right; exact ⟨p.2, hp⟩
        | some sep =>
          simp [store_option, hk] at h
          subst h
          refine ⟨by simpa using hl, ?_⟩
          intro p hp
          simp at hp
          rcases hp with hp | hp
          · left; rw [hp]
          · right; simp; right; exact ⟨p.2, hp⟩
      · simp only [store_option, hk, if_false] at h
        cases hr : store_option name value ms l rest with
        | none => simp [hr] at h
        | some r1 =>
          simp [hr] at h
          subst h
          obtain ⟨h1, h2⟩ := ih l r1 hl hr
          refine ⟨by simpa using h1, ?_⟩
          intro p hp
          simp at hp
          rcases hp with hp | hp
          · right; rw [hp]; simp
          · rcases h2 p hp with h3 | h3
            · left; exact h3
            · right; simp at h3 ⊢; right; exact h3

theorem setOption_of_main (default_options : List mg_option) (g : Globals)
    (options : Options) (name value : String) (h : name ∈ main_option_names) :
    ∃ g1, setOption default_options g options name value = .ok (1, g1, options) := by
  obtain ⟨g1, hg1⟩ := main_option_loop_some g name value h
  exact ⟨g1, by simp [setOption, hg1]⟩

theorem setOption_of_check (default_options : List mg_option) (g : Globals)
    (options : Options) (name value : String) (ms : Option String)
    (hmain : name ∉ main_option_names)
    (hc : check_type (find_type name default_options) name value = .ok (some ms)) :
    setOption default_options g options name value =
      match store_option name value ms MAX_OPTIONS options with
      | none => .error (.die "Too many options specified")
      | some options1 => .ok (1, g, options1) := by
  simp [setOption, main_option_loop_none g name value hmain, hc]

theorem setOption_of_reject (default_options : List mg_option) (g : Globals)
    (options : Options) (name value : String)
    (hmain : name ∉ main_option_names)
    (hc : check_type (find_type name default_options) name value = .ok none) :
    setOption default_options g options name value = .ok (0, g, options) := by
  simp [setOption, main_option_loop_none g name value hmain, hc]

theorem setOption_present (default_options : List mg_option) (g : Globals)
    (options : Options) (name value v1 : String) (ms : Option String)
    (hlen : options.length ≤ MAX_OPTIONS)
    (hmain : name ∉ main_option_names)
    (hc : check_type (find_type name default_options) name value = .ok (some ms))
    (hp : get_option options name = some v1) :
    ∃ options1, setOption default_options g options name value = .ok (1, g, options1) ∧
      get_option options1 name = some (merged_value ms v1 value) := by
  obtain ⟨o1, ho1, hg⟩ :=
    store_option_present name value ms options MAX_OPTIONS v1 hlen hp
  refine ⟨o1, ?_, hg⟩
  rw [setOption_of_check default_options g options name value ms hmain hc, ho1]

theorem setOption_absent (default_options : List mg_option) (g : Globals)
    (options : Options) (name value : String) (ms : Option String)
    (hlen : options.length < MAX_OPTIONS)
    (hmain : name ∉ main_option_names)
    (hc : check_type (find_type name default_options) name value = .ok (some ms))
    (hp : get_option options name = none) :
    setOption default_options g options name value =
      .ok (1, g, options ++ [(name, value)]) := by
  rw [setOption_of_check default_options g options name value ms hmain hc,
    store_option_absent name value ms options MAX_OPTIONS hlen hp]

/-- The empty array (`memset(options, 0, sizeof(options))`) satisfies the
invariant. -/
theorem options_inv_nil : options_inv [] := by
  simp [options_inv]

/-- Every call of `set_option` keeps the invariant of the option array. -/
theorem options_inv_setOption (default_options : List mg_option) (g g1 : Globals)
    (options options1 : Options) (name value : String) (r : Int)
    (hinv : options_inv options)
    (h : setOption default_options g options name value = .ok (r, g1, options1)) :
    options_inv options1 := by
  by_cases hmain : name ∈ main_option_names
  · obtain ⟨g2, hg2⟩ := setOption_of_main default_options g options name value hmain
    rw [hg2] at h
    simp at h
    rw [← h.2.2]
    exact hinv
  · cases hc : check_type (find_type name default_options) name value with
    | error e => simp [setOption, main_option_loop_none g name value hmain, hc] at h
    | ok c =>
      cases c with
      | none =>
        rw [setOption_of_reject default_options g options name value hmain hc] at h
        simp at h
        rw [← h.2.2]
        exact hinv
      | some ms =>
        rw [setOption_of_check default_options g options name value ms hmain hc] at h
        cases hs : store_option name value ms MAX_OPTIONS options with
        | none => simp [hs] at h
        | some o1 =>
          simp [hs] at h
          obtain ⟨h1, h2⟩ := store_option_shape name value ms options MAX_OPTIONS o1 hinv.1 hs
          rw [← h.2.2]
          refine ⟨h1, ?_⟩
          intro p hp
          rcases h2 p hp with h3 | h3
          · rw [h3]; exact hmain
          · simp at h3
            obtain ⟨w, hw⟩ := h3
            exact hinv.2 (p.1, w) hw

theorem check_type_list_like (t : MgConfigType) (name value sep : String)
    (h : kind_separator t = some sep) :
    check_type t name value = .ok (some (some sep)) := by
  cases t <;> simp [kind_separator] at h <;> subst h <;> simp [check_type]

theorem check_type_scalar (t : MgConfigType) (name value : String)
    (h : is_scalar_kind t = true) :
    check_type t name value = .ok none ∨ check_type t name value = .ok (some none) := by
  cases t <;> simp [is_scalar_kind] at h <;> simp only [check_type] <;>
    first
    | (split_ifs <;> simp)
    | simp

/-! ## The claims on `set_option` -/

/-- C1.  A list-like option (STRING_LIST, MULTILINE, EXT_PATTERN, with the
separator `sep` of its kind) that is present in the option array with value
`v1`: `set_option(name, v2)` returns 1 and leaves it with `v1 ++ sep ++ v2`.
In particular, when such an engine option is not yet set and the array has
room, setting it to `a` and then to `b` leaves it with `a ++ sep ++ b`, which
is `"a,b"` for a STRING_LIST option. -/
theorem set_option_list_like_appends (default_options : List mg_option)
    (g : Globals) (options : Options) (name sep : String)
    (hinv : options_inv options)
    (hkind : kind_separator (find_type name default_options) = some sep) :
    (∀ v1 v2 : String, get_option options name = some v1 →
      ∃ options1,
        setOption default_options g options name v2 = .ok (1, g, options1) ∧
        get_option options1 name = some (v1 ++ sep ++ v2)) ∧
    (name ∉ main_option_names → get_option options name = none →
      options.length < MAX_OPTIONS →
      ∃ options1 options2,
        setOption default_options g options name "a" = .ok (1, g, options1) ∧
        setOption default_options g options1 name "b" = .ok (1, g, options2) ∧
        get_option options2 name = some ("a" ++ sep ++ "b") ∧
        (find_type name default_options = MG_CONFIG_TYPE_STRING_LIST →
          get_option options2 name = some "a,b")) := by
  constructor
  · intro v1 v2 hp
    have hmain := present_not_main options name v1 hinv hp
    exact setOption_present default_options g options name v2 v1 (some sep) hinv.1
      hmain (check_type_list_like _ name v2 sep hkind) hp
  · intro hmain habs hlen
    have h1 := setOption_absent default_options g options name "a" (some sep) hlen
      hmain (check_type_list_like _ name "a" sep hkind) habs
    have hlen1 : (options ++ [(name, "a")]).length ≤ MAX_OPTIONS := by
      simp; omega
    obtain ⟨o2, ho2, hg2⟩ := setOption_present default_options g
      (options ++ [(name, "a")]) name "b" "a" (some sep) hlen1 hmain
      (check_type_list_like _ name "b" sep hkind)
      (get_option_append_absent options name "a" habs)
    refine ⟨_, o2, h1, ho2, hg2, ?_⟩
    intro ht
    rw [ht] at hkind
    simp [kind_separator] at hkind
    subst hkind
    exact hg2

/-- Witness of C1: `index_files` as a STRING_LIST option, set to `a` and then
to `b`. -/
theorem set_option_list_like_appends_witness :
    (∃ options1,
      setOption [⟨"index_files", MG_CONFIG_TYPE_STRING_LIST, none⟩]
          ⟨none, none, none, 0, [], 0, ""⟩ [("index_files", "a")] "index_files" "b"
        = .ok (1, ⟨none, none, none, 0, [], 0, ""⟩, options1) ∧
      get_option options1 "index_files" = some ("a" ++ "," ++ "b")) ∧
    (∃ options1 options2,
      setOption [⟨"index_files", MG_CONFIG_TYPE_STRING_LIST, none⟩]
          ⟨none, none, none, 0, [], 0, ""⟩ [] "index_files" "a"
        = .ok (1, ⟨none, none, none, 0, [], 0, ""⟩, options1) ∧
      setOption [⟨"index_files", MG_CONFIG_TYPE_STRING_LIST, none⟩]
          ⟨none, none, none, 0, [], 0, ""⟩ options1 "index_files" "b"
        = .ok (1, ⟨none, none, none, 0, [], 0, ""⟩, options2) ∧
      get_option options2 "index_files" = some "a,b") := by
  constructor
  · exact (set_option_list_like_appends
      [⟨"index_files", MG_CONFIG_TYPE_STRING_LIST, none⟩]
      ⟨none, none, none, 0, [], 0, ""⟩ [("index_files", "a")] "index_files" ","
      (by simp [options_inv, MAX_OPTIONS, main_option_names, main_config_options])
      (by simp [find_type, kind_separator])).1 "a" "b" (by simp [get_option])
  · obtain ⟨o1, o2, h1, h2, _, h4⟩ := (set_option_list_like_appends
      [⟨"index_files", MG_CONFIG_TYPE_STRING_LIST, none⟩]
      ⟨none, none, none, 0, [], 0, ""⟩ [] "index_files" ","
      (by simp [options_inv])
      (by simp [find_type, kind_separator])).2
      (by simp [main_option_names, main_config_options])
      (by simp [get_option]) (by simp [MAX_OPTIONS])
    exact ⟨o1, o2, h1, h2, h4 (by simp [find_type])⟩

/-- C2.  A scalar option (STRING, NUMBER, BOOLEAN, TRISTATE, FILE, DIRECTORY)
that is present in the option array: a call `set_option(name, v2)` that
returns 1 leaves it with exactly `v2`.  In particular an engine option of kind
STRING set to `a` and then to `b` has the value `b`. -/
theorem set_option_scalar_replaces (default_options : List mg_option)
    (g : Globals) (options : Options) (name : String)
    (hinv : options_inv options)
    (hkind : is_scalar_kind (find_type name default_options) = true) :
    (∀ (v1 v2 : String) (g1 : Globals) (options1 : Options),
      get_option options name = some v1 →
      setOption default_options g options name v2 = .ok (1, g1, options1) →
      get_option options1 name = some v2) ∧
    (find_type name default_options = MG_CONFIG_TYPE_STRING →
      name ∉ main_option_names → options.length < MAX_OPTIONS →
      ∃ options1 options2,
        setOption default_options g options name "a" = .ok (1, g, options1) ∧
        setOption default_options g options1 name "b" = .ok (1, g, options2) ∧
        get_option options2 name = some "b") := by
  constructor
  · intro v1 v2 g1 o1 hp h
    have hmain := present_not_main options name v1 hinv hp
    rcases check_type_scalar _ name v2 hkind with hc | hc
    · rw [setOption_of_reject default_options g options name v2 hmain hc] at h
      simp at h
    · obtain ⟨o2, ho2, hg2⟩ := setOption_present default_options g options name v2
        v1 none hinv.1 hmain hc hp
      rw [ho2] at h
      simp at h
      rw [← h.2]
      simpa [merged_value] using hg2
  · intro ht hmain hlen
    have hc : ∀ value, check_type (find_type name default_options) name value
        = .ok (some none) := by
      intro value
      simp [ht, check_type]
    have h1 : ∃ o1, setOption default_options g options name "a" = .ok (1, g, o1) ∧
        get_option o1 name = some "a" := by
      cases hp : get_option options name with
      | none =>
        exact ⟨_, setOption_absent default_options g options name "a" none hlen
          hmain (hc "a") hp, get_option_append_absent options name "a" hp⟩
      | some v =>
        obtain ⟨o1, ho1, hg1⟩ := setOption_present default_options g options name
          "a" v none hinv.1 hmain (hc "a") hp
        exact ⟨o1, ho1, by simpa [merged_value] using hg1⟩
    obtain ⟨o1, ho1, hg1⟩ := h1
    have hinv1 := options_inv_setOption default_options g g options o1 name "a" 1
      hinv ho1
    obtain ⟨o2, ho2, hg2⟩ := setOption_present default_options g o1 name "b" "a"
      none hinv1.1 hmain (hc "b") hg1
    exact ⟨o1, o2, ho1, ho2, by simpa [merged_value] using hg2⟩

/-- Witness of C2: `document_root` as a DIRECTORY option that holds `.` is set
to `/srv/www`; `authentication_domain` as a STRING option is set to `a` and
then to `b`. -/
theorem set_option_scalar_replaces_witness :
    get_option [("document_root", "/srv/www")] "document_root" = some "/srv/www" ∧
    (∃ options1 options2,
      setOption [⟨"authentication_domain", MG_CONFIG_TYPE_STRING, none⟩]
          ⟨none, none, none, 0, [], 0, ""⟩ [] "authentication_domain" "a"
        = .ok (1, ⟨none, none, none, 0, [], 0, ""⟩, options1) ∧
      setOption [⟨"authentication_domain", MG_CONFIG_TYPE_STRING, none⟩]
          ⟨none, none, none, 0, [], 0, ""⟩ options1 "authentication_domain" "b"
        = .ok (1, ⟨none, none, none, 0, [], 0, ""⟩, options2) ∧
      get_option options2 "authentication_domain" = some "b") := by
  constructor
  · exact (set_option_scalar_replaces
      [⟨"document_root", MG_CONFIG_TYPE_DIRECTORY, none⟩]
      ⟨none, none, none, 0, [], 0, ""⟩ [("document_root", ".")] "document_root"
      (by simp [options_inv, MAX_OPTIONS, main_option_names, main_config_options])
      (by simp [find_type, is_scalar_kind])).1 "." "/srv/www"
      ⟨none, none, none, 0, [], 0, ""⟩ [("document_root", "/srv/www")]
      (by simp [get_option]) (by rfl)
  · exact (set_option_scalar_replaces
      [⟨"authentication_domain", MG_CONFIG_TYPE_STRING, none⟩]
      ⟨none, none, none, 0, [], 0, ""⟩ [] "authentication_domain"
      (by simp [options_inv])
      (by simp [find_type, is_scalar_kind])).2 (by simp [find_type])
      (by simp [main_option_names, main_config_options]) (by simp [MAX_OPTIONS])

theorem takeWhile_eq_self_of_all {α : Type} (p : α → Bool) (l : List α)
    (h : ∀ c ∈ l, p c = true) : l.takeWhile p = l := by
  induction l with
  | nil => rfl
  | cons a t ih =>
    have ha : p a = true := h a (by simp)
    rw [List.takeWhile_cons, ha]
    simp only [if_true]
    rw [ih (fun c hc => h c (by simp [hc]))]

theorem isdigit_not_space_sign (c : Char) (h : isdigit c = true) :
    isspace c = false ∧ c ≠ '+' ∧ c ≠ '-' := by
  simp [isdigit] at h
  refine ⟨?_, ?_, ?_⟩
  · simp [isspace]; omega
  · intro hc; subst hc; simp at h
  · intro hc; subst hc; simp at h

/-- Every non-empty string of decimal digits passes the NUMBER check of
`set_option`. -/
theorem check_type_number_digits (name value : String)
    (h : is_decimal_number value = true) :
    check_type MG_CONFIG_TYPE_NUMBER name value = .ok (some none) := by
  simp [is_decimal_number] at h
  obtain ⟨hne, hall⟩ := h
  cases hv : value.toList with
  | nil => exact absurd hv hne
  | cons c t =>
    have hv1 : value.data = c :: t := hv
    rw [hv1] at hall
    have hc := isdigit_not_space_sign c (hall c (by simp))
    have htw : (c :: t).takeWhile isdigit = c :: t :=
      takeWhile_eq_self_of_all isdigit (c :: t) hall
    have hlen : value.length = t.length + 1 := by
      simp [String.length, hv1]
    have hsign : strtoul_sign (c :: t) = (0, c :: t) := by
      simp [strtoul_sign, hc.2.1, hc.2.2]
    have hend : strtoul_end (c :: t) = t.length + 1 := by
      simp only [strtoul_end]
      have h1 : List.takeWhile isspace (c :: t) = [] := by
        simp [List.takeWhile, hc.1]
      have h2 : List.dropWhile isspace (c :: t) = c :: t := by
        simp [List.dropWhile, hc.1]
      rw [h1, h2, hsign]
      simp only [htw]
      simp
    have hend1 : strtoul_end value.toList = t.length + 1 := by rw [hv]; exact hend
    have hlen1 : value.toList.length = t.length + 1 := by rw [hv]; simp
    simp only [check_type, hend1, hlen1]
    simp

/-- C4.  For an engine option of kind NUMBER that is not yet set, in an array
with room: `set_option` returns 1 for `0`, `1` and `65535` and 0 for `abc` and
`1x`, but it also returns 1 for `-1` and stores that value, because `strtoul`
takes a sign before the digits. -/
theorem set_option_number_accepts_minus_one (default_options : List mg_option)
    (g : Globals) (options : Options) (name : String)
    (hmain : name ∉ main_option_names)
    (hkind : find_type name default_options = MG_CONFIG_TYPE_NUMBER)
    (hroom : options.length < MAX_OPTIONS)
    (habs : get_option options name = none) :
    setOption default_options g options name "0"
      = .ok (1, g, options ++ [(name, "0")]) ∧
    setOption default_options g options name "1"
      = .ok (1, g, options ++ [(name, "1")]) ∧
    setOption default_options g options name "65535"
      = .ok (1, g, options ++ [(name, "65535")]) ∧
    setOption default_options g options name "abc" = .ok (0, g, options) ∧
    setOption default_options g options name "1x" = .ok (0, g, options) ∧
    is_decimal_number "-1" = false ∧
    setOption default_options g options name "-1"
      = .ok (1, g, options ++ [(name, "-1")]) := by
  have hok : ∀ value, check_type MG_CONFIG_TYPE_NUMBER name value = .ok (some none) →
      setOption default_options g options name value
        = .ok (1, g, options ++ [(name, value)]) := by
    intro value hc
    exact setOption_absent default_options g options name value none hroom hmain
      (by rw [hkind]; exact hc) habs
  have hno : ∀ value, check_type MG_CONFIG_TYPE_NUMBER name value = .ok none →
      setOption default_options g options name value = .ok (0, g, options) := by
    intro value hc
    exact setOption_of_reject default_options g options name value hmain
      (by rw [hkind]; exact hc)
  refine ⟨hok "0" (by rfl), hok "1" (by rfl), hok "65535" (by rfl),
    hno "abc" (by rfl), hno "1x" (by rfl), by rfl, hok "-1" (by rfl)⟩

/-- Witness of C4: `num_threads` as a NUMBER option in the empty array. -/
theorem set_option_number_accepts_minus_one_witness :
    setOption [⟨"num_threads", MG_CONFIG_TYPE_NUMBER, some "50"⟩]
        ⟨none, none, none, 0, [], 0, ""⟩ [] "num_threads" "-1"
      = .ok (1, ⟨none, none, none, 0, [], 0, ""⟩, [("num_threads", "-1")]) :=
  (set_option_number_accepts_minus_one
    [⟨"num_threads", MG_CONFIG_TYPE_NUMBER, some "50"⟩]
    ⟨none, none, none, 0, [], 0, ""⟩ [] "num_threads"
    (by simp [main_option_names, main_config_options]) (by simp [find_type])
    (by simp [MAX_OPTIONS]) (by simp [get_option])).2.2.2.2.2.2

/-- C5, amended.  An engine option of kind BOOLEAN that is not a
controller-private name: every value other than exactly `yes` or `no` is
rejected (`set_option` returns 0 and changes nothing).  For the
controller-private `hide_tray` the same value is accepted: `set_option`
returns 1 and changes nothing. -/
theorem set_option_boolean_rejects (default_options : List mg_option)
    (g : Globals) (options : Options) (name value : String)
    (hkind : find_type name default_options = MG_CONFIG_TYPE_BOOLEAN)
    (hmain : name ∉ main_option_names)
    (hyes : value ≠ "yes") (hno : value ≠ "no") :
    setOption default_options g options name value = .ok (0, g, options) ∧
    setOption default_options g options "hide_tray" value = .ok (1, g, options) := by
  constructor
  · exact setOption_of_reject default_options g options name value hmain
      (by simp [hkind, check_type, hyes, hno])
  · simp [setOption, main_option_loop, main_config_options, main_option_body,
      main_option_name, OPTION_TITLE, OPTION_ICON, OPTION_WEBPAGE,
      OPTION_HIDE_TRAY, OPTION_ADD_DOMAIN, hyes, hno]

/-- Witness of C5, amended: `enable_directory_listing` as a BOOLEAN option and
the value `Yes`. -/
theorem set_option_boolean_rejects_witness :
    setOption [⟨"enable_directory_listing", MG_CONFIG_TYPE_BOOLEAN, some "yes"⟩]
        ⟨none, none, none, 0, [], 0, ""⟩ [] "enable_directory_listing" "Yes"
      = .ok (0, ⟨none, none, none, 0, [], 0, ""⟩, []) ∧
    setOption [⟨"enable_directory_listing", MG_CONFIG_TYPE_BOOLEAN, some "yes"⟩]
        ⟨none, none, none, 0, [], 0, ""⟩ [] "hide_tray" "Yes"
      = .ok (1, ⟨none, none, none, 0, [], 0, ""⟩, []) :=
  set_option_boolean_rejects
    [⟨"enable_directory_listing", MG_CONFIG_TYPE_BOOLEAN, some "yes"⟩]
    ⟨none, none, none, 0, [], 0, ""⟩ [] "enable_directory_listing" "Yes"
    (by simp [find_type]) (by simp [main_option_names, main_config_options])
    (by decide) (by decide)

/-- C5 as stated fails: `hide_tray` has the kind BOOLEAN in the
controller-defined table, `maybe` is neither `yes` nor `no`, and
`set_option` returns 1 for it. -/
theorem set_option_hide_tray_maybe_accepted :
    find_type "hide_tray" main_config_options = MG_CONFIG_TYPE_BOOLEAN ∧
    "maybe" ≠ "yes" ∧ "maybe" ≠ "no" ∧
    setOption [] ⟨none, none, none, 0, [], 0, ""⟩ [] "hide_tray" "maybe"
      = .ok (1, ⟨none, none, none, 0, [], 0, ""⟩, []) := by
  refine ⟨by rfl, by decide, by decide, by rfl⟩

theorem find_type_unknown (name : String) (default_options : List mg_option)
    (h : ∀ o ∈ default_options, o.name ≠ name) :
    find_type name default_options = MG_CONFIG_TYPE_UNKNOWN := by
  induction default_options with
  | nil => rfl
  | cons o rest ih =>
    have ho : o.name ≠ name := h o (by simp)
    simp only [find_type, ho, if_false]
    exact ih (fun o1 ho1 => h o1 (by simp [ho1]))

/-- C6.  `set_option` returns 0 for every name that is in neither table, and
whenever it returns 0 (an unknown name, or a value that fails the check of its
kind) the option array and the globals are what they were before the call. -/
theorem set_option_rejection_keeps_state (default_options : List mg_option)
    (g : Globals) (options : Options) (name value : String) :
    ((name ∉ main_option_names ∧ ∀ o ∈ default_options, o.name ≠ name) →
      setOption default_options g options name value = .ok (0, g, options)) ∧
    (∀ (g1 : Globals) (options1 : Options),
      setOption default_options g options name value = .ok (0, g1, options1) →
      g1 = g ∧ options1 = options) := by
  constructor
  · rintro ⟨hmain, hun⟩
    exact setOption_of_reject default_options g options name value hmain
      (by simp [find_type_unknown name default_options hun, check_type])
  · intro g1 o1 h
    by_cases hmain : name ∈ main_option_names
    · obtain ⟨g2, hg2⟩ := setOption_of_main default_options g options name value hmain
      rw [hg2] at h
      simp at h
    · cases hc : check_type (find_type name default_options) name value with
      | error e => simp [setOption, main_option_loop_none g name value hmain, hc] at h
      | ok c =>
        cases c with
        | none =>
          rw [setOption_of_reject default_options g options name value hmain hc] at h
          simp at h
          exact ⟨h.1.symm, h.2.symm⟩
        | some ms =>
          rw [setOption_of_check default_options g options name value ms hmain hc] at h
          cases hs : store_option name value ms MAX_OPTIONS options with
          | none => simp [hs] at h
          | some o2 => simp [hs] at h

/-- Witness of C6: the unknown name `no_such_option`, and the value `abc` for
`num_threads` as a NUMBER option, on an array that holds `document_root`. -/
theorem set_option_rejection_keeps_state_witness :
    setOption [⟨"num_threads", MG_CONFIG_TYPE_NUMBER, some "50"⟩]
        ⟨none, none, none, 0, [], 0, ""⟩ [("document_root", ".")]
        "no_such_option" "1"
      = .ok (0, ⟨none, none, none, 0, [], 0, ""⟩, [("document_root", ".")]) ∧
    (setOption [⟨"num_threads", MG_CONFIG_TYPE_NUMBER, some "50"⟩]
        ⟨none, none, none, 0, [], 0, ""⟩ [("document_root", ".")]
        "num_threads" "abc"
      = .ok (0, ⟨none, none, none, 0, [], 0, ""⟩, [("document_root", ".")]) ∧
      (⟨none, none, none, 0, [], 0, ""⟩ : Globals) = ⟨none, none, none, 0, [], 0, ""⟩ ∧
      [("document_root", ".")] = [("document_root", ".")]) :=
  ⟨(set_option_rejection_keeps_state
      [⟨"num_threads", MG_CONFIG_TYPE_NUMBER, some "50"⟩]
      ⟨none, none, none, 0, [], 0, ""⟩ [("document_root", ".")]
      "no_such_option" "1").1
      ⟨by simp [main_option_names, main_config_options], by simp⟩,
    by rfl,
    (set_option_rejection_keeps_state
      [⟨"num_threads", MG_CONFIG_TYPE_NUMBER, some "50"⟩]
      ⟨none, none, none, 0, [], 0, ""⟩ [("document_root", ".")]
      "num_threads" "abc").2 ⟨none, none, none, 0, [], 0, ""⟩
      [("document_root", ".")] (by rfl)⟩

/-! ## The claims on `pd-webserver.c` -/

theorem char_at_zero_slash (folder : String) :
    (char_at folder 0 = '/') ↔ begins_with_slash folder = true := by
  obtain ⟨l⟩ := folder
  cases l with
  | nil =>
    simp only [char_at, begins_with_slash, String.toList, List.getD_nil]
    decide
  | cons c t => simp [char_at, begins_with_slash, String.toList]

theorem is_drive_path_eq (folder : String) :
    is_drive_path folder = drive_letter_form folder := by
  obtain ⟨l⟩ := folder
  have hnul1 : ((Char.ofNat 0) == ':') = false := by decide
  have hnul2 : ((Char.ofNat 0) == '/') = false := by decide
  have hA : decide ('A' ≤ Char.ofNat 0) = false := by decide
  have ha : decide ('a' ≤ Char.ofNat 0) = false := by decide
  match l with
  | [] =>
    simp only [is_drive_path, char_at, drive_letter_form, String.toList,
      List.getD_nil, hnul1, hnul2, hA, ha]
    rfl
  | [c0] =>
    simp only [is_drive_path, char_at, drive_letter_form, String.toList,
      List.getD_cons_succ, List.getD_nil, hnul1, hnul2, Bool.and_false,
      Bool.false_and]
  | [c0, c1] =>
    simp only [is_drive_path, char_at, drive_letter_form, String.toList,
      List.getD_cons_succ, List.getD_nil, hnul1, hnul2, Bool.and_false,
      Bool.false_and]
  | c0 :: c1 :: c2 :: t2 =>
    simp only [is_drive_path, char_at, drive_letter_form, String.toList,
      List.getD_cons_succ, List.getD_cons_zero]

/-- What `webserver_main` leaves in `completefolder`: the effective root of the
specification when it fits in the array with its NUL, and a write beyond the
array otherwise. -/
theorem completefolder_eq (MAXPDSTRING : Nat) (canvas_dir folder : String) :
    completefolder MAXPDSTRING canvas_dir folder =
      if (effective_root canvas_dir folder).length + 1 ≤ MAXPDSTRING then
        .ok (effective_root canvas_dir folder)
      else .error .out_of_bounds := by
  by_cases h0 : char_at folder 0 = '/'
  · have hb := (char_at_zero_slash folder).1 h0
    simp [completefolder, h0, effective_root, hb, strcpy]
  · have hb : begins_with_slash folder = false := by
      cases hbs : begins_with_slash folder with
      | false => rfl
      | true => exact absurd ((char_at_zero_slash folder).2 hbs) h0
    by_cases hd : is_drive_path folder = true
    · have hd1 : drive_letter_form folder = true := by
        rw [← is_drive_path_eq]; exact hd
      simp [completefolder, h0, hd, effective_root, hb, hd1, strcpy]
    · have hd0 : is_drive_path folder = false := by
        cases hdp : is_drive_path folder with
        | false => rfl
        | true => exact absurd hdp hd
      have hd1 : drive_letter_form folder = false := by
        rw [← is_drive_path_eq]; exact hd0
      simp only [completefolder, h0, hd0, effective_root, hb, hd1, strcpy, strcat]
      simp only [Bool.or_self, Bool.false_eq_true, if_false, String.length_append]
      have h1 : ("/" : String).length = 1 := by decide
      rw [h1]
      by_cases hfit : canvas_dir.length + 1 + folder.length + 1 ≤ MAXPDSTRING
      · have ha : canvas_dir.length + 1 ≤ MAXPDSTRING := by omega
        have hc : canvas_dir.length + 1 + 1 ≤ MAXPDSTRING := by omega
        simp [ha, hc, hfit, String.length_append, h1]
      · by_cases ha : canvas_dir.length + 1 ≤ MAXPDSTRING
        · by_cases hc : canvas_dir.length + 1 + 1 ≤ MAXPDSTRING
          · simp [ha, hc, hfit, String.length_append, h1]
          · simp [ha, hc, hfit]
        · simp [ha, hfit]

theorem effective_root_relative (canvas_dir : String) (c0 c1 : Char)
    (t : List Char) (h0 : c0 ≠ '/') (h1 : c1 ≠ ':') :
    effective_root canvas_dir (String.mk (c0 :: c1 :: t))
      = canvas_dir ++ "/" ++ String.mk (c0 :: c1 :: t) := by
  have hb : begins_with_slash (String.mk (c0 :: c1 :: t)) = false := by
    simp [begins_with_slash, String.toList, h0]
  have hd : drive_letter_form (String.mk (c0 :: c1 :: t)) = false := by
    cases t with
    | nil => simp [drive_letter_form, String.toList]
    | cons c2 t2 => simp [drive_letter_form, String.toList, h1]
  simp only [effective_root, hb, hd]
  simp

/-- C9.  `webserver_main` leaves in `completefolder` the effective root of the
specification (the folder when it begins with `/` or has the drive-letter
form, the canvas directory, `/` and the folder otherwise) exactly when that
string and its NUL fit in the `MAXPDSTRING` chars of the array; for `sounds`
under `/home/user/patch` it is `/home/user/patch/sounds`.  With Pd's
`MAXPDSTRING` of 1000, a canvas directory of 600 chars and a folder of 600
chars the unchecked `strcat` writes beyond the array. -/
theorem completefolder_overflows :
    (∀ (MAXPDSTRING : Nat) (canvas_dir folder : String),
      completefolder MAXPDSTRING canvas_dir folder =
        if (effective_root canvas_dir folder).length + 1 ≤ MAXPDSTRING then
          .ok (effective_root canvas_dir folder)
        else .error .out_of_bounds) ∧
    completefolder 1000 "/home/user/patch" "sounds" = .ok "/home/user/patch/sounds" ∧
    completefolder 1000 (String.mk ('/' :: List.replicate 599 'd'))
        (String.mk ('f' :: 'f' :: List.replicate 598 'f')) = .error .out_of_bounds := by
  refine ⟨completefolder_eq, by rfl, ?_⟩
  rw [completefolder_eq,
    effective_root_relative _ 'f' 'f' _ (by decide) (by decide)]
  have hl : (String.mk ('/' :: List.replicate 599 'd') ++ "/"
      ++ String.mk ('f' :: 'f' :: List.replicate 598 'f')).length = 1201 := by
    rw [String.length_append, String.length_append]
    simp only [String.length, List.length_cons, List.length_replicate]
    rfl
  rw [hl]
  rfl

/-- The function `webserver_main` does not assign `x->started`: whatever it returns, the
field is what it was. -/
theorem webserver_main_keeps_started (MAXPDSTRING : Nat) (s s1 : PdState)
    (folder : String) (port : Int)
    (h : webserver_main MAXPDSTRING s folder port = .ok s1) :
    s1.x.started = s.x.started := by
  simp only [webserver_main] at h
  split_ifs at h with hs
  · simp at h; rw [← h]
  · cases hc : completefolder MAXPDSTRING s.x.x_canvas folder with
    | error e => simp [hc] at h
    | ok root =>
      cases hn : strcpy 10 (sprintf_d port) with
      | error e => simp [hc, hn] at h
      | ok nnum => simp [hc, hn] at h; rw [← h]

/-- C7.  On a new object (`started` is 0) the method `start` is called twice
with `sounds` and 8080 and no `stop` in between: after the first call
`x->started` is still 0, and the second call writes no "Server already
running." and makes a second thread. -/
theorem webserver_main_twice_two_threads :
    ∃ s1 s2,
      webserver_main 1000
        ⟨webserver_new ⟨"", 0, [], 7⟩ "/home/user/patch", [], 0⟩ "sounds" 8080
        = .ok s1 ∧
      s1.x.started = 0 ∧ s1.threads = 1 ∧
      webserver_main 1000 s1 "sounds" 8080 = .ok s2 ∧
      s2.x.started = 0 ∧ s2.log = [] ∧ s2.threads = 2 :=
  ⟨_, _, by rfl, by rfl, by rfl, by rfl, by rfl, by rfl, by rfl⟩

/-- C8.  For the folder `sounds`, the port 8080 (and the port 9000) and the
canvas directory `/home/user/patch`, `webserver_main` stores the effective
root and the decimal port in `x->options`, but the list `fmain` passes to
`mg_start` is its own constant one: `document_root` is `D:/00server`,
`listening_ports` is `8080` whatever the port, and the three other options are
not in it. -/
theorem fmain_ignores_webserver_options :
    ∃ s1 s2,
      webserver_main 1000
        ⟨webserver_new ⟨"", 0, [], 7⟩ "/home/user/patch", [], 0⟩ "sounds" 8080
        = .ok s1 ∧
      webserver_main 1000
        ⟨webserver_new ⟨"", 0, [], 7⟩ "/home/user/patch", [], 0⟩ "sounds" 9000
        = .ok s2 ∧
      get_option s1.x.options "document_root" = some "/home/user/patch/sounds" ∧
      get_option s1.x.options "listening_ports" = some "8080" ∧
      get_option s2.x.options "listening_ports" = some "9000" ∧
      get_option (fmain_options s1.x) "document_root" = some "D:/00server" ∧
      get_option (fmain_options s2.x) "listening_ports" = some "8080" ∧
      get_option (fmain_options s1.x) "request_timeout_ms" = none ∧
      get_option (fmain_options s1.x) "error_log_file" = none ∧
      get_option (fmain_options s1.x) "enable_auth_domain_check" = none :=
  ⟨_, _, by rfl, by rfl, by rfl, by rfl, by rfl, by rfl, by rfl, by rfl, by rfl,
    by rfl⟩

/-! ## Lemmas on `read_config_file` -/

theorem fgets_read_progress (n : Nat) (c : Char) (s : List Char) :
    (fgets_read (n + 1) (c :: s)).2.length < (c :: s).length := by
  induction n generalizing c s with
  | zero =>
    simp only [fgets_read]
    split_ifs
    · simp
    · cases s <;> simp [fgets_read]
  | succ m ih =>
    simp only [fgets_read]
    split_ifs
    · simp
    · cases s with
      | nil => simp [fgets_read]
      | cons d t =>
        have := ih d t
        simp only [List.length_cons] at this ⊢
        omega

/-- A call of `fgets` that does not return NULL shortens the stream. -/
theorem fgets_rest_lt (line line1 : Buffer) (size : Nat) (stream rest : List Char)
    (hsize : 2 ≤ size) (h : fgets line size stream = some (line1, rest)) :
    rest.length < stream.length := by
  cases stream with
  | nil => simp [fgets] at h
  | cons c t =>
    simp only [fgets, Option.some.injEq, Prod.mk.injEq] at h
    rw [← h.2]
    obtain ⟨k, hk⟩ : ∃ k, size - 1 = k + 1 := ⟨size - 2, by omega⟩
    rw [hk]
    exact fgets_read_progress k c t

/-- The loop of `read_config_file` does not depend on the fuel once the fuel
is above the length of the stream: the model never stops for lack of fuel. -/
theorem read_config_loop_fuel (default_options : List mg_option)
    (config_file : String) (size : Nat) (hsize : 2 ≤ size) :
    ∀ (fuel1 fuel2 : Nat) (line : Buffer) (line_no : Nat) (stream : List Char)
      (st : Config),
      stream.length < fuel1 → stream.length < fuel2 →
      read_config_loop default_options config_file size fuel1 line line_no stream st
        = read_config_loop default_options config_file size fuel2 line line_no
            stream st := by
  intro fuel1
  induction fuel1 with
  | zero => intro fuel2 line line_no stream st h1 _; simp at h1
  | succ n ih =>
    intro fuel2 line line_no stream st h1 h2
    cases fuel2 with
    | zero => simp at h2
    | succ m =>
      simp only [read_config_loop]
      cases hf : fgets line size stream with
      | none => rfl
      | some p =>
        obtain ⟨line1, rest⟩ := p
        have hlt := fgets_rest_lt line line1 size stream rest hsize hf
        have hn : rest.length < n := by omega
        have hm : rest.length < m := by omega
        simp only []
        cases hp : parse_line size line1 (bom_offset line1 line_no) with
        | error e => rfl
        | ok r =>
          cases r with
          | none => exact ih m line1 (line_no + 1) rest st hn hm
          | some pl =>
            simp only []
            cases hs : setOption default_options st.g st.options pl.name pl.value with
            | error e => rfl
            | ok t =>
              obtain ⟨r, g1, o1⟩ := t
              exact ih m pl.line (line_no + 1) rest _ hn hm

/-- The loop of `read_config_file` keeps the invariant of the option array. -/
theorem read_config_loop_inv (default_options : List mg_option)
    (config_file : String) (size : Nat) :
    ∀ (fuel : Nat) (line : Buffer) (line_no : Nat) (stream : List Char)
      (st st1 : Config),
      options_inv st.options →
      read_config_loop default_options config_file size fuel line line_no stream st
        = .ok st1 →
      options_inv st1.options := by
  intro fuel
  induction fuel with
  | zero =>
    intro line line_no stream st st1 hinv h
    simp only [read_config_loop, Except.ok.injEq] at h
    rw [← h]; exact hinv
  | succ n ih =>
    intro line line_no stream st st1 hinv h
    simp only [read_config_loop] at h
    cases hf : fgets line size stream with
    | none =>
      simp only [hf, Except.ok.injEq] at h
      rw [← h]; exact hinv
    | some p =>
      obtain ⟨line1, rest⟩ := p
      simp only [hf] at h
      cases hp : parse_line size line1 (bom_offset line1 line_no) with
      | error e => simp [hp] at h
      | ok r =>
        cases r with
        | none =>
          simp only [hp] at h
          exact ih line1 (line_no + 1) rest st st1 hinv h
        | some pl =>
          simp only [hp] at h
          cases hs : setOption default_options st.g st.options pl.name pl.value with
          | error e => simp [hs] at h
          | ok t =>
            obtain ⟨r, g1, o1⟩ := t
            simp only [hs] at h
            exact ih pl.line (line_no + 1) rest _ st1
              (options_inv_setOption default_options st.g g1 st.options o1 pl.name
                pl.value r hinv hs) h

/-- The first half of `process_command_line_arguments` keeps the invariant of
the option array. -/
theorem load_config_file_inv (b : Build) (default_options : List mg_option)
    (env : Env) (line0 : Buffer) (argv0 : String) (args : List String)
    (st st1 : Config) (start : Nat) (hinv : options_inv st.options)
    (h : load_config_file b default_options env line0 argv0 args st
      = .ok (start, st1)) :
    options_inv st1.options := by
  simp only [load_config_file] at h
  cases ha : alternate_config_file b env (choose_config_file b argv0 args).1 with
  | error e => simp [ha] at h
  | ok name =>
    simp only [ha] at h
    cases hr : read_config_file default_options env line0 name
        { st with g := { st.g with g_config_file_name := name } } with
    | error e => simp [hr] at h
    | ok t =>
      obtain ⟨r, st2⟩ := t
      simp only [hr] at h
      split_ifs at h
      simp only [Except.ok.injEq, Prod.mk.injEq] at h
      rw [← h.2]
      simp only [read_config_file] at hr
      cases hfo : env.fopen name with
      | none =>
        simp only [hfo, Except.ok.injEq, Prod.mk.injEq] at hr
        rw [← hr.2]; exact hinv
      | some content =>
        simp only [hfo] at hr
        cases hl : read_config_loop default_options name MAX_CONF_FILE_LINE_SIZE
            (content.length + 1) line0 0 content
            { st with g := { st.g with g_config_file_name := name } } with
        | error e => simp [hl] at hr
        | ok st3 =>
          simp only [hl, Except.ok.injEq, Prod.mk.injEq] at hr
          rw [← hr.2]
          exact read_config_loop_inv default_options name MAX_CONF_FILE_LINE_SIZE
            (content.length + 1) line0 0 content
            { st with g := { st.g with g_config_file_name := name } } st3 hinv hl

/-! ## The claim on `process_command_line_arguments` -/

theorem char_at_dash (name : String) : char_at ("-" ++ name) 0 = '-' := by
  obtain ⟨l⟩ := name
  rfl

theorem str_drop_dash (name : String) : str_drop 1 ("-" ++ name) = name := by
  obtain ⟨l⟩ := name
  rfl

/-- The loop over the command line for one pair `-name v2`, when `set_option`
returns 1 for it. -/
theorem command_line_loop_pair (default_options : List mg_option) (st : Config)
    (name v2 : String) (options1 : Options)
    (h : setOption default_options st.g st.options name v2 = .ok (1, st.g, options1)) :
    command_line_loop default_options ["-" ++ name, v2] st
      = .ok { g := st.g, options := options1, stderr := st.stderr } := by
  simp [command_line_loop, char_at_dash, str_drop_dash, h]

theorem apply_command_line_pair (default_options : List mg_option) (st : Config)
    (args : List String) (start : Nat) (name v2 : String) (options1 : Options)
    (hargs : args.drop (start - 1) = ["-" ++ name, v2])
    (hpsn : ∀ a, args.head? = some a → a.toList.take 5 ≠ "-psn_".toList)
    (h : setOption default_options st.g st.options name v2 = .ok (1, st.g, options1)) :
    apply_command_line default_options args start st
      = .ok { g := st.g, options := options1, stderr := st.stderr } := by
  cases args with
  | nil => simp at hargs
  | cons a rest =>
    have ha := hpsn a (by simp)
    simp only [apply_command_line, ha, if_false, hargs]
    exact command_line_loop_pair default_options st name v2 options1 h

/-- C3, amended.  The command line pair `-name v2` is applied through
`set_option` after the config file (unless `argv[1]` begins with `-psn_`).
When the state after the config file holds `v1` for the option: if its kind is
list-like with separator `sep` the resolved value is `v1 ++ sep ++ v2`; if
its kind is scalar and `v2` passes the check of the kind the resolved value is
`v2`. -/
theorem command_line_merges_with_config_file (b : Build)
    (default_options : List mg_option) (env : Env) (line0 : Buffer)
    (argv0 : String) (args : List String) (start : Nat) (st st1 : Config)
    (name v1 v2 : String)
    (hfile : load_config_file b default_options env line0 argv0 args st
      = .ok (start, st1))
    (hargs : args.drop (start - 1) = ["-" ++ name, v2])
    (hpsn : ∀ a, args.head? = some a → a.toList.take 5 ≠ "-psn_".toList)
    (hinv : options_inv st.options)
    (hv1 : get_option st1.options name = some v1) :
    (∀ sep, kind_separator (find_type name default_options) = some sep →
      ∃ st2,
        process_command_line_arguments b default_options env line0 argv0 args st
          = .ok st2 ∧
        get_option st2.options name = some (v1 ++ sep ++ v2)) ∧
    (is_scalar_kind (find_type name default_options) = true →
      check_type (find_type name default_options) name v2 = .ok (some none) →
      ∃ st2,
        process_command_line_arguments b default_options env line0 argv0 args st
          = .ok st2 ∧
        get_option st2.options name = some v2) := by
  have hinv1 := load_config_file_inv b default_options env line0 argv0 args st st1
    start hinv hfile
  have hmain := present_not_main st1.options name v1 hinv1 hv1
  constructor
  · intro sep hsep
    obtain ⟨o1, ho1, hg1⟩ := setOption_present default_options st1.g st1.options
      name v2 v1 (some sep) hinv1.1 hmain (check_type_list_like _ name v2 sep hsep) hv1
    refine ⟨{ g := st1.g, options := o1, stderr := st1.stderr }, ?_, hg1⟩
    simp only [process_command_line_arguments, hfile]
    exact apply_command_line_pair default_options st1 args start name v2 o1 hargs
      hpsn ho1
  · intro _ hc
    obtain ⟨o1, ho1, hg1⟩ := setOption_present default_options st1.g st1.options
      name v2 v1 none hinv1.1 hmain hc hv1
    refine ⟨{ g := st1.g, options := o1, stderr := st1.stderr }, ?_, hg1⟩
    simp only [process_command_line_arguments, hfile]
    exact apply_command_line_pair default_options st1 args start name v2 o1 hargs
      hpsn ho1

/-- C3 as stated fails: with the line `listening_ports 8000` in the config
file, the arguments `-listening_ports 9000` and `listening_ports` a
STRING_LIST option, the resolved value is `8000,9000` and not `9000`. -/
theorem command_line_appends_to_listening_ports :
    ∃ st2,
      process_command_line_arguments ⟨4096, none⟩ ports_list_table
        (conf_env "listening_ports 8000\n") (fun _ => 'x') "civetweb"
        ["-listening_ports", "9000"] seeded = .ok st2 ∧
      get_option st2.options "listening_ports" = some "8000,9000" ∧
      get_option st2.options "listening_ports" ≠ some "9000" :=
  ⟨_, by rfl, by rfl, by decide⟩

/-- Witness of C3, amended: the config file line `listening_ports 8000` and
the arguments `-listening_ports 9000`, once with `listening_ports` as a list
and once as a scalar string. -/
theorem command_line_merges_with_config_file_witness :
    (∃ st2,
      process_command_line_arguments ⟨4096, none⟩ ports_list_table
        (conf_env "listening_ports 8000\n") (fun _ => 'x') "civetweb"
        ["-listening_ports", "9000"] seeded = .ok st2 ∧
      get_option st2.options "listening_ports" = some ("8000" ++ "," ++ "9000")) ∧
    (∃ st2,
      process_command_line_arguments ⟨4096, none⟩ ports_scalar_table
        (conf_env "listening_ports 8000\n") (fun _ => 'x') "civetweb"
        ["-listening_ports", "9000"] seeded = .ok st2 ∧
      get_option st2.options "listening_ports" = some "9000") := by
  constructor
  · exact (command_line_merges_with_config_file ⟨4096, none⟩ ports_list_table
      (conf_env "listening_ports 8000\n") (fun _ => 'x') "civetweb"
      ["-listening_ports", "9000"] 1 seeded
      { g := ⟨none, none, none, 0, [], 0, "civetweb.conf"⟩,
        options := [("document_root", "."), ("listening_ports", "8000")],
        stderr := [] }
      "listening_ports" "8000" "9000" (by rfl) (by rfl) (by decide)
      (by simp [options_inv, seeded, MAX_OPTIONS, main_option_names,
        main_config_options])
      (by rfl)).1 "," (by rfl)
  · exact (command_line_merges_with_config_file ⟨4096, none⟩ ports_scalar_table
      (conf_env "listening_ports 8000\n") (fun _ => 'x') "civetweb"
      ["-listening_ports", "9000"] 1 seeded
      { g := ⟨none, none, none, 0, [], 0, "civetweb.conf"⟩,
        options := [("document_root", "."), ("listening_ports", "8000")],
        stderr := [] }
      "listening_ports" "8000" "9000" (by rfl) (by rfl) (by decide)
      (by simp [options_inv, seeded, MAX_OPTIONS, main_option_names,
        main_config_options])
      (by rfl)).2 (by rfl) (by rfl)

/-! ## The claim on `set_absolute_path` -/

theorem str_take_of_length_le (n : Nat) (s : String) (h : s.length ≤ n) :
    str_take n s = s := by
  obtain ⟨l⟩ := s
  simp only [str_take, String.toList]
  rw [List.take_of_length_le h]

/-- When the directory of the executable, `/`, the value and a NUL fit in
`char path[PATH_MAX]`, nothing is cut. -/
theorem exe_relative_path_fits (b : Build) (env : Env)
    (value exe dir : String)
    (hdir : dir_before_last_sep exe.toList = some dir.toList)
    (hfit : dir.length + value.length + 2 ≤ b.PATH_MAX) :
    exe_relative_path b env value exe = dir ++ "/" ++ value := by
  have hd : String.mk dir.toList = dir := by
    obtain ⟨l⟩ := dir
    rfl
  have h1 : ("/" : String).length = 1 := by decide
  have hs : snprintf (b.PATH_MAX - 1) dir = dir :=
    str_take_of_length_le _ dir (by omega)
  simp only [exe_relative_path, hdir, hd, hs, strncat]
  rw [str_take_of_length_le _ "/" (by rw [h1]; omega)]
  rw [str_take_of_length_le _ value (by rw [String.length_append, h1]; omega)]

/-- C10, amended.  An option of kind FILE or DIRECTORY whose value is set and
does not begin with `/`, an executable path with the directory `dir` before
its last `/`, and `dir`, `/`, the value and a NUL fitting in `PATH_MAX` chars:
`set_absolute_path` replaces the value with what `realpath` gives for
`dir ++ "/" ++ value`. -/
theorem set_absolute_path_relative (b : Build) (default_options : List mg_option)
    (env : Env) (st : Config) (option_name exe dir value c : String)
    (hinv : options_inv st.options)
    (hkind : find_type option_name default_options = MG_CONFIG_TYPE_FILE ∨
      find_type option_name default_options = MG_CONFIG_TYPE_DIRECTORY)
    (hval : get_option st.options option_name = some value)
    (hrel : char_at value 0 ≠ '/')
    (hdir : dir_before_last_sep exe.toList = some dir.toList)
    (hfit : dir.length + value.length + 2 ≤ b.PATH_MAX)
    (hreal : env.realpath (dir ++ "/" ++ value) = some c) :
    ∃ st1,
      set_absolute_path b default_options env st option_name exe = .ok st1 ∧
      get_option st1.options option_name = some c := by
  have hmain := present_not_main st.options option_name value hinv hval
  have hc : check_type (find_type option_name default_options) option_name c
      = .ok (some none) := by
    rcases hkind with hk | hk <;> simp [hk, check_type]
  obtain ⟨o1, ho1, hg1⟩ := setOption_present default_options st.g st.options
    option_name c value none hinv.1 hmain hc hval
  refine ⟨{ st with g := st.g, options := o1 }, ?_, by simpa [merged_value] using hg1⟩
  simp only [set_absolute_path, hval, is_path_absolute]
  have hne : (char_at value 0 == '/') = false := by simp [hrel]
  simp only [hne, Bool.false_eq_true, if_false,
    exe_relative_path_fits b env value exe dir hdir hfit, abs_path, hreal, ho1]

/-- C10 as stated fails: with the executable `/opt/app/bin/server` and the
value `data`, the path given to `realpath` is `/opt/app/bin/data`, and on a
file system where that is a directory reached through no symbolic link the
option becomes `/opt/app/bin/data`, not `/opt/app/data`. -/
theorem set_absolute_path_keeps_bin :
    exe_relative_path ⟨4096, none⟩ app_env "data" "/opt/app/bin/server"
      = "/opt/app/bin/data" ∧
    ∃ st1,
      set_absolute_path ⟨4096, none⟩ ports_list_table app_env
        { g := ⟨none, none, none, 0, [], 0, ""⟩,
          options := [("document_root", "data")], stderr := [] }
        "document_root" "/opt/app/bin/server" = .ok st1 ∧
      get_option st1.options "document_root" = some "/opt/app/bin/data" ∧
      get_option st1.options "document_root" ≠ some "/opt/app/data" :=
  ⟨by rfl, _, by rfl, by rfl, by decide⟩

/-- Witness of C10, amended: `document_root` with the value `data` and the
executable `/opt/app/bin/server`. -/
theorem set_absolute_path_relative_witness :
    ∃ st1,
      set_absolute_path ⟨4096, none⟩ ports_list_table app_env
        { g := ⟨none, none, none, 0, [], 0, ""⟩,
          options := [("document_root", "data")], stderr := [] }
        "document_root" "/opt/app/bin/server" = .ok st1 ∧
      get_option st1.options "document_root" = some "/opt/app/bin/data" :=
  set_absolute_path_relative ⟨4096, none⟩ ports_list_table app_env
    { g := ⟨none, none, none, 0, [], 0, ""⟩,
      options := [("document_root", "data")], stderr := [] }
    "document_root" "/opt/app/bin/server" "/opt/app/bin" "data" "/opt/app/bin/data"
    (by simp [options_inv, MAX_OPTIONS, main_option_names, main_config_options])
    (Or.inr (by rfl)) (by rfl) (by decide) (by rfl) (by decide) (by rfl)

/-! ## Further claims on `set_absolute_path` and `set_option` -/

theorem begins_with_slash_absolute (v : String) (h : begins_with_slash v = true) :
    is_path_absolute (some v) = true := by
  simp only [is_path_absolute, beq_iff_eq]
  exact (char_at_zero_slash v).2 h

/-- An option that is not set, or set to a value that begins with `/`, is left
alone by `set_absolute_path`, and so is the rest of the state. -/
theorem set_absolute_path_of_absolute (b : Build) (default_options : List mg_option)
    (env : Env) (st : Config) (option_name exe : String)
    (h : get_option st.options option_name = none ∨
      ∃ v, get_option st.options option_name = some v ∧ begins_with_slash v = true) :
    set_absolute_path b default_options env st option_name exe = .ok st := by
  rcases h with h | ⟨v, hv, hs⟩
  · simp [set_absolute_path, h]
  · simp [set_absolute_path, hv, begins_with_slash_absolute v hs]

/-- C11.  For every option that is not set and for every option whose value
begins with `/` (an absolute path of the build that is not for Windows, such as
`/srv/www`), `set_absolute_path` returns with the option array, and the whole
state, unchanged, whatever the path of the executable is. -/
theorem set_absolute_path_keeps_absolute (b : Build)
    (default_options : List mg_option) (env : Env) (st : Config)
    (option_name exe : String)
    (h : get_option st.options option_name = none ∨
      ∃ v, get_option st.options option_name = some v ∧ begins_with_slash v = true) :
    set_absolute_path b default_options env st option_name exe = .ok st :=
  set_absolute_path_of_absolute b default_options env st option_name exe h

/-- Witness of C11: `document_root` set to `/srv/www`, and `cgi_interpreter`
not set, with the executable `/opt/app/bin/server`. -/
theorem set_absolute_path_keeps_absolute_witness :
    set_absolute_path ⟨4096, none⟩ ports_list_table app_env
        { g := ⟨none, none, none, 0, [], 0, ""⟩,
          options := [("document_root", "/srv/www")], stderr := [] }
        "document_root" "/opt/app/bin/server"
      = .ok { g := ⟨none, none, none, 0, [], 0, ""⟩,
              options := [("document_root", "/srv/www")], stderr := [] } ∧
    set_absolute_path ⟨4096, none⟩ ports_list_table app_env
        { g := ⟨none, none, none, 0, [], 0, ""⟩,
          options := [("document_root", "/srv/www")], stderr := [] }
        "cgi_interpreter" "/opt/app/bin/server"
      = .ok { g := ⟨none, none, none, 0, [], 0, ""⟩,
              options := [("document_root", "/srv/www")], stderr := [] } :=
  ⟨set_absolute_path_keeps_absolute ⟨4096, none⟩ ports_list_table app_env _
      "document_root" "/opt/app/bin/server"
      (Or.inr ⟨"/srv/www", by rfl, by rfl⟩),
    set_absolute_path_keeps_absolute ⟨4096, none⟩ ports_list_table app_env _
      "cgi_interpreter" "/opt/app/bin/server" (Or.inl (by rfl))⟩

theorem store_option_full (name value : String) (ms : Option String) :
    ∀ (options : Options) (left : Nat),
      left ≤ options.length → get_option options name = none →
      store_option name value ms left options = none := by
  intro options
  induction options with
  | nil =>
    intro left hlen _
    have h0 : left = 0 := by simpa using hlen
    subst h0
    simp [store_option]
  | cons p rest ih =>
    intro left hlen h
    obtain ⟨k, w⟩ := p
    cases left with
    | zero => simp [store_option]
    | succ l =>
      simp only [get_option] at h
      by_cases hk : k = name
      · simp [hk] at h
      · simp only [hk, if_false] at h
        have hl : l ≤ rest.length := by simpa using hlen
        simp [store_option, hk, ih l hl h]

/-- C13.  For a name that `set_option` keeps in the option array (not one of
the controller-private names) and that is not in the array yet: when the array
holds fewer than `MAX_OPTIONS` pairs, a call that returns 1 has put the name
and the value at the end of the array; when it holds `MAX_OPTIONS` pairs, a
call whose value passes the check of the kind ends in
`die("Too many options specified")`.  (In an array with no name twice the
number of pairs is the number of distinct names.) -/
theorem set_option_capacity (default_options : List mg_option) (g : Globals)
    (options : Options) (name value : String)
    (hmain : name ∉ main_option_names)
    (hnew : get_option options name = none) :
    (options.length < MAX_OPTIONS →
      ∀ (g1 : Globals) (options1 : Options),
        setOption default_options g options name value = .ok (1, g1, options1) →
        options1 = options ++ [(name, value)] ∧
          get_option options1 name = some value) ∧
    (options.length = MAX_OPTIONS →
      ∀ ms, check_type (find_type name default_options) name value = .ok (some ms) →
        setOption default_options g options name value
          = .error (.die "Too many options specified")) := by
  constructor
  · intro hlen g1 o1 h
    cases hc : check_type (find_type name default_options) name value with
    | error e => simp [setOption, main_option_loop_none g name value hmain, hc] at h
    | ok c =>
      cases c with
      | none =>
        rw [setOption_of_reject default_options g options name value hmain hc] at h
        simp at h
      | some ms =>
        rw [setOption_absent default_options g options name value ms hlen hmain hc
          hnew] at h
        simp at h
        rw [← h.2]
        exact ⟨rfl, get_option_append_absent options name value hnew⟩
  · intro hlen ms hc
    rw [setOption_of_check default_options g options name value ms hmain hc,
      store_option_full name value ms options MAX_OPTIONS (by omega) hnew]

theorem get_option_replicate (n : Nat) (k v name : String) (h : k ≠ name) :
    get_option (List.replicate n (k, v)) name = none := by
  induction n with
  | zero => rfl
  | succ m ih => simp [List.replicate_succ, get_option, h, ih]

/-- Witness of C13: `num_threads` is put into an array that holds
`document_root`, and is refused with `die` by an array of `MAX_OPTIONS`
pairs. -/
theorem set_option_capacity_witness :
    (([("document_root", "."), ("num_threads", "4")] : Options)
        = [("document_root", ".")] ++ [("num_threads", "4")] ∧
      get_option [("document_root", "."), ("num_threads", "4")] "num_threads"
        = some "4") ∧
    setOption [⟨"num_threads", MG_CONFIG_TYPE_NUMBER, some "50"⟩]
        ⟨none, none, none, 0, [], 0, ""⟩ (List.replicate 50 ("document_root", "."))
        "num_threads" "4"
      = .error (.die "Too many options specified") :=
  ⟨(set_option_capacity [⟨"num_threads", MG_CONFIG_TYPE_NUMBER, some "50"⟩]
      ⟨none, none, none, 0, [], 0, ""⟩ [("document_root", ".")] "num_threads" "4"
      (by simp [main_option_names, main_config_options]) (by rfl)).1
      (by simp [MAX_OPTIONS]) ⟨none, none, none, 0, [], 0, ""⟩
      [("document_root", "."), ("num_threads", "4")] (by rfl),
    (set_option_capacity [⟨"num_threads", MG_CONFIG_TYPE_NUMBER, some "50"⟩]
      ⟨none, none, none, 0, [], 0, ""⟩ (List.replicate 50 ("document_root", "."))
      "num_threads" "4"
      (by simp [main_option_names, main_config_options])
      (get_option_replicate 50 "document_root" "." "num_threads" (by decide))).2
      (by simp [MAX_OPTIONS]) none (by rfl)⟩

/-- C14.  The controller-private names are `title`, `icon`, `website`,
`add_domain` and `hide_tray`; for each of them and every value `set_option`
returns 1 and leaves the option array passed to it as it was, whatever the
table of the engine holds. -/
theorem set_option_intercepts_main (default_options : List mg_option)
    (g : Globals) (options : Options) (name value : String)
    (h : name ∈ main_option_names) :
    main_option_names = ["title", "icon", "website", "add_domain", "hide_tray"] ∧
    ∃ g1, setOption default_options g options name value = .ok (1, g1, options) :=
  ⟨by rfl, setOption_of_main default_options g options name value h⟩

/-- Witness of C14: `hide_tray`, also listed in the table of the engine, on an
array that holds `document_root`. -/
theorem set_option_intercepts_main_witness :
    ∃ g1,
      setOption [⟨"hide_tray", MG_CONFIG_TYPE_BOOLEAN, none⟩]
          ⟨none, none, none, 0, [], 0, ""⟩ [("document_root", ".")]
          "hide_tray" "yes"
        = .ok (1, g1, [("document_root", ".")]) :=
  (set_option_intercepts_main [⟨"hide_tray", MG_CONFIG_TYPE_BOOLEAN, none⟩]
    ⟨none, none, none, 0, [], 0, ""⟩ [("document_root", ".")] "hide_tray" "yes"
    (by simp [main_option_names, main_config_options])).2

/-! ## The claim on `webserver_free` -/

/-- C20, amended.  The method `stop` never changes `x->started`, the options,
the log or the number of threads, and reports nothing; it always stores 1 in
the exit signal `x->exitNow`, also on an object that was never started, and the
next `start` of a stopped object stores 0 there again before it makes the
thread. -/
theorem webserver_free_sets_exit_only (MAXPDSTRING : Nat) (s s1 : PdState)
    (folder : String) (port : Int)
    (hstart : webserver_main MAXPDSTRING (webserver_free s) folder port = .ok s1)
    (hnot : s.x.started = 0) :
    (webserver_free s).x.started = s.x.started ∧
    (webserver_free s).x.options = s.x.options ∧
    (webserver_free s).x.x_canvas = s.x.x_canvas ∧
    (webserver_free s).log = s.log ∧
    (webserver_free s).threads = s.threads ∧
    (webserver_free s).x.exitNow = 1 ∧
    s1.x.exitNow = 0 ∧ s1.threads = s.threads + 1 := by
  refine ⟨rfl, rfl, rfl, rfl, rfl, rfl, ?_⟩
  simp only [webserver_main, webserver_free, hnot, ne_eq, not_true_eq_false,
    if_false] at hstart
  cases hc : completefolder MAXPDSTRING s.x.x_canvas folder with
  | error e => simp [hc] at hstart
  | ok root =>
    cases hn : strcpy 10 (sprintf_d port) with
    | error e => simp [hc, hn] at hstart
    | ok nnum =>
      simp [hc, hn] at hstart
      rw [← hstart]
      exact ⟨rfl, rfl⟩

/-- Witness of C20, amended: a new object, `stop`, then `start sounds 8080`. -/
theorem webserver_free_sets_exit_only_witness :
    (webserver_free ⟨webserver_new ⟨"", 0, [], 7⟩ "/home/user/patch", [], 0⟩).x.exitNow
      = 1 ∧
    ∃ s1,
      webserver_main 1000
        (webserver_free ⟨webserver_new ⟨"", 0, [], 7⟩ "/home/user/patch", [], 0⟩)
        "sounds" 8080 = .ok s1 ∧
      s1.x.exitNow = 0 :=
  ⟨(webserver_free_sets_exit_only 1000
      ⟨webserver_new ⟨"", 0, [], 7⟩ "/home/user/patch", [], 0⟩ _ "sounds" 8080
      (by rfl) (by rfl)).2.2.2.2.2.1,
    _, by rfl,
    (webserver_free_sets_exit_only 1000
      ⟨webserver_new ⟨"", 0, [], 7⟩ "/home/user/patch", [], 0⟩ _ "sounds" 8080
      (by rfl) (by rfl)).2.2.2.2.2.2.1⟩

/-- C20 as stated fails: on a new object, whose exit signal is the 0 that
`pd_new` left there, `stop` changes the exit signal to 1. -/
theorem webserver_free_changes_exit_signal :
    (webserver_new ⟨"", 0, [], 7⟩ "/home/user/patch").exitNow = 0 ∧
    (webserver_free ⟨webserver_new ⟨"", 0, [], 7⟩ "/home/user/patch", [], 0⟩).x.exitNow
      = 1 ∧
    (webserver_free ⟨webserver_new ⟨"", 0, [], 7⟩ "/home/user/patch", [], 0⟩).x
      ≠ webserver_new ⟨"", 0, [], 7⟩ "/home/user/patch" := by
  refine ⟨by rfl, by rfl, by decide⟩

/-! ## The claim on `sanitize_options` -/

theorem check_type_no_error (t : MgConfigType) (name value : String)
    (h : ∀ code, t ≠ MG_CONFIG_TYPE_other code) :
    ∃ c, check_type t name value = .ok c := by
  cases t with
  | MG_CONFIG_TYPE_other code => exact absurd rfl (h code)
  | MG_CONFIG_TYPE_UNKNOWN => exact ⟨_, rfl⟩
  | MG_CONFIG_TYPE_NUMBER =>
    simp only [check_type]
    split_ifs
    · exact ⟨_, rfl⟩
    · exact ⟨_, rfl⟩
  | MG_CONFIG_TYPE_STRING => exact ⟨_, rfl⟩
  | MG_CONFIG_TYPE_FILE => exact ⟨_, rfl⟩
  | MG_CONFIG_TYPE_DIRECTORY => exact ⟨_, rfl⟩
  | MG_CONFIG_TYPE_BOOLEAN =>
    simp only [check_type]
    split_ifs
    · exact ⟨_, rfl⟩
    · exact ⟨_, rfl⟩
  | MG_CONFIG_TYPE_EXT_PATTERN => exact ⟨_, rfl⟩
  | MG_CONFIG_TYPE_STRING_LIST => exact ⟨_, rfl⟩
  | MG_CONFIG_TYPE_STRING_MULTILINE => exact ⟨_, rfl⟩
  | MG_CONFIG_TYPE_YES_NO_OPTIONAL =>
    simp only [check_type]
    split_ifs
    · exact ⟨_, rfl⟩
    · exact ⟨_, rfl⟩

/-- With a table of the engine that holds only kinds `set_option` knows,
`set_absolute_path` returns, keeps the invariant of the option array and writes
nothing to `stderr`. -/
theorem set_absolute_path_returns (b : Build) (default_options : List mg_option)
    (env : Env) (st : Config) (option_name exe : String)
    (hinv : options_inv st.options)
    (hkinds : ∀ name code, find_type name default_options ≠ MG_CONFIG_TYPE_other code) :
    ∃ st1, set_absolute_path b default_options env st option_name exe = .ok st1 ∧
      options_inv st1.options ∧ st1.stderr = st.stderr := by
  cases hv : get_option st.options option_name with
  | none => exact ⟨st, by simp [set_absolute_path, hv], hinv, rfl⟩
  | some v =>
    by_cases ha : is_path_absolute (some v) = true
    · exact ⟨st, by simp [set_absolute_path, hv, ha], hinv, rfl⟩
    · have hmain := present_not_main st.options option_name v hinv hv
      obtain ⟨c, hc⟩ := check_type_no_error (find_type option_name default_options)
        option_name (abs_path env (exe_relative_path b env v exe))
        (hkinds option_name)
      cases c with
      | none =>
        refine ⟨{ st with g := st.g, options := st.options }, ?_, hinv, rfl⟩
        simp only [set_absolute_path, hv, ha, Bool.false_eq_true, if_false]
        rw [setOption_of_reject default_options st.g st.options option_name _ hmain hc]
      | some ms =>
        obtain ⟨o1, ho1, _⟩ := setOption_present default_options st.g st.options
          option_name (abs_path env (exe_relative_path b env v exe)) v ms hinv.1
          hmain hc hv
        refine ⟨{ st with g := st.g, options := o1 }, ?_,
          options_inv_setOption default_options st.g st.g st.options o1 option_name
            _ 1 hinv ho1, rfl⟩
        simp only [set_absolute_path, hv, ha, Bool.false_eq_true, if_false]
        rw [ho1]

theorem set_absolute_paths_returns (b : Build) (default_options : List mg_option)
    (env : Env) (arg0 : String)
    (hkinds : ∀ name code, find_type name default_options ≠ MG_CONFIG_TYPE_other code) :
    ∀ (names : List String) (st : Config), options_inv st.options →
      ∃ st1, set_absolute_paths b default_options env arg0 names st = .ok st1 ∧
        options_inv st1.options ∧ st1.stderr = st.stderr := by
  intro names
  induction names with
  | nil => intro st hinv; exact ⟨st, rfl, hinv, rfl⟩
  | cons name rest ih =>
    intro st hinv
    obtain ⟨st1, h1, hinv1, herr1⟩ :=
      set_absolute_path_returns b default_options env st name arg0 hinv hkinds
    obtain ⟨st2, h2, hinv2, herr2⟩ := ih st1 hinv1
    exact ⟨st2, by simp [set_absolute_paths, h1, h2], hinv2, by rw [herr2, herr1]⟩

/-- When every option that is made absolute is not set or begins with `/`, the
calls of `set_absolute_path` leave the state as it is. -/
theorem set_absolute_paths_of_absolute (b : Build) (default_options : List mg_option)
    (env : Env) (arg0 : String) (st : Config) :
    ∀ (names : List String),
      (∀ name ∈ names, get_option st.options name = none ∨
        ∃ v, get_option st.options name = some v ∧ begins_with_slash v = true) →
      set_absolute_paths b default_options env arg0 names st = .ok st := by
  intro names
  induction names with
  | nil => intro _; rfl
  | cons name rest ih =>
    intro h
    have h1 := set_absolute_path_of_absolute b default_options env st name arg0
      (h name (by simp))
    simp only [set_absolute_paths, h1]
    exact ih (fun n hn => h n (by simp [hn]))

/-- One call of `verify_existence` in the words of the specification. -/
theorem verify_existence_eq (env : Env) (st : Config) (p : String × Int) :
    verify_existence env st p.1 p.2 =
      if path_verified env st.options p = true then (1, st)
      else (0, { st with stderr := st.stderr ++ [invalid_path_warning st.options p] }) := by
  unfold verify_existence path_verified invalid_path_warning
  cases hg : get_option st.options p.1 with
  | none => simp
  | some path =>
    cases hs : env.stat path with
    | none => simp [hs]
    | some isdir =>
      by_cases hd : (if isdir = true then (1 : Int) else 0) = p.2
      · simp [hs, hd]
      · simp [hs, hd]

/-- The checks of `sanitize_options` one after the other: the result is 0 as
soon as one option fails, and every option that fails gets its warning. -/
theorem verify_all_eq (env : Env) :
    ∀ (l : List (String × Int)) (ok : Int) (st : Config),
      verify_all env l ok st =
        (if l.all (path_verified env st.options) = true then ok else 0,
          { st with stderr := (st.stderr ++
              (l.filter (fun p => !path_verified env st.options p)).map
                (invalid_path_warning st.options)) }) := by
  intro l
  induction l with
  | nil => intro ok st; simp [verify_all]
  | cons p rest ih =>
    intro ok st
    obtain ⟨name, dir⟩ := p
    simp only [verify_all]
    have hv := verify_existence_eq env st (name, dir)
    simp only at hv
    rw [hv]
    by_cases hp : path_verified env st.options (name, dir) = true
    · simp only [hp, if_true]
      rw [ih]
      simp only [List.all_cons, hp, Bool.true_and, List.filter_cons, Bool.not_true,
        Bool.false_eq_true, if_false, if_true]
      simp
    · have hp0 : path_verified env st.options (name, dir) = false := by
        cases h : path_verified env st.options (name, dir) with
        | false => rfl
        | true => exact absurd h hp
      simp only [hp0, Bool.false_eq_true, if_false]
      rw [ih]
      simp [hp0, List.filter_cons]

/-- C12.  With the file system as the fixed oracle `env.stat`, an option array
that satisfies the invariant and a table with known kinds only:
`sanitize_options` returns; it checks each of `document_root` (directory),
`cgi_interpreter` (file), `ssl_certificate` (file), `ssl_ca_path` (directory)
and `ssl_ca_file` (file) in the array left by the calls of `set_absolute_path`
and writes the warning of every one that fails; it returns 1 if and only if
each of the five is not set or names an existing path of the required nature.
The array is the one given when the options made absolute are not set or begin
with `/`.  When `sanitize_options` returns 0, `start_civetweb` ends in
`die("Invalid options")` and `mg_start` is not called. -/
theorem sanitize_options_accumulates (b : Build) (default_options : List mg_option)
    (env : Env) (st : Config) (arg0 : String)
    (hinv : options_inv st.options)
    (hkinds : ∀ name code, find_type name default_options ≠ MG_CONFIG_TYPE_other code) :
    (∃ st1 ok,
      set_absolute_paths b default_options env arg0 absolute_path_options st = .ok st1 ∧
      sanitize_options b default_options env st arg0 =
        .ok (ok, { st1 with stderr := (st.stderr ++
            (verified_options.filter (fun p => !path_verified env st1.options p)).map
              (invalid_path_warning st1.options)) }) ∧
      (ok = 1 ↔ ∀ p ∈ verified_options, path_verified env st1.options p = true) ∧
      (ok = 0 ↔ ¬ ∀ p ∈ verified_options, path_verified env st1.options p = true) ∧
      ((∀ name ∈ absolute_path_options, get_option st.options name = none ∨
          ∃ v, get_option st.options name = some v ∧ begins_with_slash v = true) →
        st1 = st)) ∧
    (∀ (line0 : Buffer) (mg_start : Options → MgStart) (g g1 : Globals)
        (args : List String) (r : Int) (options1 : Options) (st1 st2 : Config),
      setOption default_options g [] "document_root" "." = .ok (r, g1, options1) →
      process_command_line_arguments b default_options env line0 arg0 args
        { g := g1, options := options1, stderr := [] } = .ok st1 →
      sanitize_options b default_options env st1 arg0 = .ok (0, st2) →
      start_server b default_options env line0 mg_start g arg0 args
        = .abort (.die "Invalid options")) := by
  constructor
  · obtain ⟨st1, h1, _, herr1⟩ := set_absolute_paths_returns b default_options env
      arg0 hkinds absolute_path_options st hinv
    refine ⟨st1, if verified_options.all (path_verified env st1.options) = true
      then 1 else 0, h1, ?_, ?_, ?_, ?_⟩
    · simp only [sanitize_options, h1, verify_all_eq, herr1]
    · by_cases hall : verified_options.all (path_verified env st1.options) = true
      · simp only [hall, if_true, true_iff]
        exact List.all_eq_true.1 hall
      · simp only [hall, if_false]
        constructor
        · intro h; simp at h
        · intro h; exact absurd (List.all_eq_true.2 h) hall
    · by_cases hall : verified_options.all (path_verified env st1.options) = true
      · simp only [hall, if_true]
        constructor
        · intro h; simp at h
        · intro h; exact absurd (List.all_eq_true.1 hall) h
      · have hall0 : verified_options.all (path_verified env st1.options) = false := by
          cases hb : verified_options.all (path_verified env st1.options) with
          | false => rfl
          | true => exact absurd hb hall
        simp only [hall0, Bool.false_eq_true, if_false, true_iff]
        intro h; exact hall (List.all_eq_true.2 h)
    · intro habs
      have h2 := set_absolute_paths_of_absolute b default_options env arg0 st
        absolute_path_options habs
      rw [h2] at h1
      simp at h1
      exact h1.symm
  · intro line0 mg_start g g1 args r o1 st1 st2 hseed hproc hsan
    simp [start_server, hseed, hproc, hsan]

/-- Witness of C12: `document_root` is the directory `/srv/www`,
`cgi_interpreter` names that directory where a file is expected and
`ssl_certificate` names a file that does not exist: both get their warning,
`sanitize_options` returns 0 and `start_civetweb` ends in `die`. -/
theorem sanitize_options_accumulates_witness :
    sanitize_options ⟨4096, none⟩ paths_table www_env
        { g := ⟨none, none, none, 0, [], 0, "civetweb.conf"⟩,
          options := [("document_root", "/srv/www"), ("cgi_interpreter", "/srv/www"),
            ("ssl_certificate", "/etc/cert.pem")],
          stderr := [] } "civetweb"
      = .ok (0,
          { g := ⟨none, none, none, 0, [], 0, "civetweb.conf"⟩,
            options := [("document_root", "/srv/www"), ("cgi_interpreter", "/srv/www"),
              ("ssl_certificate", "/etc/cert.pem")],
            stderr := [.invalid_path "cgi_interpreter" "/srv/www",
              .invalid_path "ssl_certificate" "/etc/cert.pem"] }) ∧
    start_server ⟨4096, none⟩ paths_table www_env (fun _ => 'x') mg_start_ok
        ⟨none, none, none, 0, [], 0, ""⟩ "civetweb"
        ["-document_root", "/srv/www", "-cgi_interpreter", "/srv/www",
          "-ssl_certificate", "/etc/cert.pem"]
      = .abort (.die "Invalid options") := by
  have h := sanitize_options_accumulates ⟨4096, none⟩ paths_table www_env
    { g := ⟨none, none, none, 0, [], 0, "civetweb.conf"⟩,
      options := [("document_root", "/srv/www"), ("cgi_interpreter", "/srv/www"),
        ("ssl_certificate", "/etc/cert.pem")],
      stderr := [] } "civetweb"
    (by simp [options_inv, MAX_OPTIONS, main_option_names, main_config_options])
    (by
      intro name code
      simp only [paths_table, find_type]
      split_ifs <;> simp)
  refine ⟨by rfl, ?_⟩
  exact h.2 (fun _ => 'x') mg_start_ok ⟨none, none, none, 0, [], 0, ""⟩
    ⟨none, none, none, 0, [], 0, ""⟩
    ["-document_root", "/srv/www", "-cgi_interpreter", "/srv/www",
      "-ssl_certificate", "/etc/cert.pem"] 1 [("document_root", ".")]
    { g := ⟨none, none, none, 0, [], 0, "civetweb.conf"⟩,
      options := [("document_root", "/srv/www"), ("cgi_interpreter", "/srv/www"),
        ("ssl_certificate", "/etc/cert.pem")],
      stderr := [] }
    { g := ⟨none, none, none, 0, [], 0, "civetweb.conf"⟩,
      options := [("document_root", "/srv/www"), ("cgi_interpreter", "/srv/www"),
        ("ssl_certificate", "/etc/cert.pem")],
      stderr := [.invalid_path "cgi_interpreter" "/srv/www",
        .invalid_path "ssl_certificate" "/etc/cert.pem"] }
    (by rfl) (by rfl) (by rfl)

/-! ## The claims on the command line and on the config file that does not open -/

theorem char_at_zero_dash (a : String) :
    (char_at a 0 ≠ '-') ↔ ¬ (a.toList.head? = some '-') := by
  obtain ⟨l⟩ := a
  cases l with
  | nil =>
    simp only [char_at, String.toList, List.getD_nil, List.head?_nil]
    constructor
    · intro _ h; simp at h
    · intro _; decide
  | cons c t => simp [char_at, String.toList]

/-- The loop over the command line applies the pairs before the first
malformed pair in order and then, when there is a malformed pair, ends in
`show_usage_and_exit`. -/
theorem command_line_loop_eq (default_options : List mg_option) :
    ∀ (n : Nat) (args : List String) (st : Config), args.length ≤ n →
      command_line_loop default_options args st =
        match apply_pairs default_options (scan_pairs args).1 st with
        | .error e => .error e
        | .ok st1 =>
          if (scan_pairs args).2 = true then .error .show_usage_and_exit else .ok st1 := by
  intro n
  induction n with
  | zero =>
    intro args st h
    have h0 : args = [] := List.length_eq_zero.1 (by omega)
    subst h0
    simp [command_line_loop, scan_pairs, apply_pairs]
  | succ m ih =>
    intro args st h
    match args, h with
    | [], _ => simp [command_line_loop, scan_pairs, apply_pairs]
    | [a], _ => simp [command_line_loop, scan_pairs, apply_pairs]
    | a :: v :: rest, h =>
      have hl : rest.length ≤ m := by
        simp only [List.length_cons] at h
        omega
      by_cases hd : a.toList.head? = some '-'
      · have hc : ¬ (char_at a 0 ≠ '-') := by
          rw [char_at_zero_dash]; simpa using hd
        simp only [command_line_loop, hc, if_false, scan_pairs, hd, if_true,
          apply_pairs]
        cases hs : setOption default_options st.g st.options (str_drop 1 a) v with
        | error e => rfl
        | ok t =>
          obtain ⟨r, g1, o1⟩ := t
          exact ih rest _ hl
      · have hc : char_at a 0 ≠ '-' := (char_at_zero_dash a).2 hd
        rw [command_line_loop, if_pos hc]
        simp only [scan_pairs, if_neg hd, apply_pairs, if_true]

theorem default_config_file_start (b : Build) (argv0 : String) :
    (match dir_before_last_sep argv0.toList with
      | none => (snprintf (b.PATH_MAX - 1) CONFIG_FILE, 1)
      | some d =>
        (snprintf (b.PATH_MAX - 1) (String.mk d ++ "/" ++ CONFIG_FILE), 1)).2 = 1 := by
  cases dir_before_last_sep argv0.toList <;> rfl

theorem choose_config_file_start (b : Build) (argv0 : String) (args : List String) :
    (choose_config_file b argv0 args).2 = pair_scanning_start args := by
  cases args with
  | nil =>
    rw [choose_config_file, default_config_file_start]
    rfl
  | cons a rest =>
    obtain ⟨l⟩ := a
    cases l with
    | nil =>
      have h : char_at (String.mk []) 0 = NUL := rfl
      have hp : pair_scanning_start (String.mk [] :: rest) = 1 := rfl
      rw [choose_config_file, hp, h]
      simp only [ne_eq, not_true_eq_false, and_false, if_false]
      exact default_config_file_start b argv0
    | cons c t =>
      have h : char_at (String.mk (c :: t)) 0 = c := rfl
      have hp : pair_scanning_start (String.mk (c :: t) :: rest)
          = if (c != '-' && c != NUL) = true then 2 else 1 := rfl
      rw [choose_config_file, hp, h]
      by_cases h1 : c = '-'
      · simp only [h1, ne_eq, not_true_eq_false, false_and, if_false]
        rw [default_config_file_start]
        rfl
      · by_cases h2 : c = NUL
        · simp only [h2, ne_eq, not_true_eq_false, and_false, if_false]
          rw [default_config_file_start]
          simp
        · simp [h1, h2]

theorem apply_command_line_eq (default_options : List mg_option)
    (args : List String) (start : Nat) (st : Config) :
    apply_command_line default_options args start st =
      if psn_launch args = true then .ok st
      else
        match apply_pairs default_options (scan_pairs (args.drop (start - 1))).1 st with
        | .error e => .error e
        | .ok st1 =>
          if (scan_pairs (args.drop (start - 1))).2 = true then
            .error .show_usage_and_exit
          else .ok st1 := by
  cases args with
  | nil =>
    simp only [apply_command_line, psn_launch, List.drop_nil]
    exact command_line_loop_eq default_options 0 [] st (by simp)
  | cons a rest =>
    simp only [apply_command_line, psn_launch, beq_iff_eq]
    by_cases hp : a.toList.take 5 = "-psn_".toList
    · rw [if_pos hp, if_pos hp]
    · rw [if_neg hp, if_neg hp]
      exact command_line_loop_eq default_options _ _ st (le_refl _)

theorem other_abort_not_open_failure (e : Abort) (h : other_abort e) :
    ¬ is_open_failure e := by
  rintro ⟨n, hn⟩
  rcases h with h | h | h | ⟨m, h⟩
  · rw [h] at hn; simp at hn
  · rw [h] at hn; simp at hn
  · rw [h] at hn
    simp only [Abort.die.injEq] at hn
    have h1 := congrArg (fun s => s.data.head?) hn
    simp at h1
  · rw [h] at hn
    simp only [Abort.die.injEq] at hn
    have h1 := congrArg (fun s => s.data.head?) hn
    simp at h1

theorem check_type_error (t : MgConfigType) (name value : String) (e : Abort)
    (h : check_type t name value = .error e) :
    e = .die ("Unknown option type - option " ++ name) := by
  cases t <;> simp only [check_type] at h <;>
    first
    | (cases h; rfl)
    | cases h
    | split_ifs at h

theorem setOption_error (default_options : List mg_option) (g : Globals)
    (options : Options) (name value : String) (e : Abort)
    (h : setOption default_options g options name value = .error e) :
    other_abort e := by
  simp only [setOption] at h
  cases hm : main_option_loop g name value main_config_options with
  | some g1 => simp [hm] at h
  | none =>
    simp only [hm] at h
    cases hc : check_type (find_type name default_options) name value with
    | error e1 =>
      simp only [hc, Except.error.injEq] at h
      rw [← h, check_type_error _ name value e1 hc]
      exact Or.inr (Or.inr (Or.inr ⟨name, rfl⟩))
    | ok c =>
      cases c with
      | none => simp [hc] at h
      | some ms =>
        simp only [hc] at h
        cases hs : store_option name value ms MAX_OPTIONS options with
        | none =>
          simp only [hs, Except.error.injEq] at h
          rw [← h]
          exact Or.inr (Or.inr (Or.inl rfl))
        | some o1 => simp [hs] at h

theorem scan_error (size : Nat) (b : Buffer) (stop : Char → Bool) :
    ∀ (fuel j : Nat) (e : Abort), scan size b stop fuel j = .error e →
      e = .out_of_bounds := by
  intro fuel
  induction fuel with
  | zero => intro j e h; simp [scan] at h; exact h.symm
  | succ n ih =>
    intro j e h
    simp only [scan] at h
    split_ifs at h
    · simp at h; exact h.symm
    · exact ih (j + 1) e h

theorem cstr_error (size : Nat) (b : Buffer) :
    ∀ (fuel j : Nat) (e : Abort), cstr size b fuel j = .error e →
      e = .out_of_bounds := by
  intro fuel
  induction fuel with
  | zero => intro j e h; simp [cstr] at h; exact h.symm
  | succ n ih =>
    intro j e h
    simp only [cstr] at h
    split_ifs at h
    · simp at h; exact h.symm
    · cases hc : cstr size b n (j + 1) with
      | error e1 =>
        simp only [hc, Except.error.injEq] at h
        rw [← h]
        exact ih (j + 1) e1 hc
      | ok cs => simp [hc] at h

theorem parse_line_error (size : Nat) (line : Buffer) (off : Nat) (e : Abort)
    (h : parse_line size line off = .error e) : e = .out_of_bounds := by
  simp only [parse_line] at h
  cases h1 : scan size line (fun c => !isspace c) size off with
  | error e1 =>
    simp only [h1, Except.error.injEq] at h
    rw [← h]; exact scan_error _ _ _ _ _ _ h1
  | ok ai =>
    simp only [h1] at h
    split_ifs at h
    cases h2 : scan size line (fun c => c == NUL) size off with
    | error e2 =>
      simp only [h2, Except.error.injEq] at h
      rw [← h]; exact scan_error _ _ _ _ _ _ h2
    | ok aend =>
      simp only [h2] at h
      cases h3 : scan size (strip_trailing off (aend - off) line)
          (fun c => isspace c || c == NUL) size ai with
      | error e3 =>
        simp only [h3, Except.error.injEq] at h
        rw [← h]; exact scan_error _ _ _ _ _ _ h3
      | ok aj =>
        simp only [h3] at h
        cases h4 : scan size (buf_set (strip_trailing off (aend - off) line) aj NUL)
            (fun c => !isspace c) size (aj + 1) with
        | error e4 =>
          simp only [h4, Except.error.injEq] at h
          rw [← h]; exact scan_error _ _ _ _ _ _ h4
        | ok av =>
          simp only [h4] at h
          cases h5 : cstr size (buf_set (strip_trailing off (aend - off) line) aj NUL)
              size ai with
          | error e5 =>
            simp only [h5, Except.error.injEq] at h
            rw [← h]; exact cstr_error _ _ _ _ _ h5
          | ok name =>
            cases h6 : cstr size
                (buf_set (strip_trailing off (aend - off) line) aj NUL) size av with
            | error e6 =>
              simp only [h5, h6, Except.error.injEq] at h
              rw [← h]; exact cstr_error _ _ _ _ _ h6
            | ok value =>
              cases h7 : cstr size
                  (buf_set (strip_trailing off (aend - off) line) aj NUL) size off with
              | error e7 =>
                simp only [h5, h6, h7, Except.error.injEq] at h
                rw [← h]; exact cstr_error _ _ _ _ _ h7
              | ok text => simp [h5, h6, h7] at h

theorem read_config_loop_error (default_options : List mg_option)
    (config_file : String) (size : Nat) :
    ∀ (fuel : Nat) (line : Buffer) (line_no : Nat) (stream : List Char)
      (st : Config) (e : Abort),
      read_config_loop default_options config_file size fuel line line_no stream st
        = .error e →
      other_abort e := by
  intro fuel
  induction fuel with
  | zero => intro line line_no stream st e h; simp [read_config_loop] at h
  | succ n ih =>
    intro line line_no stream st e h
    simp only [read_config_loop] at h
    cases hf : fgets line size stream with
    | none => simp [hf] at h
    | some p =>
      obtain ⟨line1, rest⟩ := p
      simp only [hf] at h
      cases hp : parse_line size line1 (bom_offset line1 line_no) with
      | error e1 =>
        simp only [hp, Except.error.injEq] at h
        rw [← h]
        exact Or.inl (parse_line_error _ _ _ _ hp)
      | ok r =>
        cases r with
        | none =>
          simp only [hp] at h
          exact ih line1 (line_no + 1) rest st e h
        | some pl =>
          simp only [hp] at h
          cases hs : setOption default_options st.g st.options pl.name pl.value with
          | error e1 =>
            simp only [hs, Except.error.injEq] at h
            rw [← h]
            exact setOption_error _ _ _ _ _ _ hs
          | ok t =>
            obtain ⟨r, g1, o1⟩ := t
            simp only [hs] at h
            exact ih pl.line (line_no + 1) rest _ e h

theorem read_config_file_error (default_options : List mg_option) (env : Env)
    (line0 : Buffer) (config_file : String) (st : Config) (e : Abort)
    (h : read_config_file default_options env line0 config_file st = .error e) :
    other_abort e := by
  simp only [read_config_file] at h
  cases hf : env.fopen config_file with
  | none => simp [hf] at h
  | some content =>
    simp only [hf] at h
    cases hl : read_config_loop default_options config_file MAX_CONF_FILE_LINE_SIZE
        (content.length + 1) line0 0 content st with
    | error e1 =>
      simp only [hl, Except.error.injEq] at h
      rw [← h]
      exact read_config_loop_error _ _ _ _ _ _ _ _ _ hl
    | ok st1 => simp [hl] at h

/-- The function `read_config_file` returns 0 exactly when the file does not
open, and then the state is the one given. -/
theorem read_config_file_ok (default_options : List mg_option) (env : Env)
    (line0 : Buffer) (config_file : String) (st st1 : Config) (r : Int)
    (h : read_config_file default_options env line0 config_file st = .ok (r, st1)) :
    (r = 0 ∧ env.fopen config_file = none ∧ st1 = st) ∨
      (r = 1 ∧ ∃ content, env.fopen config_file = some content) := by
  simp only [read_config_file] at h
  cases hf : env.fopen config_file with
  | none =>
    simp only [hf, Except.ok.injEq, Prod.mk.injEq] at h
    exact Or.inl ⟨h.1.symm, rfl, h.2.symm⟩
  | some content =>
    simp only [hf] at h
    cases hl : read_config_loop default_options config_file MAX_CONF_FILE_LINE_SIZE
        (content.length + 1) line0 0 content st with
    | error e1 => simp [hl] at h
    | ok st2 =>
      simp only [hl, Except.ok.injEq, Prod.mk.injEq] at h
      exact Or.inr ⟨h.1.symm, content, rfl⟩

theorem apply_pairs_error (default_options : List mg_option) :
    ∀ (pairs : List (String × String)) (st : Config) (e : Abort),
      apply_pairs default_options pairs st = .error e → other_abort e := by
  intro pairs
  induction pairs with
  | nil => intro st e h; simp [apply_pairs] at h
  | cons p rest ih =>
    intro st e h
    obtain ⟨a, v⟩ := p
    simp only [apply_pairs] at h
    cases hs : setOption default_options st.g st.options (str_drop 1 a) v with
    | error e1 =>
      simp only [hs, Except.error.injEq] at h
      rw [← h]
      exact setOption_error _ _ _ _ _ _ hs
    | ok t =>
      obtain ⟨r, g1, o1⟩ := t
      simp only [hs] at h
      exact ih _ e h

theorem apply_command_line_error (default_options : List mg_option)
    (args : List String) (start : Nat) (st : Config) (e : Abort)
    (h : apply_command_line default_options args start st = .error e) :
    other_abort e := by
  rw [apply_command_line_eq] at h
  by_cases hpsn : psn_launch args = true
  · rw [if_pos hpsn] at h
    simp at h
  · rw [if_neg hpsn] at h
    cases hp : apply_pairs default_options (scan_pairs (args.drop (start - 1))).1 st with
    | error e1 =>
      simp only [hp, Except.error.injEq] at h
      rw [← h]
      exact apply_pairs_error _ _ _ _ hp
    | ok st1 =>
      simp only [hp] at h
      by_cases hm : (scan_pairs (args.drop (start - 1))).2 = true
      · rw [if_pos hm] at h
        simp only [Except.error.injEq] at h
        rw [← h]
        exact Or.inr (Or.inl rfl)
      · rw [if_neg hm] at h
        simp at h

/-- The name `read_config_file` gets after the block of `CONFIG_FILE2`. -/
theorem alternate_config_file_cases (b : Build) (env : Env) (name : String) :
    (alternate_config_file b env name = .ok name ∧
      (env.fopen name = none → ¬ backup_opens b env)) ∨
    (env.fopen name = none ∧ backup_opens b env ∧
      ((∃ file2 content, env.fopen file2 = some content ∧
          alternate_config_file b env name = .ok file2) ∨
        alternate_config_file b env name = .error .out_of_bounds)) := by
  cases h2 : b.CONFIG_FILE2 with
  | none =>
    left
    refine ⟨by simp [alternate_config_file, h2], ?_⟩
    rintro _ ⟨f, c, hf, _⟩
    rw [h2] at hf
    simp at hf
  | some file2 =>
    cases hn : env.fopen name with
    | some c =>
      left
      exact ⟨by simp [alternate_config_file, h2, hn], by intro h; simp at h⟩
    | none =>
      cases hf : env.fopen file2 with
      | none =>
        left
        refine ⟨by simp [alternate_config_file, h2, hn, hf], ?_⟩
        rintro _ ⟨f, c, hf1, hf2⟩
        rw [h2] at hf1
        simp only [Option.some.injEq] at hf1
        rw [← hf1, hf] at hf2
        simp at hf2
      | some c =>
        right
        refine ⟨rfl, ⟨file2, c, h2, hf⟩, ?_⟩
        by_cases hfit : file2.length + 1 ≤ b.PATH_MAX
        · left
          exact ⟨file2, c, hf, by simp [alternate_config_file, h2, hn, hf, hfit]⟩
        · right
          simp [alternate_config_file, h2, hn, hf, hfit]

/-- C19, amended.  The function `process_command_line_arguments` ends in
`die("Cannot open config file ...")` if and only if the config file was given
explicitly as the first argument and neither it nor the backup file
`CONFIG_FILE2` of the build (if the build has one) can be opened.  When the
name is the implicit default and neither file can be opened, the state before
the command line pairs are applied is the one given, with only the name of the
config file stored: the option array holds the seeded defaults only. -/
theorem config_file_open_failure (b : Build) (default_options : List mg_option)
    (env : Env) (line0 : Buffer) (argv0 : String) (args : List String)
    (st : Config) :
    ((∃ e, process_command_line_arguments b default_options env line0 argv0 args st
          = .error e ∧ is_open_failure e) ↔
      (explicit_config_file args = true ∧
        env.fopen (choose_config_file b argv0 args).1 = none ∧
        ¬ backup_opens b env)) ∧
    (explicit_config_file args = false →
      env.fopen (choose_config_file b argv0 args).1 = none →
      ¬ backup_opens b env →
      load_config_file b default_options env line0 argv0 args st =
        .ok (1, { st with g := { st.g with
                    g_config_file_name := (choose_config_file b argv0 args).1 } })) := by
  have hstart := choose_config_file_start b argv0 args
  have hread : env.fopen (choose_config_file b argv0 args).1 = none →
      ∀ st0, read_config_file default_options env line0
        (choose_config_file b argv0 args).1 st0 = .ok (0, st0) := by
    intro hn st0
    simp [read_config_file, hn]
  constructor
  · constructor
    · rintro ⟨e, he, hopen⟩
      simp only [process_command_line_arguments] at he
      cases hl : load_config_file b default_options env line0 argv0 args st with
      | ok t =>
        obtain ⟨start, st1⟩ := t
        simp only [hl] at he
        exact absurd hopen (other_abort_not_open_failure e
          (apply_command_line_error _ _ _ _ _ he))
      | error e1 =>
        simp only [hl, Except.error.injEq] at he
        subst he
        simp only [load_config_file] at hl
        rcases alternate_config_file_cases b env (choose_config_file b argv0 args).1
          with ⟨ha, hno⟩ | ⟨hn, hb, ha⟩
        · simp only [ha] at hl
          cases hr : read_config_file default_options env line0
              (choose_config_file b argv0 args).1
              { st with g := { st.g with
                  g_config_file_name := (choose_config_file b argv0 args).1 } } with
          | error e2 =>
            simp only [hr, Except.error.injEq] at hl
            subst hl
            exact absurd hopen (other_abort_not_open_failure _
              (read_config_file_error _ _ _ _ _ _ hr))
          | ok t =>
            obtain ⟨r, st2⟩ := t
            simp only [hr] at hl
            split_ifs at hl with hcond
            rcases read_config_file_ok _ _ _ _ _ _ _ hr with ⟨_, hnone, _⟩ | ⟨h1, _⟩
            · refine ⟨?_, hnone, hno hnone⟩
              have h2 : pair_scanning_start args = 2 := by rw [← hstart]; exact hcond.2
              simp only [pair_scanning_start] at h2
              by_contra hx
              simp [hx] at h2
            · rw [h1] at hcond
              simp at hcond
        · rcases ha with ⟨file2, c, hf2, ha⟩ | ha
          · simp only [ha] at hl
            cases hr : read_config_file default_options env line0 file2
                { st with g := { st.g with g_config_file_name := file2 } } with
            | error e2 =>
              simp only [hr, Except.error.injEq] at hl
              subst hl
              exact absurd hopen (other_abort_not_open_failure _
                (read_config_file_error _ _ _ _ _ _ hr))
            | ok t =>
              obtain ⟨r, st2⟩ := t
              simp only [hr] at hl
              split_ifs at hl with hcond
              rcases read_config_file_ok _ _ _ _ _ _ _ hr with ⟨_, hnone, _⟩ | ⟨h1, _⟩
              · rw [hf2] at hnone
                simp at hnone
              · rw [h1] at hcond
                simp at hcond
          · simp only [ha, Except.error.injEq] at hl
            subst hl
            exact absurd hopen (other_abort_not_open_failure _ (Or.inl rfl))
    · rintro ⟨hexp, hn, hno⟩
      refine ⟨.die ("Cannot open config file " ++ (choose_config_file b argv0 args).1),
        ?_, ⟨_, rfl⟩⟩
      have ha : alternate_config_file b env (choose_config_file b argv0 args).1
          = .ok (choose_config_file b argv0 args).1 := by
        rcases alternate_config_file_cases b env (choose_config_file b argv0 args).1
          with ⟨ha, _⟩ | ⟨_, hb, _⟩
        · exact ha
        · exact absurd hb hno
      have h2 : (choose_config_file b argv0 args).2 = 2 := by
        rw [hstart]; simp [pair_scanning_start, hexp]
      simp [process_command_line_arguments, load_config_file, ha, hread hn, h2]
  · intro hexp hn hno
    have ha : alternate_config_file b env (choose_config_file b argv0 args).1
        = .ok (choose_config_file b argv0 args).1 := by
      rcases alternate_config_file_cases b env (choose_config_file b argv0 args).1
        with ⟨ha, _⟩ | ⟨_, hb, _⟩
      · exact ha
      · exact absurd hb hno
    have h2 : (choose_config_file b argv0 args).2 = 1 := by
      rw [hstart]; simp [pair_scanning_start, hexp]
    simp [load_config_file, ha, hread hn, h2]

/-- Witness of C19, amended: no file can be opened; with the explicit
`my.conf` the process ends in `die`, and with no argument the seeded state
goes on to the command line. -/
theorem config_file_open_failure_witness :
    (∃ e, process_command_line_arguments ⟨4096, none⟩ ports_list_table app_env
        (fun _ => 'x') "civetweb" ["my.conf"] seeded = .error e ∧
      is_open_failure e) ∧
    load_config_file ⟨4096, none⟩ ports_list_table app_env (fun _ => 'x')
        "civetweb" [] seeded
      = .ok (1, { seeded with g := { seeded.g with
                    g_config_file_name := "civetweb.conf" } }) := by
  have hno : ¬ backup_opens ⟨4096, none⟩ app_env := by
    rintro ⟨f, c, hf, _⟩
    simp at hf
  constructor
  · exact (config_file_open_failure ⟨4096, none⟩ ports_list_table app_env
      (fun _ => 'x') "civetweb" ["my.conf"] seeded).1.2 ⟨by rfl, by rfl, hno⟩
  · exact (config_file_open_failure ⟨4096, none⟩ ports_list_table app_env
      (fun _ => 'x') "civetweb" [] seeded).2 (by rfl) (by rfl) hno

/-- C19 as stated fails: on a Linux build the backup file
`/usr/local/etc/civetweb.conf` exists and `my.conf`, given explicitly, does
not: the process does not end in a fatal error but reads the backup file; and
with no argument and no `civetweb.conf` the option array gets
`listening_ports` from the backup file, beyond the seeded default. -/
theorem config_file_backup_is_read :
    backup_env.fopen "my.conf" = none ∧
    process_command_line_arguments linux_build ports_list_table backup_env
        (fun _ => 'x') "civetweb" ["my.conf"] seeded
      = .ok { g := ⟨none, none, none, 0, [], 0, "/usr/local/etc/civetweb.conf"⟩,
              options := [("document_root", "."), ("listening_ports", "8000")],
              stderr := [] } ∧
    backup_env.fopen "civetweb.conf" = none ∧
    load_config_file linux_build ports_list_table backup_env (fun _ => 'x')
        "civetweb" [] seeded
      = .ok (1, { g := ⟨none, none, none, 0, [], 0, "/usr/local/etc/civetweb.conf"⟩,
                  options := [("document_root", "."), ("listening_ports", "8000")],
                  stderr := [] }) :=
  ⟨by rfl, by rfl, by rfl, by rfl⟩

/-! ## Lemmas on the line array -/

theorem agrees_append (b : Buffer) (u v : List Char) :
    ∀ j, agrees b j (u ++ v) ↔ agrees b j u ∧ agrees b (j + u.length) v := by
  induction u with
  | nil => intro j; simp [agrees]
  | cons a t ih =>
    intro j
    have e : j + 1 + t.length = j + (t.length + 1) := by omega
    show (b j = a ∧ agrees b (j + 1) (t ++ v)) ↔ _
    rw [ih (j + 1), e]
    simp only [agrees, List.length_cons, and_assoc]

theorem agrees_get (b : Buffer) (l : List Char) :
    ∀ j k, agrees b j l → k < l.length → b (j + k) = l.getD k NUL := by
  induction l with
  | nil => intro j k _ hk; simp at hk
  | cons a t ih =>
    intro j k h hk
    cases k with
    | zero => simpa using h.1
    | succ k =>
      have := ih (j + 1) k h.2 (by simpa using hk)
      have e : j + (k + 1) = j + 1 + k := by omega
      rw [e, this]
      simp

theorem agrees_of_get (b : Buffer) (l : List Char) :
    ∀ j, (∀ k, k < l.length → b (j + k) = l.getD k NUL) → agrees b j l := by
  induction l with
  | nil => intro j _; trivial
  | cons a t ih =>
    intro j h
    refine ⟨by simpa using h 0 (by simp), ih (j + 1) ?_⟩
    intro k hk
    have := h (k + 1) (by simpa using hk)
    have e : j + (k + 1) = j + 1 + k := by omega
    rw [← e, this]
    simp

theorem agrees_congr (b b1 : Buffer) (l : List Char) (j : Nat)
    (h : agrees b j l) (hb : ∀ k, j ≤ k → k < j + l.length → b1 k = b k) :
    agrees b1 j l := by
  apply agrees_of_get
  intro k hk
  rw [hb (j + k) (by omega) (by omega)]
  exact agrees_get b l j k h hk

theorem agrees_buf_set (b : Buffer) (l : List Char) (j m : Nat) (x : Char)
    (h : agrees b j l) (hm : m < j ∨ j + l.length ≤ m) :
    agrees (buf_set b m x) j l := by
  apply agrees_congr b _ l j h
  intro k h1 h2
  have : k ≠ m := by omega
  simp [buf_set, this]

theorem agrees_buf_write (b : Buffer) (cs : List Char) :
    agrees (buf_write b cs) 0 cs := by
  apply agrees_of_get
  intro k hk
  simp [buf_write, hk]

theorem scan_agrees (size : Nat) (b : Buffer) (stop : Char → Bool) (x : Char)
    (hx : stop x = true) :
    ∀ (pre : List Char) (fuel j : Nat), agrees b j (pre ++ [x]) →
      (∀ c ∈ pre, stop c = false) → j + pre.length < size → pre.length < fuel →
      scan size b stop fuel j = .ok (j + pre.length) := by
  intro pre
  induction pre with
  | nil =>
    intro fuel j h _ hs hf
    obtain ⟨n, rfl⟩ : ∃ n, fuel = n + 1 := ⟨fuel - 1, by omega⟩
    have hb : b j = x := h.1
    have : ¬ size ≤ j := by simpa using hs
    simp [scan, this, hb, hx]
  | cons a t ih =>
    intro fuel j h hp hs hf
    obtain ⟨n, rfl⟩ : ∃ n, fuel = n + 1 := ⟨fuel - 1, by omega⟩
    have hb : b j = a := h.1
    have h1 : ¬ size ≤ j := by simp at hs; omega
    have h2 : stop a = false := hp a (by simp)
    have := ih n (j + 1) h.2 (fun c hc => hp c (by simp [hc]))
      (by simp at hs; omega) (by simp at hf; omega)
    simp only [scan, h1, if_false, hb, h2, this, List.length_cons]
    simp
    omega

theorem cstr_agrees (size : Nat) (b : Buffer) :
    ∀ (w : List Char) (fuel j : Nat), agrees b j (w ++ [NUL]) →
      (∀ c ∈ w, c ≠ NUL) → j + w.length < size → w.length < fuel →
      cstr size b fuel j = .ok w := by
  intro w
  induction w with
  | nil =>
    intro fuel j h _ hs hf
    obtain ⟨n, rfl⟩ : ∃ n, fuel = n + 1 := ⟨fuel - 1, by omega⟩
    have hb : b j = NUL := h.1
    have : ¬ size ≤ j := by simpa using hs
    simp [cstr, this, hb]
  | cons a t ih =>
    intro fuel j h hp hs hf
    obtain ⟨n, rfl⟩ : ∃ n, fuel = n + 1 := ⟨fuel - 1, by omega⟩
    have hb : b j = a := h.1
    have h1 : ¬ size ≤ j := by simp at hs; omega
    have h2 : a ≠ NUL := hp a (by simp)
    have := ih n (j + 1) h.2 (fun c hc => hp c (by simp [hc]))
      (by simp at hs; omega) (by simp at hf; omega)
    simp [cstr, h1, hb, h2, this]

theorem strip_trailing_agrees (b : Buffer) (off : Nat) :
    ∀ (c : List Char), agrees b off c →
      agrees (strip_trailing off c.length b) off
        (line_stripped c ++
          List.replicate (c.length - (line_stripped c).length) NUL) ∧
      ∀ k, (k < off ∨ off + c.length ≤ k) →
        strip_trailing off c.length b k = b k := by
  intro c
  induction c using List.reverseRecOn generalizing b with
  | nil => intro _; simp [strip_trailing, line_stripped, agrees]
  | append_singleton c x ih =>
    intro h
    have hx : b (off + c.length) = x := ((agrees_append b c [x] off).1 h).2.1
    have hc : agrees b off c := ((agrees_append b c [x] off).1 h).1
    by_cases hs : strippable x = true
    · have hs2 : (isspace x || iscntrl x) = true := hs
      have e1 : line_stripped (c ++ [x]) = line_stripped c := by
        simp [line_stripped, List.rdropWhile_concat_pos, hs]
      have hle : (line_stripped c).length ≤ c.length :=
        (List.rdropWhile_prefix strippable c).length_le
      have hc1 : agrees (buf_set b (off + c.length) NUL) off c :=
        agrees_buf_set b c off _ NUL hc (Or.inr (le_refl _))
      obtain ⟨i1, i2⟩ := ih (buf_set b (off + c.length) NUL) hc1
      have e2 : strip_trailing off (c ++ [x]).length b
          = strip_trailing off c.length (buf_set b (off + c.length) NUL) := by
        rw [List.length_append, List.length_singleton]
        simp only [strip_trailing, hx, hs2, if_true]
      rw [e1, e2]
      constructor
      · have e3 : (c ++ [x]).length - (line_stripped c).length
            = (c.length - (line_stripped c).length) + 1 := by
          simp; omega
        rw [e3, List.replicate_succ', ← List.append_assoc]
        apply (agrees_append _ _ _ off).2
        refine ⟨i1, ?_, trivial⟩
        have e4 : off + (line_stripped c ++ List.replicate
            (c.length - (line_stripped c).length) NUL).length = off + c.length := by
          simp; omega
        rw [e4, i2 _ (Or.inr (le_refl _))]
        simp [buf_set]
      · intro k hk
        have hk2 : k < off ∨ off + c.length ≤ k := by
          simp at hk; omega
        rw [i2 k hk2]
        have : k ≠ off + c.length := by simp at hk; omega
        simp [buf_set, this]
    · have hs2 : (isspace x || iscntrl x) = false := by
        simpa [strippable] using hs
      have e1 : line_stripped (c ++ [x]) = c ++ [x] := by
        simp [line_stripped, List.rdropWhile_concat_neg, hs]
      have e2 : strip_trailing off (c ++ [x]).length b = b := by
        rw [List.length_append, List.length_singleton]
        simp only [strip_trailing, hx, hs2]
        simp
      rw [e1, e2]
      simpa using h

theorem fgets_read_line :
    ∀ (l : List Char) (n : Nat) (rest : List Char), (∀ ch ∈ l, ch ≠ '\n') →
      l.length < n → fgets_read n (l ++ '\n' :: rest) = (l ++ ['\n'], rest) := by
  intro l
  induction l with
  | nil =>
    intro n rest _ hn
    obtain ⟨m, rfl⟩ : ∃ m, n = m + 1 := ⟨n - 1, by simp at hn; omega⟩
    simp [fgets_read]
  | cons a t ih =>
    intro n rest hl hn
    obtain ⟨m, rfl⟩ : ∃ m, n = m + 1 := ⟨n - 1, by simp at hn; omega⟩
    have ha : a ≠ '\n' := hl a (by simp)
    have := ih m rest (fun c hc => hl c (by simp [hc])) (by simp at hn; omega)
    simp [fgets_read, ha, this]

theorem fgets_read_last :
    ∀ (l : List Char) (n : Nat), (∀ ch ∈ l, ch ≠ '\n') →
      l.length ≤ n → fgets_read n l = (l, []) := by
  intro l
  induction l with
  | nil => intro n _ _; cases n <;> simp [fgets_read]
  | cons a t ih =>
    intro n hl hn
    obtain ⟨m, rfl⟩ : ∃ m, n = m + 1 := ⟨n - 1, by simp at hn; omega⟩
    have ha : a ≠ '\n' := hl a (by simp)
    have := ih m (fun c hc => hl c (by simp [hc])) (by simp at hn; omega)
    simp [fgets_read, ha, this]

theorem dropWhile_head_false (p : Char → Bool) :
    ∀ (l : List Char) (y : Char) (r : List Char),
      l.dropWhile p = y :: r → p y = false := by
  intro l
  induction l with
  | nil => intro y r h; simp at h
  | cons a t ih =>
    intro y r h
    by_cases ha : p a = true
    · rw [List.dropWhile_cons_of_pos ha] at h
      exact ih y r h
    · rw [List.dropWhile_cons_of_neg ha] at h
      cases h
      simpa using ha

theorem takeWhile_all (p : Char → Bool) (l : List Char) :
    ∀ ch ∈ l.takeWhile p, p ch = true := fun _ h => List.mem_takeWhile_imp h

theorem isspace_NUL : isspace NUL = false := by decide

theorem replicate_getD_NUL (n k : Nat) : (List.replicate n NUL).getD k NUL = NUL := by
  by_cases h : k < n
  · simp [List.getD_eq_getElem?_getD, List.getElem?_replicate, h]
  · simp [List.getD_eq_getElem?_getD, List.getElem?_replicate, h]

/-- The first loop of the body: `i` stops behind the white space at the start
of the line. -/
theorem scan_indent (size : Nat) (b : Buffer) (off : Nat) (c : List Char)
    (hag : agrees b off (c ++ [NUL])) (hfit : off + c.length < size) :
    scan size b (fun ch => !isspace ch) size off = .ok (off + line_indent c) ∧
      b (off + line_indent c) = (c.dropWhile isspace).headD NUL ∧
      line_indent c ≤ c.length := by
  have hsplit : c.takeWhile isspace ++ c.dropWhile isspace = c :=
    List.takeWhile_append_dropWhile _ _
  have hile : line_indent c ≤ c.length := by
    have := congrArg List.length hsplit
    simp only [List.length_append] at this
    unfold line_indent
    omega
  have hx : (fun ch => !isspace ch) ((c.dropWhile isspace).headD NUL) = true := by
    cases hd : c.dropWhile isspace with
    | nil => simp [isspace_NUL]
    | cons y r => simp [dropWhile_head_false isspace c y r hd]
  have hag2 : agrees b off (c.takeWhile isspace ++
      ((c.dropWhile isspace).headD NUL :: ((c.dropWhile isspace ++ [NUL]).drop 1))) := by
    have e : (c.dropWhile isspace).headD NUL :: ((c.dropWhile isspace ++ [NUL]).drop 1)
        = c.dropWhile isspace ++ [NUL] := by
      cases c.dropWhile isspace <;> simp
    rw [e, ← List.append_assoc, hsplit]
    exact hag
  have h3 := (agrees_append b _ _ off).1 hag2
  refine ⟨?_, h3.2.1, hile⟩
  apply scan_agrees size b _ _ hx
  · exact (agrees_append b _ _ off).2 ⟨h3.1, h3.2.1, trivial⟩
  · intro ch hch
    simp [takeWhile_all isspace c ch hch]
  · unfold line_indent at hile; omega
  · unfold line_indent at hile; omega

/-- A line that is blank or a comment is skipped by the `continue`. -/
theorem parse_line_skip (size : Nat) (b : Buffer) (off : Nat) (c : List Char)
    (hag : agrees b off (c ++ [NUL])) (hfit : off + c.length < size)
    (hs : line_skipped c = true) : parse_line size b off = .ok none := by
  obtain ⟨h1, h2, _⟩ := scan_indent size b off c hag hfit
  have h3 : b (off + line_indent c) = '#' ∨ b (off + line_indent c) = NUL := by
    rw [h2]
    unfold line_skipped at hs
    cases hd : c.dropWhile isspace with
    | nil => right; rfl
    | cons y r =>
      rw [hd] at hs
      simpa using hs
  simp only [parse_line, h1, h3, if_true]

theorem bom_offset_agrees (b : Buffer) (line_no : Nat) (chunk : List Char)
    (hag : agrees b 0 (chunk ++ [NUL])) :
    bom_offset b line_no + (strip_bom line_no chunk).length = chunk.length ∧
      agrees b (bom_offset b line_no) (strip_bom line_no chunk ++ [NUL]) := by
  have hE : NUL ≠ Char.ofNat 0xEF := by decide
  have hB : NUL ≠ Char.ofNat 0xBB := by decide
  have hF : NUL ≠ Char.ofNat 0xBF := by decide
  cases line_no with
  | succ n => simp [bom_offset, strip_bom, hag]
  | zero =>
    match chunk, hag with
    | [], hag =>
      have h0 : b 0 = NUL := hag.1
      simp [bom_offset, strip_bom, h0, hE, agrees]
    | [x], hag =>
      have h0 : b 0 = x := hag.1
      have h1 : b 1 = NUL := hag.2.1
      simp [bom_offset, strip_bom, h0, h1, hB, agrees]
    | [x, y], hag =>
      have h0 : b 0 = x := hag.1
      have h1 : b 1 = y := hag.2.1
      have h2 : b 2 = NUL := hag.2.2.1
      simp [bom_offset, strip_bom, h0, h1, h2, hF, agrees]
    | x :: y :: z :: r, hag =>
      have h0 : b 0 = x := hag.1
      have h1 : b 1 = y := hag.2.1
      have h2 : b 2 = z := hag.2.2.1
      have h3 : agrees b 3 (r ++ [NUL]) := hag.2.2.2
      by_cases hm : x = Char.ofNat 0xEF ∧ y = Char.ofNat 0xBB ∧ z = Char.ofNat 0xBF
      · have e1 : bom_offset b 0 = 3 := by
          unfold bom_offset
          rw [h0, h1, h2]
          exact if_pos ⟨rfl, hm⟩
        have e2 : strip_bom 0 (x :: y :: z :: r) = r := by
          simp only [strip_bom]
          rw [if_pos hm]
        rw [e1, e2]
        exact ⟨by simp; omega, h3⟩
      · have e1 : bom_offset b 0 = 0 := by
          unfold bom_offset
          rw [h0, h1, h2]
          exact if_neg (fun h => hm h.2)
        have e2 : strip_bom 0 (x :: y :: z :: r) = x :: y :: z :: r := by
          simp only [strip_bom]
          rw [if_neg hm]
        rw [e1, e2]
        exact ⟨by simp, hag⟩

theorem line_name_append_after (c : List Char) :
    line_name c ++ line_after c = line_rest c :=
  List.takeWhile_append_dropWhile _ _

theorem line_stripped_length_le (c : List Char) :
    (line_stripped c).length ≤ c.length :=
  (List.rdropWhile_prefix strippable c).length_le

theorem line_stripped_mem (c : List Char) (ch : Char) (h : ch ∈ line_stripped c) :
    ch ∈ c :=
  (List.rdropWhile_prefix strippable c).subset h

/-- Where the chars of the line are in the array after the trailing white
space and control chars have been overwritten with NUL. -/
theorem stripped_layout (b : Buffer) (off : Nat) (c : List Char)
    (hag : agrees b off (c ++ [NUL])) (hi : line_indent c < c.length)
    (hstale : line_after c ≠ [] ∨ line_stripped c ≠ c) :
    agrees (strip_trailing off c.length b) (off + line_indent c)
        (line_name c ++ (line_after c ++ [NUL])) ∧
      (line_after c = [] →
        strip_trailing off c.length b
          (off + line_indent c + (line_name c).length + 1) = NUL) ∧
      agrees (strip_trailing off c.length b) off (line_text c) ∧
      (line_text c).length ≤ line_indent c + (line_name c).length ∧
      ((line_text c).length < line_indent c + (line_name c).length →
        strip_trailing off c.length b (off + (line_text c).length) = NUL) ∧
      (line_after c = [] →
        line_indent c + (line_name c).length + 1 ≤ c.length) ∧
      line_indent c + (line_name c).length + (line_after c).length ≤ c.length := by
  have hc : agrees b off c := ((agrees_append b c [NUL] off).1 hag).1
  have hN : b (off + c.length) = NUL := ((agrees_append b c [NUL] off).1 hag).2.1
  obtain ⟨h1, h2⟩ := strip_trailing_agrees b off c hc
  have hle := line_stripped_length_le c
  have hS : agrees (strip_trailing off c.length b) off (line_stripped c) :=
    ((agrees_append _ _ _ off).1 h1).1
  have hZ : ∀ k, (line_stripped c).length ≤ k → k ≤ c.length →
      strip_trailing off c.length b (off + k) = NUL := by
    intro k hk1 hk2
    by_cases hk : k < c.length
    · rw [agrees_get _ _ off k h1 (by simp; omega), List.getD_append_right _ _ _ _ hk1]
      exact replicate_getD_NUL _ _
    · have : k = c.length := by omega
      rw [this, h2 _ (Or.inr (le_refl _)), hN]
  have hsplit : (line_stripped c).take (line_indent c) ++ line_rest c
      = line_stripped c := List.take_append_drop _ _
  have hna := line_name_append_after c
  by_cases hA : line_indent c < (line_stripped c).length
  · -- the first char that is not white space was kept
    have htl : ((line_stripped c).take (line_indent c)).length = line_indent c := by
      simp; omega
    have hrl : line_indent c + (line_rest c).length = (line_stripped c).length := by
      have := congrArg List.length hsplit
      simp only [List.length_append, htl] at this
      exact this
    have hnl : (line_name c).length + (line_after c).length = (line_rest c).length := by
      rw [← hna]; simp
    have hR : agrees (strip_trailing off c.length b) (off + line_indent c)
        (line_rest c) := by
      have := hS
      rw [← hsplit] at this
      have := ((agrees_append _ _ _ off).1 this).2
      rwa [htl] at this
    have hT : line_text c = (line_stripped c).take (line_indent c) ++ line_name c := by
      unfold line_text
      conv_lhs => rw [← hsplit]
      rw [List.take_append_eq_append_take, htl]
      have e1 : line_indent c + (line_name c).length - line_indent c
          = (line_name c).length := by omega
      rw [e1, List.take_of_length_le (by rw [htl]; omega)]
      congr 1
      conv_lhs => rw [← hna]
      simp
    have hlt : line_after c = [] → (line_stripped c).length < c.length := by
      intro ha
      have hne : line_stripped c ≠ c := by
        cases hstale with
        | inl h => exact absurd ha h
        | inr h => exact h
      rcases Nat.lt_or_ge (line_stripped c).length c.length with h | h
      · exact h
      · exfalso
        apply hne
        exact (List.rdropWhile_prefix strippable c).eq_of_length (by
          unfold line_stripped at h hle; omega)
    refine ⟨?_, ?_, ?_, ?_, ?_, ?_, ?_⟩
    · rw [← List.append_assoc, hna]
      apply (agrees_append _ _ _ _).2
      refine ⟨hR, ?_, trivial⟩
      have e : off + line_indent c + (line_rest c).length
          = off + (line_stripped c).length := by omega
      rw [e]
      exact hZ _ (le_refl _) hle
    · intro ha
      have hlt := hlt ha
      have e : off + line_indent c + (line_name c).length + 1
          = off + ((line_stripped c).length + 1) := by
        rw [ha] at hnl
        simp at hnl
        omega
      rw [e]
      exact hZ _ (by omega) (by omega)
    · rw [hT]
      have := hS
      rw [← hsplit, ← hna, ← List.append_assoc] at this
      exact ((agrees_append _ _ _ off).1 this).1
    · rw [hT]; simp [htl]
    · intro h
      rw [hT] at h
      simp [htl] at h
    · intro ha
      have hlt := hlt ha
      rw [ha] at hnl
      simp at hnl
      omega
    · omega
  · -- only white space and control chars follow the white space at the start
    have hr : line_rest c = [] := by
      unfold line_rest
      exact List.drop_eq_nil_of_le (by omega)
    have hn : line_name c = [] := by unfold line_name; rw [hr]; rfl
    have ha : line_after c = [] := by unfold line_after; rw [hr]; rfl
    have hT : line_text c = line_stripped c := by
      unfold line_text
      exact List.take_of_length_le (by omega)
    refine ⟨?_, ?_, ?_, ?_, ?_, ?_, ?_⟩
    · rw [hn, ha]
      exact ⟨hZ _ (by omega) (by omega), trivial⟩
    · intro _
      rw [hn]
      have e : off + line_indent c + ([] : List Char).length + 1
          = off + (line_indent c + 1) := by simp; omega
      rw [e]
      exact hZ _ (by omega) (by omega)
    · rw [hT]; exact hS
    · rw [hT, hn]; simp; omega
    · intro _
      rw [hT]
      exact hZ _ (le_refl _) hle
    · intro _; rw [hn]; simp; omega
    · rw [hn, ha]; simp; omega

theorem line_name_mem (c : List Char) (ch : Char) (h : ch ∈ line_name c) :
    isspace ch = false ∧ ch ∈ c := by
  constructor
  · have := takeWhile_all (fun ch => !isspace ch) (line_rest c) ch h
    simpa using this
  · apply line_stripped_mem
    exact List.mem_of_mem_drop ((List.takeWhile_prefix _).subset h)

theorem line_after_mem (c : List Char) (ch : Char) (h : ch ∈ line_after c) :
    ch ∈ c := by
  apply line_stripped_mem
  exact List.mem_of_mem_drop ((List.dropWhile_suffix _).subset h)

theorem line_text_mem (c : List Char) (ch : Char) (h : ch ∈ line_text c) :
    ch ∈ c :=
  line_stripped_mem c ch (List.mem_of_mem_take h)

/-- The body of the loop on a line without NUL that is not skipped: the array
after the body, the indexes and the three strings. -/
theorem parse_line_eq (size : Nat) (b : Buffer) (off : Nat) (c : List Char)
    (hnul : ∀ ch ∈ c, ch ≠ NUL) (hag : agrees b off (c ++ [NUL]))
    (hfit : off + c.length < size) (hns : line_skipped c = false)
    (hstale : line_after c ≠ [] ∨ line_stripped c ≠ c) :
    parse_line size b off =
      .ok (some ⟨buf_set (strip_trailing off c.length b)
                   (off + line_indent c + (line_name c).length) NUL,
                 line_indent c, line_value_index c, String.mk (line_name c),
                 String.mk (line_value c), String.mk (line_text c)⟩) := by
  obtain ⟨h1, h2, hile⟩ := scan_indent size b off c hag hfit
  obtain ⟨y, r, hd, hy1, hy2⟩ : ∃ y r, c.dropWhile isspace = y :: r ∧ y ≠ '#' ∧ y ≠ NUL := by
    unfold line_skipped at hns
    cases hd : c.dropWhile isspace with
    | nil => rw [hd] at hns; simp at hns
    | cons y r =>
      rw [hd] at hns
      simp at hns
      exact ⟨y, r, rfl, hns.1, hns.2⟩
  have hi : line_indent c < c.length := by
    have := congrArg List.length (List.takeWhile_append_dropWhile isspace c)
    rw [hd] at this
    simp at this
    unfold line_indent
    omega
  have h3 : ¬ (b (off + line_indent c) = '#' ∨ b (off + line_indent c) = NUL) := by
    rw [h2, hd]
    simp [hy1, hy2]
  have hend : scan size b (fun ch => ch == NUL) size off = .ok (off + c.length) := by
    apply scan_agrees size b _ NUL (by simp) c size off hag
    · intro ch hch; simpa using hnul ch hch
    · exact hfit
    · omega
  obtain ⟨G1, G2, G3, G4, G5, G6, G7⟩ := stripped_layout b off c hag hi hstale
  have hnm := line_name_mem c
  -- the loop over the name
  have haj : scan size (strip_trailing off c.length b)
      (fun ch => isspace ch || ch == NUL) size (off + line_indent c)
      = .ok (off + line_indent c + (line_name c).length) := by
    have hx : (fun ch => isspace ch || ch == NUL) ((line_after c).headD NUL) = true := by
      cases ha : line_after c with
      | nil => simp
      | cons sp t =>
        have := dropWhile_head_false (fun ch => !isspace ch) (line_rest c) sp t ha
        simp at this
        simp [this]
    apply scan_agrees size _ _ _ hx
    · have e : (line_after c).headD NUL :: ((line_after c ++ [NUL]).drop 1)
          = line_after c ++ [NUL] := by
        cases line_after c <;> simp
      rw [← e] at G1
      have := (agrees_append _ _ _ _).1 G1
      exact (agrees_append _ _ _ _).2 ⟨this.1, this.2.1, trivial⟩
    · intro ch hch
      have := hnm ch hch
      have h0 := hnul ch this.2
      simp [this.1, h0]
    · omega
    · omega
  -- what follows the name
  have hV : agrees (buf_set (strip_trailing off c.length b)
        (off + line_indent c + (line_name c).length) NUL)
      (off + line_indent c + (line_name c).length + 1)
      ((line_after c).drop 1 ++ [NUL]) := by
    apply agrees_buf_set _ _ _ _ _ _ (Or.inl (by omega))
    cases ha : line_after c with
    | nil => exact ⟨G2 ha, trivial⟩
    | cons sp t =>
      rw [ha] at G1
      have := ((agrees_append _ _ _ _).1 G1).2
      exact this.2
  have hVl : line_indent c + (line_name c).length + 1 + ((line_after c).drop 1).length
      ≤ c.length := by
    cases ha : line_after c with
    | nil => simpa using G6 ha
    | cons sp t => rw [ha] at G7; simp at G7 ⊢; omega
  obtain ⟨hav, _, _⟩ := scan_indent size _ _ ((line_after c).drop 1) hV (by omega)
  have hsplitV : ((line_after c).drop 1).takeWhile isspace ++ line_value c
      = (line_after c).drop 1 := List.takeWhile_append_dropWhile _ _
  have hvalue : cstr size (buf_set (strip_trailing off c.length b)
        (off + line_indent c + (line_name c).length) NUL) size
      (off + line_indent c + (line_name c).length + 1
        + line_indent ((line_after c).drop 1)) = .ok (line_value c) := by
    have hlen := congrArg List.length hsplitV
    simp only [List.length_append] at hlen
    have hind : line_indent ((line_after c).drop 1)
        = (((line_after c).drop 1).takeWhile isspace).length := rfl
    apply cstr_agrees
    · rw [← hsplitV, List.append_assoc] at hV
      exact ((agrees_append _ _ _ _).1 hV).2
    · intro ch hch
      apply hnul
      apply line_after_mem
      exact List.mem_of_mem_drop ((List.dropWhile_suffix _).subset hch)
    · omega
    · omega
  have hname : cstr size (buf_set (strip_trailing off c.length b)
        (off + line_indent c + (line_name c).length) NUL) size
      (off + line_indent c) = .ok (line_name c) := by
    apply cstr_agrees
    · apply (agrees_append _ _ _ _).2
      refine ⟨?_, by simp [buf_set], trivial⟩
      apply agrees_buf_set _ _ _ _ _ _ (Or.inr (by omega))
      exact ((agrees_append _ _ _ _).1 G1).1
    · intro ch hch; exact hnul ch (hnm ch hch).2
    · omega
    · omega
  have htext : cstr size (buf_set (strip_trailing off c.length b)
        (off + line_indent c + (line_name c).length) NUL) size off
      = .ok (line_text c) := by
    apply cstr_agrees
    · apply (agrees_append _ _ _ _).2
      refine ⟨agrees_buf_set _ _ _ _ _ G3 (Or.inr (by omega)), ?_, trivial⟩
      by_cases hlt : (line_text c).length < line_indent c + (line_name c).length
      · have hne : off + (line_text c).length
            ≠ off + line_indent c + (line_name c).length := by omega
        simp only [buf_set, hne, if_false]
        exact G5 hlt
      · have he : off + (line_text c).length
            = off + line_indent c + (line_name c).length := by omega
        simp [buf_set, he]
    · intro ch hch; exact hnul ch (line_text_mem c ch hch)
    · omega
    · omega
  have e1 : off + line_indent c - off = line_indent c := by omega
  have e2 : off + line_indent c + (line_name c).length + 1
      + line_indent ((line_after c).drop 1) - off = line_value_index c := by
    have hind : line_indent ((line_after c).drop 1)
        = (((line_after c).drop 1).takeWhile isspace).length := rfl
    unfold line_value_index
    omega
  simp only [parse_line, h1, h3, if_false, hend, Nat.add_sub_cancel_left, haj, hav,
    hname, hvalue, htext, e1, e2]


/-! ## Lemmas on the loop of `read_config_file` -/

/-- The second component of the trace is the result of the loop. -/
theorem read_config_trace_snd (default_options : List mg_option)
    (config_file : String) (size : Nat) :
    ∀ (fuel : Nat) (line : Buffer) (line_no : Nat) (stream : List Char)
      (st : Config),
      (read_config_trace default_options config_file size fuel line line_no
          stream st).2
        = read_config_loop default_options config_file size fuel line line_no
            stream st := by
  intro fuel
  induction fuel with
  | zero => intro line line_no stream st; rfl
  | succ n ih =>
    intro line line_no stream st
    simp only [read_config_trace, read_config_loop]
    cases hf : fgets line size stream with
    | none => rfl
    | some p =>
      obtain ⟨line1, rest⟩ := p
      simp only []
      cases hp : parse_line size line1 (bom_offset line1 line_no) with
      | error e => rfl
      | ok o =>
        cases o with
        | none => exact ih _ _ _ _
        | some pl =>
          simp only []
          cases hs : setOption default_options st.g st.options pl.name pl.value with
          | error e => rfl
          | ok t =>
            obtain ⟨r, g1, options1⟩ := t
            exact ih _ _ _ _

/-- One call of `fgets` that takes the chars `chunk` from the stream. -/
theorem fgets_chunk (line : Buffer) (size : Nat) (chunk rest : List Char)
    (hne : chunk ≠ [])
    (hread : fgets_read (size - 1) (chunk ++ rest) = (chunk, rest)) :
    fgets line size (chunk ++ rest)
      = some (buf_write line (chunk ++ [NUL]), rest) := by
  cases chunk with
  | nil => exact absurd rfl hne
  | cons a t =>
    rw [List.cons_append] at hread ⊢
    simp only [fgets, hread]

/-- One turn of the loop on a line that is skipped. -/
theorem read_config_trace_skip (default_options : List mg_option)
    (config_file : String) (size fuel : Nat) (line : Buffer) (line_no : Nat)
    (chunk rest : List Char) (st : Config) (hne : chunk ≠ [])
    (hread : fgets_read (size - 1) (chunk ++ rest) = (chunk, rest))
    (hfit : chunk.length < size)
    (hskip : line_skipped (strip_bom line_no chunk) = true) :
    read_config_trace default_options config_file size (fuel + 1) line line_no
        (chunk ++ rest) st
      = read_config_trace default_options config_file size fuel
          (buf_write line (chunk ++ [NUL])) (line_no + 1) rest st := by
  have hb := bom_offset_agrees (buf_write line (chunk ++ [NUL])) line_no chunk
    (agrees_buf_write line (chunk ++ [NUL]))
  have hp := parse_line_skip size (buf_write line (chunk ++ [NUL]))
    (bom_offset (buf_write line (chunk ++ [NUL])) line_no)
    (strip_bom line_no chunk) hb.2 (by omega) hskip
  simp only [read_config_trace, fgets_chunk line size chunk rest hne hread, hp]

theorem strip_bom_mem (line_no : Nat) (chunk : List Char) (ch : Char)
    (h : ch ∈ strip_bom line_no chunk) : ch ∈ chunk := by
  cases line_no with
  | succ n => simp [strip_bom] at h; exact h
  | zero =>
    match chunk, h with
    | [], h => simp [strip_bom] at h
    | [x], h => simpa [strip_bom] using h
    | [x, y], h => simpa [strip_bom] using h
    | x :: y :: z :: r, h =>
      simp only [strip_bom] at h
      split_ifs at h
      · simp [h]
      · exact h

/-- One turn of the loop on a line without NUL that is not skipped: the call of
`set_option` with the name token and the value token of the line. -/
theorem read_config_trace_step (default_options : List mg_option)
    (config_file : String) (size fuel : Nat) (line : Buffer) (line_no : Nat)
    (chunk rest : List Char) (st : Config) (hne : chunk ≠ [])
    (hread : fgets_read (size - 1) (chunk ++ rest) = (chunk, rest))
    (hfit : chunk.length < size) (hnul : ∀ ch ∈ chunk, ch ≠ NUL)
    (hns : line_skipped (strip_bom line_no chunk) = false)
    (hstale : line_after (strip_bom line_no chunk) ≠ [] ∨
      line_stripped (strip_bom line_no chunk) ≠ strip_bom line_no chunk) :
    ∃ line1 : Buffer,
    read_config_trace default_options config_file size (fuel + 1) line line_no
        (chunk ++ rest) st
      = match setOption default_options st.g st.options
                (String.mk (line_name (strip_bom line_no chunk)))
                (String.mk (line_value (strip_bom line_no chunk))) with
        | .error e =>
          ([(String.mk (line_name (strip_bom line_no chunk)),
             String.mk (line_value (strip_bom line_no chunk)))], .error e)
        | .ok (r, g1, options1) =>
          ((String.mk (line_name (strip_bom line_no chunk)),
            String.mk (line_value (strip_bom line_no chunk))) ::
            (read_config_trace default_options config_file size fuel line1
              (line_no + 1) rest
              { g := g1, options := options1,
                stderr :=
                  if r = 0 then
                    st.stderr ++ [.config_line config_file (line_no + 1)
                      (String.mk (line_text (strip_bom line_no chunk)))]
                  else st.stderr }).1,
            (read_config_trace default_options config_file size fuel line1
              (line_no + 1) rest
              { g := g1, options := options1,
                stderr :=
                  if r = 0 then
                    st.stderr ++ [.config_line config_file (line_no + 1)
                      (String.mk (line_text (strip_bom line_no chunk)))]
                  else st.stderr }).2) := by
  have hb := bom_offset_agrees (buf_write line (chunk ++ [NUL])) line_no chunk
    (agrees_buf_write line (chunk ++ [NUL]))
  have hp := parse_line_eq size (buf_write line (chunk ++ [NUL]))
    (bom_offset (buf_write line (chunk ++ [NUL])) line_no)
    (strip_bom line_no chunk)
    (fun ch hch => hnul ch (strip_bom_mem line_no chunk ch hch)) hb.2 (by omega)
    hns hstale
  refine ⟨buf_set
    (strip_trailing (bom_offset (buf_write line (chunk ++ [NUL])) line_no)
      (strip_bom line_no chunk).length (buf_write line (chunk ++ [NUL])))
    (bom_offset (buf_write line (chunk ++ [NUL])) line_no
      + line_indent (strip_bom line_no chunk)
      + (line_name (strip_bom line_no chunk)).length) NUL, ?_⟩
  simp only [read_config_trace, fgets_chunk line size chunk rest hne hread, hp]

theorem read_config_trace_nil (default_options : List mg_option)
    (config_file : String) (size fuel : Nat) (line : Buffer) (line_no : Nat)
    (st : Config) :
    read_config_trace default_options config_file size fuel line line_no [] st
      = ([], .ok st) := by
  cases fuel <;> rfl

theorem strip_bom_newline (line_no : Nat) (l : List Char) :
    ∃ l1, strip_bom line_no (l ++ ['\n']) = l1 ++ ['\n'] := by
  have hF : ¬ ('\n' = Char.ofNat 0xBF) := by decide
  cases line_no with
  | succ n => exact ⟨l, rfl⟩
  | zero =>
    match l with
    | [] => exact ⟨[], rfl⟩
    | [x] => exact ⟨[x], rfl⟩
    | [x, y] =>
      refine ⟨[x, y], ?_⟩
      simp [strip_bom, hF]
    | x :: y :: z :: r =>
      by_cases hm : x = Char.ofNat 0xEF ∧ y = Char.ofNat 0xBB ∧ z = Char.ofNat 0xBF
      · refine ⟨r, ?_⟩
        show strip_bom 0 (x :: y :: z :: (r ++ ['\n'])) = _
        simp only [strip_bom]
        rw [if_pos hm]
      · refine ⟨x :: y :: z :: r, ?_⟩
        show strip_bom 0 (x :: y :: z :: (r ++ ['\n'])) = _
        simp only [strip_bom]
        rw [if_neg hm]
        rfl

theorem line_stripped_newline (l1 : List Char) :
    line_stripped (l1 ++ ['\n']) ≠ l1 ++ ['\n'] := by
  intro h
  have hs : strippable '\n' = true := by decide
  have e : line_stripped (l1 ++ ['\n']) = line_stripped l1 := by
    simp [line_stripped, List.rdropWhile_concat_pos, hs]
  have := congrArg List.length h
  rw [e] at this
  have hle := line_stripped_length_le l1
  simp at this
  omega

/-- The chars one call of `fgets` takes from a line that ends with a newline
and fits in the array. -/
theorem fgets_read_newline (size : Nat) (l rest : List Char)
    (hl : ∀ ch ∈ l, ch ≠ '\n') (hlen : l.length + 1 < size) :
    fgets_read (size - 1) ((l ++ ['\n']) ++ rest) = (l ++ ['\n'], rest) := by
  have := fgets_read_line l (size - 1) rest hl (by omega)
  simpa using this

/-- The loop on a file of lines that end with a newline, fit in the array and
have no NUL: the calls and the result are those of `apply_lines`. -/
theorem read_config_trace_lines (default_options : List mg_option)
    (config_file : String) (size : Nat) :
    ∀ (ls : List (List Char)) (fuel : Nat) (line : Buffer) (line_no : Nat)
      (st : Config),
      (∀ l ∈ ls, (∀ ch ∈ l, ch ≠ '\n' ∧ ch ≠ NUL) ∧ l.length + 1 < size) →
      (text_of_lines ls).length < fuel →
      read_config_trace default_options config_file size fuel line line_no
          (text_of_lines ls) st
        = apply_lines default_options config_file line_no ls st := by
  intro ls
  induction ls with
  | nil =>
    intro fuel line line_no st _ _
    exact read_config_trace_nil _ _ _ _ _ _ _
  | cons l ls ih =>
    intro fuel line line_no st hls hfuel
    obtain ⟨n, rfl⟩ : ∃ n, fuel = n + 1 := ⟨fuel - 1, by omega⟩
    have hl := hls l (by simp)
    have hls1 : ∀ l1 ∈ ls, (∀ ch ∈ l1, ch ≠ '\n' ∧ ch ≠ NUL) ∧ l1.length + 1 < size :=
      fun l1 h1 => hls l1 (by simp [h1])
    have hn : (text_of_lines ls).length < n := by
      simp [text_of_lines] at hfuel; omega
    have hread := fgets_read_newline size l (text_of_lines ls)
      (fun ch h => (hl.1 ch h).1) hl.2
    have htext : text_of_lines (l :: ls) = (l ++ ['\n']) ++ text_of_lines ls := by
      simp [text_of_lines]
    have hne : l ++ ['\n'] ≠ [] := by simp
    have hfit : (l ++ ['\n']).length < size := by simpa using hl.2
    rw [htext]
    by_cases hskip : line_skipped (strip_bom line_no (l ++ ['\n'])) = true
    · rw [read_config_trace_skip _ _ _ _ _ _ _ _ _ hne hread hfit hskip, apply_lines,
        if_pos hskip]
      exact ih _ _ _ _ hls1 hn
    · have hns : line_skipped (strip_bom line_no (l ++ ['\n'])) = false := by
        simpa using hskip
      have hnul : ∀ ch ∈ l ++ ['\n'], ch ≠ NUL := by
        intro ch hch
        rcases List.mem_append.1 hch with h | h
        · exact (hl.1 ch h).2
        · simp at h; rw [h]; decide
      have hstale : line_after (strip_bom line_no (l ++ ['\n'])) ≠ [] ∨
          line_stripped (strip_bom line_no (l ++ ['\n']))
            ≠ strip_bom line_no (l ++ ['\n']) := by
        obtain ⟨l1, h1⟩ := strip_bom_newline line_no l
        rw [h1]
        exact Or.inr (line_stripped_newline l1)
      obtain ⟨line1, h1⟩ := read_config_trace_step default_options config_file size n
        line line_no (l ++ ['\n']) (text_of_lines ls) st hne hread hfit hnul hns hstale
      rw [h1, apply_lines, if_neg hskip]
      cases hs : setOption default_options st.g st.options
          (String.mk (line_name (strip_bom line_no (l ++ ['\n']))))
          (String.mk (line_value (strip_bom line_no (l ++ ['\n'])))) with
      | error e => rfl
      | ok t =>
        obtain ⟨r, g1, options1⟩ := t
        simp only []
        rw [ih _ _ _ _ hls1 hn]

theorem isspace_ne_marker (a : Char) (h : isspace a = true) :
    a ≠ Char.ofNat 0xEF := by
  intro e
  rw [e] at h
  exact absurd h (by decide)

theorem strip_bom_of_head (line_no : Nat) (chunk : List Char)
    (h : ∀ a r, chunk = a :: r → a ≠ Char.ofNat 0xEF) :
    strip_bom line_no chunk = chunk := by
  cases line_no with
  | succ n => rfl
  | zero =>
    match chunk, h with
    | [], _ => rfl
    | [x], _ => rfl
    | [x, y], _ => rfl
    | x :: y :: z :: r, h =>
      simp only [strip_bom]
      rw [if_neg (fun hm => h x _ rfl hm.1)]

theorem blank_or_comment_head (l t : List Char) (hl : blank_or_comment l = true)
    (ht : ∀ ch ∈ t, isspace ch = true) :
    ∀ a r, l ++ t = a :: r → a ≠ Char.ofNat 0xEF := by
  intro a r h
  cases l with
  | nil =>
    rw [List.nil_append] at h
    exact isspace_ne_marker a (ht a (by rw [h]; simp))
  | cons x l1 =>
    rw [List.cons_append] at h
    cases h
    by_cases hx : isspace a = true
    · exact isspace_ne_marker a hx
    · unfold blank_or_comment at hl
      rw [List.dropWhile_cons_of_neg hx] at hl
      simp at hl
      rw [hl]
      decide

theorem blank_or_comment_skipped (t : List Char) (ht : ∀ ch ∈ t, isspace ch = true) :
    ∀ l : List Char, blank_or_comment l = true → line_skipped (l ++ t) = true := by
  intro l
  induction l with
  | nil =>
    intro _
    have : t.dropWhile isspace = [] := List.dropWhile_eq_nil_iff.2 ht
    simp [line_skipped, this]
  | cons x l1 ih =>
    intro hl
    by_cases hx : isspace x = true
    · unfold blank_or_comment at hl
      rw [List.dropWhile_cons_of_pos hx] at hl
      have := ih hl
      unfold line_skipped at this ⊢
      rw [List.cons_append, List.dropWhile_cons_of_pos hx]
      exact this
    · unfold blank_or_comment at hl
      rw [List.dropWhile_cons_of_neg hx] at hl
      simp at hl
      unfold line_skipped
      rw [List.cons_append, List.dropWhile_cons_of_neg hx]
      simp [hl]

/-- The loop on a file all of whose lines are blank or comments and fit in the
array: no call of `set_option`, and the state is the one given. -/
theorem read_config_trace_comments (default_options : List mg_option)
    (config_file : String) (size : Nat) (last : List Char)
    (hlast : ∀ ch ∈ last, ch ≠ '\n') (hlastlen : last.length < size)
    (hlastb : blank_or_comment last = true) :
    ∀ (ls : List (List Char)) (fuel : Nat) (line : Buffer) (line_no : Nat)
      (st : Config),
      (∀ l ∈ ls, (∀ ch ∈ l, ch ≠ '\n') ∧ l.length + 1 < size ∧
        blank_or_comment l = true) →
      (text_of_lines ls ++ last).length < fuel →
      read_config_trace default_options config_file size fuel line line_no
          (text_of_lines ls ++ last) st
        = ([], .ok st) := by
  intro ls
  induction ls with
  | nil =>
    intro fuel line line_no st _ hfuel
    obtain ⟨n, rfl⟩ : ∃ n, fuel = n + 1 := ⟨fuel - 1, by omega⟩
    by_cases hne : last = []
    · rw [hne]
      exact read_config_trace_nil _ _ _ _ _ _ _
    · have hread : fgets_read (size - 1) (last ++ []) = (last, []) := by
        rw [List.append_nil]
        exact fgets_read_last last (size - 1) hlast (by omega)
      have hskip : line_skipped (strip_bom line_no last) = true := by
        have h1 := blank_or_comment_head last [] hlastb (by simp)
        have h2 := blank_or_comment_skipped [] (by simp) last hlastb
        rw [List.append_nil] at h1 h2
        rw [strip_bom_of_head line_no last h1]
        exact h2
      have e : text_of_lines [] ++ last = last ++ [] := by simp [text_of_lines]
      rw [e, read_config_trace_skip _ _ _ _ _ _ _ _ _ hne hread hlastlen hskip]
      exact read_config_trace_nil _ _ _ _ _ _ _
  | cons l ls ih =>
    intro fuel line line_no st hls hfuel
    obtain ⟨n, rfl⟩ : ∃ n, fuel = n + 1 := ⟨fuel - 1, by omega⟩
    have hl := hls l (by simp)
    have hn : (text_of_lines ls ++ last).length < n := by
      simp [text_of_lines] at hfuel ⊢; omega
    have hread := fgets_read_newline size l (text_of_lines ls ++ last) hl.1 hl.2.1
    have htext : text_of_lines (l :: ls) ++ last
        = (l ++ ['\n']) ++ (text_of_lines ls ++ last) := by
      simp [text_of_lines]
    have hsp : ∀ ch ∈ ['\n'], isspace ch = true := by
      intro ch h; simp at h; rw [h]; decide
    have hskip : line_skipped (strip_bom line_no (l ++ ['\n'])) = true := by
      rw [strip_bom_of_head line_no _ (blank_or_comment_head l ['\n'] hl.2.2 hsp)]
      exact blank_or_comment_skipped ['\n'] hsp l hl.2.2
    rw [htext, read_config_trace_skip _ _ _ _ _ _ _ _ _ (by simp) hread
      (by simpa using hl.2.1) hskip]
    exact ih _ _ _ _ (fun l1 h1 => hls l1 (by simp [h1])) hn


theorem fgets_read_exact :
    ∀ (pre : List Char) (n : Nat) (rest : List Char), (∀ ch ∈ pre, ch ≠ '\n') →
      pre.length = n → fgets_read n (pre ++ rest) = (pre, rest) := by
  intro pre
  induction pre with
  | nil =>
    intro n rest _ hn
    simp at hn
    subst hn
    rfl
  | cons a t ih =>
    intro n rest hl hn
    obtain ⟨m, rfl⟩ : ∃ m, n = m + 1 := ⟨n - 1, by simp at hn; omega⟩
    have ha : a ≠ '\n' := hl a (by simp)
    have := ih m rest (fun c hc => hl c (by simp [hc])) (by simp at hn; omega)
    simp [fgets_read, ha, this]

/-! ## The claims on `read_config_file` -/

/-- The loop on a file of one line: a `#`, then 8190 chars `pad` that are
spaces, then `document_root /tmp`.  The second call of `fgets` gives the end of
the line, which is applied as an option. -/
theorem read_config_trace_long_line (pad : List Char) (hpad : ∀ ch ∈ pad, ch = ' ')
    (hlen : pad.length = 8190) :
    read_config_trace paths_table "civetweb.conf" MAX_CONF_FILE_LINE_SIZE
        ((text_of_lines [('#' :: pad) ++ "document_root /tmp".toList]).length + 1)
        zero_line 0 (text_of_lines [('#' :: pad) ++ "document_root /tmp".toList])
        no_options
      = ([("document_root", "/tmp")],
          .ok { no_options with options := [("document_root", "/tmp")] }) := by
  have hsplit : text_of_lines [('#' :: pad) ++ "document_root /tmp".toList]
      = ('#' :: pad) ++ text_of_lines ["document_root /tmp".toList] := by
    simp [text_of_lines]
  have hread : fgets_read (MAX_CONF_FILE_LINE_SIZE - 1)
      (('#' :: pad) ++ text_of_lines ["document_root /tmp".toList])
      = ('#' :: pad, text_of_lines ["document_root /tmp".toList]) := by
    apply fgets_read_exact
    · intro ch hch
      rcases List.mem_cons.1 hch with h | h
      · rw [h]; decide
      · rw [hpad ch h]; decide
    · simp [MAX_CONF_FILE_LINE_SIZE, hlen]
  have hskip : line_skipped (strip_bom 0 ('#' :: pad)) = true := by
    rw [strip_bom_of_head 0 _ (by
      intro a r h
      cases h
      decide)]
    rfl
  have hlt : (text_of_lines ["document_root /tmp".toList]).length
      < (text_of_lines [('#' :: pad) ++ "document_root /tmp".toList]).length := by
    rw [hsplit]
    simp only [List.length_append, List.length_cons]
    omega
  rw [hsplit, read_config_trace_skip paths_table "civetweb.conf"
    MAX_CONF_FILE_LINE_SIZE _ zero_line 0 ('#' :: pad)
    (text_of_lines ["document_root /tmp".toList]) no_options (by simp) hread
    (by simp [MAX_CONF_FILE_LINE_SIZE, hlen]) hskip]
  rw [← hsplit, read_config_trace_lines paths_table "civetweb.conf"
    MAX_CONF_FILE_LINE_SIZE ["document_root /tmp".toList] _ _ _ _ (by decide) hlt]
  rfl

/-- C16 fails for a comment line longer than the array: the file is the one
line `long_comment`, whose first char is `#`, and the second call of `fgets`
gives the end of that line, which is applied as the option `document_root`. -/
theorem read_config_file_long_comment :
    blank_or_comment long_comment = true ∧
    (read_config_trace paths_table "civetweb.conf" MAX_CONF_FILE_LINE_SIZE
        ((text_of_lines [long_comment]).length + 1) zero_line 0
        (text_of_lines [long_comment]) no_options).1
      = [("document_root", "/tmp")] ∧
    read_config_file paths_table (file_env (text_of_lines [long_comment]))
        zero_line "civetweb.conf" no_options
      = .ok (1, { no_options with options := [("document_root", "/tmp")] }) := by
  have htrace : read_config_trace paths_table "civetweb.conf"
      MAX_CONF_FILE_LINE_SIZE ((text_of_lines [long_comment]).length + 1) zero_line
      0 (text_of_lines [long_comment]) no_options
      = ([("document_root", "/tmp")],
          .ok { no_options with options := [("document_root", "/tmp")] }) :=
    read_config_trace_long_line (List.replicate 8190 ' ')
      (fun ch h => List.eq_of_mem_replicate h) (List.length_replicate _ _)
  have hopen : (file_env (text_of_lines [long_comment])).fopen "civetweb.conf"
      = some (text_of_lines [long_comment]) := rfl
  refine ⟨by rfl, by rw [htrace], ?_⟩
  simp only [read_config_file, hopen]
  rw [← read_config_trace_snd, htrace]


/-- C16 (amended): for every config file all of whose lines are blank or have
`#` as their first char that is not white space, and fit in the array `line`
(a line with its newline leaves room for the NUL; a last line without newline
may have one char more), `read_config_file` never calls `set_option` and
returns 1 with the state it was given: the globals, the option array and
`stderr` are those that the call leaves when the file cannot be opened. -/
theorem read_config_file_comments_only (default_options : List mg_option)
    (env : Env) (line0 : Buffer) (config_file : String) (st : Config)
    (ls : List (List Char)) (last : List Char)
    (hopen : env.fopen config_file = some (text_of_lines ls ++ last))
    (hls : ∀ l ∈ ls, (∀ ch ∈ l, ch ≠ '\n') ∧
      l.length + 1 < MAX_CONF_FILE_LINE_SIZE ∧ blank_or_comment l = true)
    (hlast : (∀ ch ∈ last, ch ≠ '\n') ∧ last.length < MAX_CONF_FILE_LINE_SIZE ∧
      blank_or_comment last = true) :
    (read_config_trace default_options config_file MAX_CONF_FILE_LINE_SIZE
        ((text_of_lines ls ++ last).length + 1) line0 0
        (text_of_lines ls ++ last) st).1 = [] ∧
    read_config_file default_options env line0 config_file st = .ok (1, st) ∧
    ∀ env0 : Env, env0.fopen config_file = none →
      read_config_file default_options env0 line0 config_file st = .ok (0, st) := by
  have h := read_config_trace_comments default_options config_file
    MAX_CONF_FILE_LINE_SIZE last hlast.1 hlast.2.1 hlast.2.2 ls
    ((text_of_lines ls ++ last).length + 1) line0 0 st hls (Nat.lt_succ_self _)
  refine ⟨by rw [h], ?_, ?_⟩
  · simp only [read_config_file, hopen]
    rw [← read_config_trace_snd, h]
  · intro env0 h0
    simp only [read_config_file, h0]

/-- A file of a comment, a blank line, an empty line and a last comment
without newline, for C16 (amended). -/
theorem read_config_file_comments_only_witness :
    (read_config_trace paths_table "civetweb.conf" MAX_CONF_FILE_LINE_SIZE
        ((text_of_lines ["# document_root /tmp".toList, " \t ".toList, []]
            ++ "  #end".toList).length + 1) zero_line 0
        (text_of_lines ["# document_root /tmp".toList, " \t ".toList, []]
            ++ "  #end".toList) seeded).1 = [] ∧
    read_config_file paths_table
        (file_env (text_of_lines ["# document_root /tmp".toList, " \t ".toList, []]
            ++ "  #end".toList)) zero_line "civetweb.conf" seeded
      = .ok (1, seeded) ∧
    ∀ env0 : Env, env0.fopen "civetweb.conf" = none →
      read_config_file paths_table env0 zero_line "civetweb.conf" seeded
        = .ok (0, seeded) :=
  read_config_file_comments_only paths_table
    (file_env (text_of_lines ["# document_root /tmp".toList, " \t ".toList, []]
      ++ "  #end".toList)) zero_line "civetweb.conf" seeded
    ["# document_root /tmp".toList, " \t ".toList, []] "  #end".toList
    (by rfl) (by decide) (by decide)

theorem get_option_none_iff (options : Options) (name : String) :
    get_option options name = none ↔ name ∉ option_names options := by
  induction options with
  | nil => simp [get_option, option_names]
  | cons p rest ih =>
    obtain ⟨k, w⟩ := p
    by_cases hk : k = name
    · simp [get_option, option_names, hk]
    · have hk2 : ¬ name = k := fun h => hk h.symm
      simp only [get_option, hk, if_false, ih]
      simp [option_names, hk2]

/-- What the third loop of `set_option` leaves: the value of the first pair
named `name` is replaced, or the pair is appended when no pair has the name. -/
theorem store_option_result (name value : String) (ms : Option String) :
    ∀ (options : Options) (left : Nat) (options1 : Options),
      store_option name value ms left options = some options1 →
      (∃ pre v1 post, options = pre ++ (name, v1) :: post ∧
          name ∉ option_names pre ∧
          options1 = pre ++ (name, merged_value ms v1 value) :: post) ∨
        (name ∉ option_names options ∧ options1 = options ++ [(name, value)]) := by
  intro options
  induction options with
  | nil =>
    intro left o1 h
    cases left with
    | zero => simp [store_option] at h
    | succ l =>
      simp [store_option] at h
      subst h
      exact Or.inr ⟨by simp [option_names], rfl⟩
  | cons p rest ih =>
    intro left o1 h
    obtain ⟨k, w⟩ := p
    cases left with
    | zero => simp [store_option] at h
    | succ l =>
      by_cases hk : k = name
      · subst hk
        left
        refine ⟨[], w, rest, rfl, by simp [option_names], ?_⟩
        cases ms with
        | none => simp [store_option] at h; subst h; rfl
        | some sep => simp [store_option] at h; subst h; rfl
      · simp only [store_option, hk, if_false] at h
        cases hr : store_option name value ms l rest with
        | none => simp [hr] at h
        | some r1 =>
          simp [hr] at h
          subst h
          have hk2 : ¬ name = k := fun h => hk h.symm
          rcases ih l r1 hr with ⟨pre, v1, post, h1, h2, h3⟩ | ⟨h1, h2⟩
          · left
            refine ⟨(k, w) :: pre, v1, post, by rw [h1]; rfl, ?_, by rw [h3]; rfl⟩
            simp only [option_names, List.map_cons, List.mem_cons, not_or]
            exact ⟨hk2, h2⟩
          · right
            refine ⟨?_, by rw [h2]; rfl⟩
            simp only [option_names, List.map_cons, List.mem_cons, not_or]
            exact ⟨hk2, h1⟩

theorem get_option_append_of_not_mem (pre post : Options) (k : String)
    (h : k ∉ option_names pre) :
    get_option (pre ++ post) k = get_option post k := by
  induction pre with
  | nil => rfl
  | cons p rest ih =>
    obtain ⟨k1, w⟩ := p
    simp only [option_names, List.map_cons, List.mem_cons, not_or] at h
    have hk : ¬ k1 = k := fun e => h.1 e.symm
    simp only [List.cons_append, get_option, hk, if_false]
    exact ih h.2

theorem get_option_append_of_mem (pre post : Options) (k : String)
    (h : k ∈ option_names pre) :
    get_option (pre ++ post) k = get_option pre k := by
  induction pre with
  | nil => simp [option_names] at h
  | cons p rest ih =>
    obtain ⟨k1, w⟩ := p
    by_cases hk : k1 = k
    · simp [get_option, hk]
    · simp only [option_names, List.map_cons, List.mem_cons] at h
      have h2 : k ∈ option_names rest := by
        rcases h with h | h
        · exact absurd h.symm hk
        · exact h
      simp only [List.cons_append, get_option, hk, if_false]
      exact ih h2

/-- The option array after the third loop of `set_option`: the names, the
value of `name` and the values of the other names. -/
theorem store_option_mapping (name value : String) (ms : Option String)
    (options : Options) (left : Nat) (options1 : Options)
    (h : store_option name value ms left options = some options1) :
    (option_names options1 = option_names options ∨
        (name ∉ option_names options ∧
          option_names options1 = option_names options ++ [name])) ∧
      (∀ k, k ≠ name → get_option options1 k = get_option options k) ∧
      get_option options1 name
        = some (match get_option options name with
                | some v1 => merged_value ms v1 value
                | none => value) := by
  rcases store_option_result name value ms options left options1 h with
    ⟨pre, v1, post, h1, h2, h3⟩ | ⟨h1, h2⟩
  · subst h1 h3
    refine ⟨Or.inl (by simp [option_names]), ?_, ?_⟩
    · intro k hk
      have hk2 : ¬ name = k := fun e => hk e.symm
      by_cases hp : k ∈ option_names pre
      · rw [get_option_append_of_mem _ _ _ hp, get_option_append_of_mem _ _ _ hp]
      · rw [get_option_append_of_not_mem _ _ _ hp, get_option_append_of_not_mem _ _ _ hp]
        simp [get_option, hk2]
    · rw [get_option_append_of_not_mem _ _ _ h2, get_option_append_of_not_mem _ _ _ h2]
      simp [get_option]
  · subst h2
    have hn := (get_option_none_iff options name).2 h1
    refine ⟨Or.inr ⟨h1, by simp [option_names]⟩, ?_, ?_⟩
    · intro k hk
      have hk2 : ¬ name = k := fun e => hk e.symm
      by_cases hp : k ∈ option_names options
      · exact get_option_append_of_mem _ _ _ hp
      · rw [get_option_append_of_not_mem _ _ _ hp,
          (get_option_none_iff options k).2 hp]
        simp [get_option, hk2]
    · rw [get_option_append_absent options name value hn, hn]

/-- C21.  A call of `set_option` that returns keeps the option array a mapping
with unique keys in insertion order: when no name occurs twice before the call,
no name occurs twice after it; the names are the names before the call at the
same indexes, with `name` added at the end when it was not yet present (and
with nothing added when it was); the values of all other names are what they
were.  When the call has stored the pair (it returns 1 and `name` is not one
of the names kept outside the array), `get_option(name)` afterwards returns
the stored value: `value` for a new name or a scalar kind, the old value, the
separator and `value` for a list-like kind that was present.  When the call
returns 0 or the name is kept outside the array, the array is unchanged. -/
theorem set_option_unique_keys (default_options : List mg_option) (g g1 : Globals)
    (options options1 : Options) (name value : String) (r : Int)
    (hnd : (option_names options).Nodup)
    (h : setOption default_options g options name value = .ok (r, g1, options1)) :
    (option_names options1).Nodup ∧
      (option_names options1 = option_names options ∨
        (name ∉ option_names options ∧
          option_names options1 = option_names options ++ [name])) ∧
      (∀ k, k ≠ name → get_option options1 k = get_option options k) ∧
      (r = 1 → name ∉ main_option_names →
        ∃ multi_sep,
          check_type (find_type name default_options) name value
            = .ok (some multi_sep) ∧
          get_option options1 name
            = some (match get_option options name with
                    | some v1 => merged_value multi_sep v1 value
                    | none => value)) ∧
      ((r = 0 ∨ name ∈ main_option_names) → options1 = options) := by
  have hsame : options1 = options →
      (option_names options1).Nodup ∧
      (option_names options1 = option_names options ∨
        (name ∉ option_names options ∧
          option_names options1 = option_names options ++ [name])) ∧
      (∀ k, k ≠ name → get_option options1 k = get_option options k) := by
    intro e
    subst e
    exact ⟨hnd, Or.inl rfl, fun _ _ => rfl⟩
  by_cases hmain : name ∈ main_option_names
  · obtain ⟨g2, hg2⟩ := setOption_of_main default_options g options name value hmain
    rw [hg2] at h
    simp only [Except.ok.injEq, Prod.mk.injEq] at h
    obtain ⟨_, _, ho⟩ := h
    obtain ⟨a, b, c⟩ := hsame ho.symm
    exact ⟨a, b, c, fun _ hm => absurd hmain hm, fun _ => ho.symm⟩
  · cases hc : check_type (find_type name default_options) name value with
    | error e =>
      simp [setOption, main_option_loop_none g name value hmain, hc] at h
    | ok o =>
      cases o with
      | none =>
        rw [setOption_of_reject default_options g options name value hmain hc] at h
        simp only [Except.ok.injEq, Prod.mk.injEq] at h
        obtain ⟨hr, _, ho⟩ := h
        obtain ⟨a, b, c⟩ := hsame ho.symm
        refine ⟨a, b, c, ?_, fun _ => ho.symm⟩
        intro h1
        rw [← hr] at h1
        exact absurd h1 (by decide)
      | some ms =>
        rw [setOption_of_check default_options g options name value ms hmain hc] at h
        cases hs : store_option name value ms MAX_OPTIONS options with
        | none => simp [hs] at h
        | some o1 =>
          simp only [hs, Except.ok.injEq, Prod.mk.injEq] at h
          obtain ⟨hr, _, ho⟩ := h
          subst ho
          obtain ⟨hn, hk, hv⟩ := store_option_mapping name value ms options
            MAX_OPTIONS o1 hs
          refine ⟨?_, hn, hk, fun _ _ => ⟨ms, rfl, hv⟩, ?_⟩
          · rcases hn with hn | ⟨hn1, hn2⟩
            · rw [hn]; exact hnd
            · rw [hn2]
              exact List.Nodup.append hnd (List.nodup_singleton _)
                (by simpa using hn1)
          · intro h1
            rcases h1 with h1 | h1
            · rw [← hr] at h1
              exact absurd h1 (by decide)
            · exact absurd h1 hmain

/-- Setting `listening_ports` again in an array of two options, with the
engine table in which it is a list, for C21. -/
theorem set_option_unique_keys_witness :
    (option_names [("document_root", "."), ("listening_ports", "8080,9000")]).Nodup ∧
      (option_names [("document_root", "."), ("listening_ports", "8080,9000")]
          = option_names [("document_root", "."), ("listening_ports", "8080")] ∨
        ("listening_ports" ∉
            option_names [("document_root", "."), ("listening_ports", "8080")] ∧
          option_names [("document_root", "."), ("listening_ports", "8080,9000")]
            = option_names [("document_root", "."), ("listening_ports", "8080")]
                ++ ["listening_ports"])) ∧
      (∀ k, k ≠ "listening_ports" →
        get_option [("document_root", "."), ("listening_ports", "8080,9000")] k
          = get_option [("document_root", "."), ("listening_ports", "8080")] k) ∧
      ((1 : Int) = 1 → "listening_ports" ∉ main_option_names →
        ∃ multi_sep,
          check_type (find_type "listening_ports" ports_list_table)
              "listening_ports" "9000" = .ok (some multi_sep) ∧
          get_option [("document_root", "."), ("listening_ports", "8080,9000")]
              "listening_ports"
            = some (match get_option
                      [("document_root", "."), ("listening_ports", "8080")]
                      "listening_ports" with
                    | some v1 => merged_value multi_sep v1 "9000"
                    | none => "9000")) ∧
      (((1 : Int) = 0 ∨ "listening_ports" ∈ main_option_names) →
        [("document_root", "."), ("listening_ports", "8080,9000")]
          = [("document_root", "."), ("listening_ports", "8080")]) :=
  set_option_unique_keys ports_list_table seeded.g seeded.g
    [("document_root", "."), ("listening_ports", "8080")]
    [("document_root", "."), ("listening_ports", "8080,9000")]
    "listening_ports" "9000" 1 (by decide) (by rfl)


/-! ## The index of the value token -/

theorem scan_ge (size : Nat) (b : Buffer) (stop : Char → Bool) :
    ∀ (fuel j k : Nat), scan size b stop fuel j = .ok k → j ≤ k := by
  intro fuel
  induction fuel with
  | zero => intro j k h; simp [scan] at h
  | succ n ih =>
    intro j k h
    simp only [scan] at h
    split_ifs at h with h1 h2
    · simp only [Except.ok.injEq] at h
      omega
    · have := ih (j + 1) k h
      omega

/-- The loop over the end of the line writes nothing when the line does not
end with white space or a control char. -/
theorem strip_trailing_id (b : Buffer) (off : Nat) (c : List Char)
    (hag : agrees b off c) (hs : line_stripped c = c) :
    strip_trailing off c.length b = b := by
  rcases List.eq_nil_or_concat c with h | ⟨c1, x, h⟩
  · subst h; rfl
  · rw [List.concat_eq_append] at h
    subst h
    have hx : b (off + c1.length) = x := ((agrees_append b c1 [x] off).1 hag).2.1
    have hnot : strippable x = false := by
      by_contra hne
      have hpos : strippable x = true := by simpa using hne
      have e : line_stripped (c1 ++ [x]) = line_stripped c1 := by
        unfold line_stripped
        rw [List.rdropWhile_concat_pos _ _ _ hpos]
      have hl := congrArg List.length hs
      rw [e] at hl
      have hle := line_stripped_length_le c1
      simp at hl
      omega
    have hnot2 : (isspace x || iscntrl x) = false := hnot
    rw [List.length_append, List.length_singleton]
    simp only [strip_trailing, hx, hnot2]
    simp

/-- The body of the loop on a line that ends with its name token: the loop over
the white space in front of the value starts one index behind the NUL that
ends the line, and the value is the string the array holds there. -/
theorem parse_line_stale (size : Nat) (b : Buffer) (off : Nat) (c : List Char)
    (hnul : ∀ ch ∈ c, ch ≠ NUL) (hag : agrees b off (c ++ [NUL]))
    (hfit : off + c.length < size) (hns : line_skipped c = false)
    (ha : line_after c = []) (hs : line_stripped c = c) :
    parse_line size b off =
      match scan size b (fun ch => !isspace ch) size (off + c.length + 1) with
      | .error e => .error e
      | .ok av =>
        match cstr size b size av with
        | .ok value =>
          .ok (some ⟨b, line_indent c, av - off, String.mk (line_name c),
                     String.mk value, String.mk c⟩)
        | .error e => .error e := by
  obtain ⟨h1, h2, hile⟩ := scan_indent size b off c hag hfit
  obtain ⟨y, r, hd, hy1, hy2⟩ : ∃ y r, c.dropWhile isspace = y :: r ∧ y ≠ '#' ∧ y ≠ NUL := by
    unfold line_skipped at hns
    cases hd : c.dropWhile isspace with
    | nil => rw [hd] at hns; simp at hns
    | cons y r =>
      rw [hd] at hns
      simp at hns
      exact ⟨y, r, rfl, hns.1, hns.2⟩
  have h3 : ¬ (b (off + line_indent c) = '#' ∨ b (off + line_indent c) = NUL) := by
    rw [h2, hd]
    simp [hy1, hy2]
  have hend : scan size b (fun ch => ch == NUL) size off = .ok (off + c.length) := by
    apply scan_agrees size b _ NUL (by simp) c size off hag
    · intro ch hch; simpa using hnul ch hch
    · exact hfit
    · omega
  have hc : agrees b off c := ((agrees_append b c [NUL] off).1 hag).1
  have hN : b (off + c.length) = NUL := ((agrees_append b c [NUL] off).1 hag).2.1
  have hb1 : strip_trailing off c.length b = b := strip_trailing_id b off c hc hs
  have hrest : line_rest c = c.drop (line_indent c) := by
    unfold line_rest; rw [hs]
  have hname : line_name c = c.drop (line_indent c) := by
    have := line_name_append_after c
    rw [ha, List.append_nil, hrest] at this
    exact this
  have hnl : line_indent c + (line_name c).length = c.length := by
    rw [hname, List.length_drop]; omega
  have hagn : agrees b (off + line_indent c) (line_name c ++ [NUL]) := by
    have hsplit : c.take (line_indent c) ++ (line_name c ++ [NUL]) = c ++ [NUL] := by
      rw [hname, ← List.append_assoc, List.take_append_drop]
    have := hag
    rw [← hsplit] at this
    have := ((agrees_append _ _ _ off).1 this).2
    rwa [List.length_take, Nat.min_eq_left hile] at this
  have hnm := line_name_mem c
  have haj : scan size b (fun ch => isspace ch || ch == NUL) size (off + line_indent c)
      = .ok (off + c.length) := by
    have := scan_agrees size b (fun ch => isspace ch || ch == NUL) NUL (by simp)
      (line_name c) size (off + line_indent c) hagn
      (by
        intro ch hch
        have h0 := hnm ch hch
        have h4 := hnul ch h0.2
        simp [h0.1, h4])
      (by omega) (by omega)
    rw [this]
    congr 1
    omega
  have hb2 : buf_set b (off + c.length) NUL = b := by
    funext k
    by_cases hk : k = off + c.length
    · simp [buf_set, hk, hN]
    · simp [buf_set, hk]
  have hcn : cstr size b size (off + line_indent c) = .ok (line_name c) :=
    cstr_agrees size b (line_name c) size _ hagn
      (fun ch hch => hnul ch (hnm ch hch).2) (by omega) (by omega)
  have hct : cstr size b size off = .ok c :=
    cstr_agrees size b c size off hag hnul hfit (by omega)
  have e1 : off + line_indent c - off = line_indent c := by omega
  simp only [parse_line, h1, h3, if_false, hend, Nat.add_sub_cancel_left, hb1, haj,
    hb2, hcn, hct, e1]
  cases scan size b (fun ch => !isspace ch) size (off + c.length + 1) with
  | error e => rfl
  | ok av =>
    simp only []
    cases cstr size b size av with
    | error e => rfl
    | ok v => rfl

theorem line_value_suffix (c : List Char) : line_value c <:+ line_stripped c := by
  unfold line_value line_after line_rest
  exact (List.dropWhile_suffix _).trans ((List.drop_suffix _ _).trans
    ((List.dropWhile_suffix _).trans (List.drop_suffix _ _)))

/-- C22.  For a line `c` without NUL that is read into the array and is not
skipped.  When something follows the name, or the line ends with white space
or a control char (a newline), the index `j` at which the value token starts is
at most the length of the line, the value is a suffix of the line without its
trailing white space and control chars, and a line with a name only yields the
empty value.  When the line ends with its name token (a last line without
newline), `p[j] = 0; j++` steps over the NUL that ends the line: `j` is above
the length of the line, and the read is outside the array when the line fills
it.  In the file `document_root /srv/www`, newline, `listening_ports` the second line
gets the value `rv/www`, left in the array by the first line; with a newline
at the end it gets the empty value. -/
theorem read_config_file_value_index (size : Nat) (b : Buffer) (off : Nat)
    (c : List Char) (hnul : ∀ ch ∈ c, ch ≠ NUL) (hag : agrees b off (c ++ [NUL]))
    (hfit : off + c.length < size) (hns : line_skipped c = false) :
    ((line_after c ≠ [] ∨ line_stripped c ≠ c) →
      ∃ pl, parse_line size b off = .ok (some pl) ∧ pl.j ≤ c.length ∧
        pl.value = String.mk (line_value c) ∧
        line_value c <:+ line_stripped c ∧
        (line_after c = [] → pl.value = "")) ∧
    (line_after c = [] → line_stripped c = c →
      (∀ pl, parse_line size b off = .ok (some pl) → c.length < pl.j) ∧
      (off + c.length + 1 = size → parse_line size b off = .error .out_of_bounds)) ∧
    (read_config_trace ports_list_table "civetweb.conf" MAX_CONF_FILE_LINE_SIZE
        ("document_root /srv/www\nlistening_ports".toList.length + 1) zero_line 0
        "document_root /srv/www\nlistening_ports".toList no_options).1
      = [("document_root", "/srv/www"), ("listening_ports", "rv/www")] ∧
    read_config_file ports_list_table
        (file_env "document_root /srv/www\nlistening_ports".toList) zero_line
        "civetweb.conf" no_options
      = .ok (1, { no_options with
          options := [("document_root", "/srv/www"), ("listening_ports", "rv/www")] }) ∧
    read_config_file ports_list_table
        (file_env "document_root /srv/www\nlistening_ports\n".toList) zero_line
        "civetweb.conf" no_options
      = .ok (1, { no_options with
          options := [("document_root", "/srv/www"), ("listening_ports", "")] }) := by
  refine ⟨?_, ?_, by rfl, by rfl, by rfl⟩
  · intro hstale
    have hi : line_indent c < c.length := by
      unfold line_skipped at hns
      cases hd : c.dropWhile isspace with
      | nil => rw [hd] at hns; simp at hns
      | cons y r =>
        have := congrArg List.length (List.takeWhile_append_dropWhile isspace c)
        rw [hd] at this
        simp at this
        unfold line_indent
        omega
    obtain ⟨_, _, _, _, _, G6, G7⟩ := stripped_layout b off c hag hi hstale
    refine ⟨_, parse_line_eq size b off c hnul hag hfit hns hstale, ?_, rfl,
      line_value_suffix c, ?_⟩
    · show line_value_index c ≤ c.length
      have htw : (((line_after c).drop 1).takeWhile isspace).length
          ≤ ((line_after c).drop 1).length := (List.takeWhile_prefix _).length_le
      unfold line_value_index
      cases ha : line_after c with
      | nil =>
        have := G6 ha
        simp
        omega
      | cons sp t =>
        rw [ha] at G7 htw
        simp at G7 htw ⊢
        omega
    · intro ha
      show String.mk (line_value c) = ""
      unfold line_value
      rw [ha]
      rfl
  · intro ha hs
    have hp := parse_line_stale size b off c hnul hag hfit hns ha hs
    constructor
    · intro pl hpl
      rw [hp] at hpl
      cases hsc : scan size b (fun ch => !isspace ch) size (off + c.length + 1) with
      | error e => simp [hsc] at hpl
      | ok av =>
        simp only [hsc] at hpl
        have hge := scan_ge size b _ size _ av hsc
        cases hv : cstr size b size av with
        | error e => simp [hv] at hpl
        | ok v =>
          simp only [hv, Except.ok.injEq, Option.some.injEq] at hpl
          rw [← hpl]
          show c.length < av - off
          omega
    · intro hfull
      rw [hp]
      obtain ⟨n, hn⟩ : ∃ n, size = n + 1 := ⟨size - 1, by omega⟩
      have hsc : scan size b (fun ch => !isspace ch) size (off + c.length + 1)
          = .error .out_of_bounds := by
        rw [hfull]
        conv_lhs => rw [hn]
        simp [scan]
      rw [hsc]

/-- The line `name` in an array that holds `x` behind it, for C22: the line
ends with its name token. -/
theorem read_config_file_value_index_witness :
    ((line_after "name".toList ≠ [] ∨ line_stripped "name".toList ≠ "name".toList) →
      ∃ pl, parse_line MAX_CONF_FILE_LINE_SIZE
            (buf_write (fun _ => 'x') ("name".toList ++ [NUL])) 0
          = .ok (some pl) ∧ pl.j ≤ "name".toList.length ∧
        pl.value = String.mk (line_value "name".toList) ∧
        line_value "name".toList <:+ line_stripped "name".toList ∧
        (line_after "name".toList = [] → pl.value = "")) ∧
    (line_after "name".toList = [] → line_stripped "name".toList = "name".toList →
      (∀ pl, parse_line MAX_CONF_FILE_LINE_SIZE
            (buf_write (fun _ => 'x') ("name".toList ++ [NUL])) 0
          = .ok (some pl) → "name".toList.length < pl.j) ∧
      (0 + "name".toList.length + 1 = MAX_CONF_FILE_LINE_SIZE →
        parse_line MAX_CONF_FILE_LINE_SIZE (buf_write (fun _ => 'x') ("name".toList ++ [NUL])) 0
          = .error .out_of_bounds)) ∧
    (read_config_trace ports_list_table "civetweb.conf" MAX_CONF_FILE_LINE_SIZE
        ("document_root /srv/www\nlistening_ports".toList.length + 1) zero_line 0
        "document_root /srv/www\nlistening_ports".toList no_options).1
      = [("document_root", "/srv/www"), ("listening_ports", "rv/www")] ∧
    read_config_file ports_list_table
        (file_env "document_root /srv/www\nlistening_ports".toList) zero_line
        "civetweb.conf" no_options
      = .ok (1, { no_options with
          options := [("document_root", "/srv/www"), ("listening_ports", "rv/www")] }) ∧
    read_config_file ports_list_table
        (file_env "document_root /srv/www\nlistening_ports\n".toList) zero_line
        "civetweb.conf" no_options
      = .ok (1, { no_options with
          options := [("document_root", "/srv/www"), ("listening_ports", "")] }) :=
  read_config_file_value_index MAX_CONF_FILE_LINE_SIZE
    (buf_write (fun _ => 'x') ("name".toList ++ [NUL])) 0
    "name".toList (by decide) (agrees_buf_write _ _) (by decide) (by rfl)

end PdWebserver
